import Mathlib

/-!
# Verification of the metro-map SAT encode/decode pipeline

Shallow embedding of the repository's three Python modules:
* `encoder.py` — `GeneralSATEncoder` (variable allocation, cardinality
  encodings, bounding boxes, constraint emission);
* `decoder.py` — `SATDecoder` (solver-output parsing, greedy path
  extraction) and the `__main__` path-file writer;
* `parser.py` — `MetroProblem` (only its resulting data model is needed).

Python `dict`s are modelled as association lists in insertion order,
mutable encoder state as an explicit `EncState` record threaded through
each method, and Python `float` arithmetic (only used inside the buffer
heuristic of `calculate_buffer`) as exact rational arithmetic over `ℚ`.
Fallible dictionary lookups (`dict.get`) return `Option`.
-/

namespace MetroMap

/-- The problem model produced by `parser.py` (`MetroProblem.__init__`):
scenario tag, grid sizes `N`/`M`, line count `K`, turn budget `J`,
popular-cell count `P`, the `K` (start, end) endpoint pairs, and the
popular cells. -/
structure MetroProblem where
  scenario : ℤ
  N : ℤ
  M : ℤ
  K : ℤ
  J : ℤ
  P : ℤ
  lines : List ((ℤ × ℤ) × (ℤ × ℤ))
  popular_cells : List (ℤ × ℤ)
deriving DecidableEq, Repr

/-- Variable keys used by `GeneralSATEncoder` as dictionary keys of
`var_map`: the Python tuples `('cell',k,x,y)`, `('dir',k,x,y,d)`,
`('turn',k,x,y)` and `('seq_count',line,i,j)`. -/
inductive VarKey where
  | cell (k x y : ℤ)
  | dir (k x y d : ℤ)
  | turn (k x y : ℤ)
  | seq_count (line i j : ℤ)
deriving DecidableEq, Repr

/-- Mutable state of a `GeneralSATEncoder` object: the fields
`var_counter`, `var_map`, `clauses`, `turn_vars_by_line` (positional by
line index) and `line_bounds` (positional by line index, filled by
`create_variables`). -/
structure EncState where
  var_counter : ℤ
  var_map : List (VarKey × ℤ)
  clauses : List (List ℤ)
  turn_vars_by_line : List (List ℤ)
  line_bounds : List (ℤ × ℤ × ℤ × ℤ)
deriving DecidableEq, Repr

/-- Python `dict` lookup (`var_map.get(key)`) on the insertion-ordered
association list. -/
def lookup (m : List (VarKey × ℤ)) (key : VarKey) : Option ℤ :=
  match m with
  | [] => none
  | (k, v) :: rest => if k = key then some v else lookup rest key

/-- `GeneralSATEncoder.__init__` state for a problem (counter 1, empty
map and clause list, one empty turn-variable bucket per line, no bounds
yet). -/
def initState (pr : MetroProblem) : EncState :=
  { var_counter := 1
    var_map := []
    clauses := []
    turn_vars_by_line := List.replicate pr.K.toNat []
    line_bounds := [] }

/-- `GeneralSATEncoder.new_var`: return the existing id for a seen key,
otherwise record the key at the next counter value and bump the
counter. -/
def new_var (s : EncState) (description : VarKey) : ℤ × EncState :=
  match lookup s.var_map description with
  | some v => (v, s)
  | none =>
      (s.var_counter,
        { s with
          var_map := s.var_map ++ [(description, s.var_counter)]
          var_counter := s.var_counter + 1 })

/-- `GeneralSATEncoder.add_clause`: append the literal list to `clauses`
only when it is non-empty (`if literals:` — the empty Python list is
falsy, so an empty clause is silently dropped). -/
def add_clause (s : EncState) (literals : List ℤ) : EncState :=
  if literals.isEmpty then s
  else { s with clauses := s.clauses ++ [literals] }

/-- The pervasive `p = var_map.get(key); if p: add_clause(...)` idiom
(a missing key, or Python-falsy id, emits nothing; allocated ids are
always ≥ 1, hence truthy). -/
def get_clause (s : EncState) (key : VarKey) (f : ℤ → List ℤ) : EncState :=
  match lookup s.var_map key with
  | some p => add_clause s (f p)
  | none => s

/-- The two-key variant (`if a and b: add_clause(...)`). -/
def get_clause2 (s : EncState) (k1 k2 : VarKey) (f : ℤ → ℤ → List ℤ) : EncState :=
  match lookup s.var_map k1, lookup s.var_map k2 with
  | some a, some b => add_clause s (f a b)
  | _, _ => s

/-- `GeneralSATEncoder.at_most_one`: pairwise O(n²) at-most-one encoding
(`for i; for j > i: add [-v_i, -v_j]`). -/
def at_most_one (s : EncState) (vars : List ℤ) : EncState :=
  match vars with
  | [] => s
  | v :: rest =>
      at_most_one (rest.foldl (fun s w => add_clause s [-v, -w]) s) rest

/-- One inner-loop iteration (index pair `(i, j)`, both ≥ 1) of the first
loop of `at_most_k_efficient`. `v_i` is `vars[i-1]`. -/
def amk_step1 (line : ℤ) (v_i : ℤ) (i j : ℕ) (s : EncState) : EncState :=
  let p := new_var s (.seq_count line (i : ℤ) (j : ℤ))
  let s_i_j := p.1
  let s1 := p.2
  let s2 :=
    if 1 < i then
      get_clause s1 (.seq_count line ((i : ℤ) - 1) (j : ℤ))
        (fun s_prev_i_j => [-s_prev_i_j, s_i_j])
    else s1
  if j = 1 then add_clause s2 [-v_i, s_i_j]
  else
    if 1 < i then
      get_clause s2 (.seq_count line ((i : ℤ) - 1) ((j : ℤ) - 1))
        (fun s_prev_i_j_minus_1 => [-s_prev_i_j_minus_1, -v_i, s_i_j])
    else s2

/-- Row `i` (≥ 1) of the first loop of `at_most_k_efficient`: iterate
`j` over `range(1, min(k + 1, i + 1))`. -/
def amk_row1 (line : ℤ) (kn : ℕ) (vars : List ℤ) (s : EncState) (i : ℕ) : EncState :=
  let v_i := vars.getD (i - 1) 0
  (List.range (min kn i)).foldl (fun s j0 => amk_step1 line v_i i (j0 + 1) s) s

/-- One iteration (index `i` ≥ 1) of the second loop of
`at_most_k_efficient`, threading the Python local `s_i_k_plus_1`
(`none` before the first `k + 1 ≤ i` iteration). -/
def amk_step2 (line : ℤ) (kn : ℕ) (vars : List ℤ)
    (acc : Option ℤ × EncState) (i : ℕ) : Option ℤ × EncState :=
  if kn + 1 ≤ i then
    let p := new_var acc.2 (.seq_count line (i : ℤ) ((kn : ℤ) + 1))
    let s_i_k_plus_1 := p.1
    let s1 := p.2
    let v_i := vars.getD (i - 1) 0
    let s2 :=
      if 1 < i then
        get_clause s1 (.seq_count line ((i : ℤ) - 1) ((kn : ℤ) + 1))
          (fun s_prev => [-s_prev, s_i_k_plus_1])
      else s1
    let s3 :=
      if 1 < i then
        get_clause s2 (.seq_count line ((i : ℤ) - 1) (kn : ℤ))
          (fun s_prev_k => [-s_prev_k, -v_i, s_i_k_plus_1])
      else s2
    (some s_i_k_plus_1, s3)
  else acc

/-- `GeneralSATEncoder.at_most_k_efficient`: sequential counter
encoding, with the `k < 0`, `k == 0` and `k >= n` early branches. -/
def at_most_k_efficient (s : EncState) (vars : List ℤ) (k : ℤ)
    (line_index : ℤ) : EncState :=
  let n := vars.length
  if k < 0 then
    if 0 < n then vars.foldl (fun s v => add_clause s [-v]) s else s
  else if k = 0 then
    vars.foldl (fun s v => add_clause s [-v]) s
  else if (n : ℤ) ≤ k then s
  else
    let kn := k.toNat
    let s :=
      (List.range n).foldl (fun s i0 => amk_row1 line_index kn vars s (i0 + 1)) s
    if k + 1 ≤ (n : ℤ) then
      let r :=
        (List.range n).foldl (fun acc i0 => amk_step2 line_index kn vars acc (i0 + 1))
          (none, s)
      match r.1 with
      | some v => add_clause r.2 [-v]
      | none => r.2
    else s

/-- An exact fraction `num / den`, the model of the Python `float`
values appearing in `calculate_buffer` (all of which are exact ratios
of the input integers and small constants). -/
def frac_gt (a b : ℤ × ℤ) : Bool :=
  0 < (a.1 * b.2 - b.1 * a.2) * (a.2 * b.2)

/-- Python `int(...)` applied to a float modelled as an exact fraction:
truncation toward zero. -/
def int_of_frac (a : ℤ × ℤ) : ℤ := Int.tdiv a.1 a.2

/-- Lexicographic order on `(min_dist, k)` pairs, as used by Python's
`list.sort()` on 2-tuples of ints. -/
def pair_le (a b : ℤ × ℤ) : Bool :=
  a.1 < b.1 ∨ (a.1 = b.1 ∧ a.2 ≤ b.2)

/-- Insertion into a `pair_le`-sorted list. -/
def insert_sorted (x : ℤ × ℤ) : List (ℤ × ℤ) → List (ℤ × ℤ)
  | [] => [x]
  | y :: ys => if pair_le x y then x :: y :: ys else y :: insert_sorted x ys

/-- Python `list.sort()` on the `(min_dist, k)` pairs. `pair_le` is a
total linear order (the `k` components are distinct), so the sorted
permutation is unique and any sorting algorithm, in particular this
structural insertion sort, yields exactly what Python's stable sort
produces. -/
def sort_pairs : List (ℤ × ℤ) → List (ℤ × ℤ)
  | [] => []
  | x :: xs => insert_sorted x (sort_pairs xs)

/-- Python `set.add` on a membership-only set modelled as a list in
first-insertion order. -/
def set_add (l : List ℤ) (v : ℤ) : List ℤ := if v ∈ l then l else l ++ [v]

/-- `GeneralSATEncoder.identify_lines_for_popular_cells`: for each
popular cell, sort all lines by endpoint Manhattan distance and mark the
3 closest ones for bounding-box expansion. -/
def identify_lines_for_popular_cells (pr : MetroProblem) : List ℤ :=
  if pr.scenario ≠ 2 ∨ pr.P = 0 then []
  else
    pr.popular_cells.foldl (fun lines_to_expand pc =>
      let px := pc.1
      let py := pc.2
      let distances := (List.range pr.K.toNat).map (fun kn =>
        let ln := pr.lines.getD kn ((0, 0), (0, 0))
        let min_dist_start := |px - ln.1.1| + |py - ln.1.2|
        let min_dist_end := |px - ln.2.1| + |py - ln.2.2|
        (min min_dist_start min_dist_end, (kn : ℤ)))
      let sorted := sort_pairs distances
      (List.range 3).foldl (fun acc i =>
        match sorted.get? i with
        | some d => set_add acc d.2
        | none => acc) lines_to_expand) []

/-- `GeneralSATEncoder.calculate_buffer`: buffer sized from the turn
budget, the endpoint Manhattan distance relative to the grid size
(float arithmetic modelled as exact fractions: `grid_diagonal` is
`(N + M) / 2`, `length_ratio` is `manhattan / grid_diagonal`, and the
`> 0.8` / `> 0.5` tests are cross-multiplication comparisons; the
`N + M = 0` division, a `ZeroDivisionError` in Python, compares as
false; Python's `//` is floor division, `Int.fdiv`), capped, then
possibly raised for designated popular-cell lines. -/
def calculate_buffer (pr : MetroProblem) (sx sy ex ey J : ℤ)
    (expand_for_popular : Bool) : ℤ :=
  let manhattan := |ex - sx| + |ey - sy|
  let base_buffer := J * 2 + 5
  let grid_diagonal : ℤ × ℤ := (pr.N + pr.M, 2)
  let length_ratio : ℤ × ℤ := (manhattan * grid_diagonal.2, grid_diagonal.1)
  let extra_buffer :=
    if frac_gt length_ratio (8, 10) then int_of_frac (manhattan * 15, 100)
    else if frac_gt length_ratio (5, 10) then int_of_frac (manhattan * 10, 100)
    else 0
  let total_buffer := base_buffer + extra_buffer
  let max_buffer := min 50 (max (Int.fdiv pr.N 3) (max (Int.fdiv pr.M 3) 5))
  let buffer := min total_buffer max_buffer
  if expand_for_popular ∧ pr.scenario = 2 ∧ 0 < pr.P then
    pr.popular_cells.foldl (fun buffer pc =>
      let min_buffer_x := max |pc.1 - sx| |pc.1 - ex|
      let min_buffer_y := max |pc.2 - sy| |pc.2 - ey|
      let needed_buffer := max min_buffer_x min_buffer_y
      if needed_buffer > buffer then min needed_buffer (max pr.N pr.M)
      else buffer) buffer
  else buffer

/-- The closed integer interval `[a, b]` as a list
(Python `range(a, b + 1)`). -/
def int_range (a b : ℤ) : List ℤ :=
  (List.range (b + 1 - a).toNat).map (fun (t : ℕ) => a + (t : ℤ))

/-- The six `new_var` calls of `create_variables` for one in-box cell:
`cell`, the four `dir`s, `turn`. -/
def create_cell_vars (k x y : ℤ) (s : EncState) : EncState :=
  let s := (new_var s (.cell k x y)).2
  let s := ([0, 1, 2, 3] : List ℤ).foldl (fun s d => (new_var s (.dir k x y d)).2) s
  (new_var s (.turn k x y)).2

/-- The bounding box of line `k` as computed in `create_variables`
(endpoint rectangle widened by the buffer, clipped to the grid). -/
def line_box (pr : MetroProblem) (lines_to_expand : List ℤ) (kn : ℕ) : ℤ × ℤ × ℤ × ℤ :=
  let ln := pr.lines.getD kn ((0, 0), (0, 0))
  let sx := ln.1.1
  let sy := ln.1.2
  let ex := ln.2.1
  let ey := ln.2.2
  let expand := decide ((kn : ℤ) ∈ lines_to_expand)
  let buffer := calculate_buffer pr sx sy ex ey pr.J expand
  let min_x := max 0 (min sx ex - buffer)
  let max_x := min (pr.N - 1) (max sx ex + buffer)
  let min_y := max 0 (min sy ey - buffer)
  let max_y := min (pr.M - 1) (max sy ey + buffer)
  (min_x, max_x, min_y, max_y)

/-- `GeneralSATEncoder.create_variables`: per line, record its bounding
box and allocate the cell/direction/turn variables of every box cell. -/
def create_variables (pr : MetroProblem) (s : EncState) : EncState :=
  let lines_to_expand := identify_lines_for_popular_cells pr
  (List.range pr.K.toNat).foldl (fun s kn =>
    let b := line_box pr lines_to_expand kn
    let s := { s with line_bounds := s.line_bounds ++ [b] }
    (int_range b.1 b.2.1).foldl (fun s x =>
      (int_range b.2.2.1 b.2.2.2).foldl (fun s y =>
        create_cell_vars (kn : ℤ) x y s) s) s) s

/-- `GeneralSATEncoder.in_bounds`: membership of `(x, y)` in line `k`'s
recorded bounding box (`self.line_bounds[k]`; an absent entry, a
`KeyError` in Python, is modelled as an empty box). -/
def in_bounds (bounds : List (ℤ × ℤ × ℤ × ℤ)) (k x y : ℤ) : Bool :=
  let b := bounds.getD k.toNat (0, -1, 0, -1)
  b.1 ≤ x ∧ x ≤ b.2.1 ∧ b.2.2.1 ≤ y ∧ y ≤ b.2.2.2

/-- `GeneralSATEncoder.encode_start_end`: unit clauses asserting the
start and end cell variables, when allocated. -/
def encode_start_end (s : EncState) (k sx sy ex ey : ℤ) : EncState :=
  let s1 := get_clause s (.cell k sx sy) (fun start_var => [start_var])
  get_clause s1 (.cell k ex ey) (fun end_var => [end_var])

/-- The outgoing direction-variable ids collected by
`encode_path_connectivity` at `(x, y)` (valid moves toward in-box,
in-grid neighbours; a missing id contributes nothing). -/
def conn_outgoing (N M : ℤ) (bounds : List (ℤ × ℤ × ℤ × ℤ))
    (vm : List (VarKey × ℤ)) (k x y : ℤ) : List ℤ :=
  (if x + 1 < N ∧ in_bounds bounds k (x + 1) y then (lookup vm (.dir k x y 0)).toList else []) ++
  (if 0 ≤ x - 1 ∧ in_bounds bounds k (x - 1) y then (lookup vm (.dir k x y 1)).toList else []) ++
  (if y + 1 < M ∧ in_bounds bounds k x (y + 1) then (lookup vm (.dir k x y 2)).toList else []) ++
  (if 0 ≤ y - 1 ∧ in_bounds bounds k x (y - 1) then (lookup vm (.dir k x y 3)).toList else [])

/-- The incoming direction-variable ids collected by
`encode_path_connectivity` at `(x, y)` (moves of in-box neighbours that
land here). -/
def conn_incoming (N M : ℤ) (bounds : List (ℤ × ℤ × ℤ × ℤ))
    (vm : List (VarKey × ℤ)) (k x y : ℤ) : List ℤ :=
  (if 0 ≤ x - 1 ∧ in_bounds bounds k (x - 1) y then (lookup vm (.dir k (x - 1) y 0)).toList else []) ++
  (if x + 1 < N ∧ in_bounds bounds k (x + 1) y then (lookup vm (.dir k (x + 1) y 1)).toList else []) ++
  (if 0 ≤ y - 1 ∧ in_bounds bounds k x (y - 1) then (lookup vm (.dir k x (y - 1) 2)).toList else []) ++
  (if y + 1 < M ∧ in_bounds bounds k x (y + 1) then (lookup vm (.dir k x (y + 1) 3)).toList else [])

/-- One neighbour case of `encode_direction_implications`: a true
outgoing direction forces the destination cell variable. -/
def dir_implication (s : EncState) (cond : Bool) (dkey nkey : VarKey) : EncState :=
  if cond then
    get_clause2 s dkey nkey (fun dir_var next_cell => [-dir_var, next_cell])
  else s

/-- `GeneralSATEncoder.encode_direction_implications` for cell `(x,y)`:
Right, Left, Down, Up. -/
def encode_direction_implications (N M : ℤ) (bounds : List (ℤ × ℤ × ℤ × ℤ))
    (s : EncState) (k x y : ℤ) : EncState :=
  let s := dir_implication s (x + 1 < N ∧ in_bounds bounds k (x + 1) y)
    (.dir k x y 0) (.cell k (x + 1) y)
  let s := dir_implication s (0 ≤ x - 1 ∧ in_bounds bounds k (x - 1) y)
    (.dir k x y 1) (.cell k (x - 1) y)
  let s := dir_implication s (y + 1 < M ∧ in_bounds bounds k x (y + 1))
    (.dir k x y 2) (.cell k x (y + 1))
  dir_implication s (0 ≤ y - 1 ∧ in_bounds bounds k x (y - 1))
    (.dir k x y 3) (.cell k x (y - 1))

/-- The flow constraints of `encode_path_connectivity` at one cell:
start cell (at least / at most one outgoing, incoming forbidden), end
cell (symmetric), interior cell (gated exactly-one incoming and
outgoing), direction-to-cell links, direction implications. -/
def encode_conn_cell (N M : ℤ) (sx sy ex ey : ℤ) (k : ℤ) (s : EncState)
    (x y : ℤ) : EncState :=
  match lookup s.var_map (.cell k x y) with
  | none => s
  | some cell_var =>
    let outgoing := conn_outgoing N M s.line_bounds s.var_map k x y
    let incoming := conn_incoming N M s.line_bounds s.var_map k x y
    let s :=
      if (x, y) = (sx, sy) then
        let s :=
          if ¬ outgoing.isEmpty then
            at_most_one (add_clause s (-cell_var :: outgoing)) outgoing
          else s
        incoming.foldl (fun s in_dir_var => add_clause s [-in_dir_var]) s
      else if (x, y) = (ex, ey) then
        let s :=
          if ¬ incoming.isEmpty then
            at_most_one (add_clause s (-cell_var :: incoming)) incoming
          else s
        outgoing.foldl (fun s out_dir_var => add_clause s [-out_dir_var]) s
      else
        let s := if ¬ incoming.isEmpty then add_clause s (-cell_var :: incoming) else s
        let s := if ¬ outgoing.isEmpty then add_clause s (-cell_var :: outgoing) else s
        let s := if ¬ incoming.isEmpty then at_most_one s incoming else s
        if ¬ outgoing.isEmpty then at_most_one s outgoing else s
    let s := (outgoing ++ incoming).foldl (fun s d_var => add_clause s [cell_var, -d_var]) s
    encode_direction_implications N M s.line_bounds s k x y

/-- `GeneralSATEncoder.encode_path_connectivity`: the flow constraints
over every cell of line `k`'s bounding box. -/
def encode_path_connectivity (pr : MetroProblem) (s : EncState)
    (k sx sy ex ey : ℤ) : EncState :=
  let b := s.line_bounds.getD k.toNat (0, -1, 0, -1)
  (int_range b.1 b.2.1).foldl (fun s x =>
    (int_range b.2.2.1 b.2.2.2).foldl (fun s y =>
      encode_conn_cell pr.N pr.M sx sy ex ey k s x y) s) s

/-- The labelled incoming direction variables collected by
`encode_turn_constraints` at `(x, y)`: pairs `(d, id)` where `d` is the
movement direction of the neighbour's direction variable. -/
def turn_in_dirs (N M : ℤ) (bounds : List (ℤ × ℤ × ℤ × ℤ))
    (vm : List (VarKey × ℤ)) (k x y : ℤ) : List (ℤ × ℤ) :=
  (if 0 ≤ x - 1 ∧ in_bounds bounds k (x - 1) y then
    ((lookup vm (.dir k (x - 1) y 0)).map (fun v => ((0 : ℤ), v))).toList else []) ++
  (if x + 1 < N ∧ in_bounds bounds k (x + 1) y then
    ((lookup vm (.dir k (x + 1) y 1)).map (fun v => ((1 : ℤ), v))).toList else []) ++
  (if 0 ≤ y - 1 ∧ in_bounds bounds k x (y - 1) then
    ((lookup vm (.dir k x (y - 1) 2)).map (fun v => ((2 : ℤ), v))).toList else []) ++
  (if y + 1 < M ∧ in_bounds bounds k x (y + 1) then
    ((lookup vm (.dir k x (y + 1) 3)).map (fun v => ((3 : ℤ), v))).toList else [])

/-- The labelled outgoing direction variables collected by
`encode_turn_constraints` at `(x, y)`. -/
def turn_out_dirs (N M : ℤ) (bounds : List (ℤ × ℤ × ℤ × ℤ))
    (vm : List (VarKey × ℤ)) (k x y : ℤ) : List (ℤ × ℤ) :=
  (if x + 1 < N ∧ in_bounds bounds k (x + 1) y then
    ((lookup vm (.dir k x y 0)).map (fun v => ((0 : ℤ), v))).toList else []) ++
  (if 0 ≤ x - 1 ∧ in_bounds bounds k (x - 1) y then
    ((lookup vm (.dir k x y 1)).map (fun v => ((1 : ℤ), v))).toList else []) ++
  (if y + 1 < M ∧ in_bounds bounds k x (y + 1) then
    ((lookup vm (.dir k x y 2)).map (fun v => ((2 : ℤ), v))).toList else []) ++
  (if 0 ≤ y - 1 ∧ in_bounds bounds k x (y - 1) then
    ((lookup vm (.dir k x y 3)).map (fun v => ((3 : ℤ), v))).toList else [])

/-- The turn-definition clauses of one (incoming, outgoing) pair:
differing directions force the turn indicator, matching directions
forbid it. -/
def turn_pair_clause (turn_var : ℤ) (s : EncState) (din_v dout_v : ℤ × ℤ) : EncState :=
  if din_v.1 ≠ dout_v.1 then add_clause s [-din_v.2, -dout_v.2, turn_var]
  else add_clause s [-din_v.2, -dout_v.2, -turn_var]

/-- `encode_turn_constraints` at one cell: endpoints are hard-forced to
never be turns; elsewhere the turn indicator implies the cell variable,
every (incoming, outgoing) direction pair gets its definition clause,
and the turn variable is collected into the line's budget list. -/
def encode_turn_cell (N M : ℤ) (sx sy ex ey : ℤ) (k : ℤ) (s : EncState)
    (x y : ℤ) : EncState :=
  match lookup s.var_map (.turn k x y) with
  | none => s
  | some turn_var =>
    if (x, y) = (sx, sy) ∨ (x, y) = (ex, ey) then add_clause s [-turn_var]
    else
      let s :=
        match lookup s.var_map (.cell k x y) with
        | some cell_var => add_clause s [-turn_var, cell_var]
        | none => s
      let in_dirs := turn_in_dirs N M s.line_bounds s.var_map k x y
      let out_dirs := turn_out_dirs N M s.line_bounds s.var_map k x y
      let s := in_dirs.foldl (fun s din_v =>
        out_dirs.foldl (fun s dout_v => turn_pair_clause turn_var s din_v dout_v) s) s
      { s with
        turn_vars_by_line :=
          s.turn_vars_by_line.set k.toNat
            (s.turn_vars_by_line.getD k.toNat [] ++ [turn_var]) }

/-- `GeneralSATEncoder.encode_turn_constraints`: the per-cell turn
definitions over the bounding box followed by the `atMostK` turn
budget over the collected turn variables. -/
def encode_turn_constraints (pr : MetroProblem) (s : EncState)
    (k sx sy ex ey J : ℤ) : EncState :=
  let b := s.line_bounds.getD k.toNat (0, -1, 0, -1)
  let s := (int_range b.1 b.2.1).foldl (fun s x =>
    (int_range b.2.2.1 b.2.2.2).foldl (fun s y =>
      encode_turn_cell pr.N pr.M sx sy ex ey k s x y) s) s
  at_most_k_efficient s (s.turn_vars_by_line.getD k.toNat []) J k

/-- One neighbour case of `encode_anti_parallel_directions`: forbid an
outgoing move and the immediately reversing move together. -/
def anti_parallel_case (s : EncState) (cond : Bool) (okey ikey : VarKey) : EncState :=
  if cond then
    get_clause2 s okey ikey (fun dir_out dir_in => [-dir_out, -dir_in])
  else s

/-- The four anti-reversal cases of one cell of
`encode_anti_parallel_directions`. -/
def anti_parallel_cell (pr : MetroProblem) (k : ℤ) (s : EncState) (x y : ℤ) : EncState :=
  let s := anti_parallel_case s (x + 1 < pr.N ∧ in_bounds s.line_bounds k (x + 1) y)
    (.dir k x y 0) (.dir k (x + 1) y 1)
  let s := anti_parallel_case s (0 ≤ x - 1 ∧ in_bounds s.line_bounds k (x - 1) y)
    (.dir k x y 1) (.dir k (x - 1) y 0)
  let s := anti_parallel_case s (y + 1 < pr.M ∧ in_bounds s.line_bounds k x (y + 1))
    (.dir k x y 2) (.dir k x (y + 1) 3)
  anti_parallel_case s (0 ≤ y - 1 ∧ in_bounds s.line_bounds k x (y - 1))
    (.dir k x y 3) (.dir k x (y - 1) 2)

/-- `GeneralSATEncoder.encode_anti_parallel_directions`: at every box
cell, forbid immediate reversal with each in-box, in-grid neighbour. -/
def encode_anti_parallel_directions (pr : MetroProblem) (s : EncState) (k : ℤ) : EncState :=
  let b := s.line_bounds.getD k.toNat (0, -1, 0, -1)
  (int_range b.1 b.2.1).foldl (fun s x =>
    (int_range b.2.2.1 b.2.2.2).foldl (fun s y =>
      anti_parallel_cell pr k s x y) s) s

/-- The union of all bounding-box cells (`cells_to_check` in
`encode_no_overlap`; the Python `set` iteration order is modelled as
first-insertion order). -/
def cells_to_check (pr : MetroProblem) (bounds : List (ℤ × ℤ × ℤ × ℤ)) : List (ℤ × ℤ) :=
  (List.range pr.K.toNat).foldl (fun acc kn =>
    let b := bounds.getD kn (0, -1, 0, -1)
    (int_range b.1 b.2.1).foldl (fun acc x =>
      (int_range b.2.2.1 b.2.2.2).foldl (fun acc y =>
        if (x, y) ∈ acc then acc else acc ++ [(x, y)]) acc) acc) []

/-- The cell variables of all lines at one grid cell
(`vars_in_cell` in `encode_no_overlap` / `encode_popular_cells`). -/
def vars_in_cell (pr : MetroProblem) (vm : List (VarKey × ℤ)) (x y : ℤ) : List ℤ :=
  (List.range pr.K.toNat).foldl (fun acc (kn : ℕ) =>
    acc ++ (lookup vm (.cell (kn : ℤ) x y)).toList) []

/-- `GeneralSATEncoder.encode_no_overlap`: pairwise at-most-one over the
lines possibly present at each cell covered by more than one box. -/
def encode_no_overlap (pr : MetroProblem) (s : EncState) : EncState :=
  (cells_to_check pr s.line_bounds).foldl (fun s c =>
    let vs := vars_in_cell pr s.var_map c.1 c.2
    if 1 < vs.length then at_most_one s vs else s) s

/-- `GeneralSATEncoder.encode_popular_cells`: assert the disjunction of
the reachable lines' cell variables at each popular cell; when no line
reaches one, `add_clause([])` is called (which, `[]` being falsy,
appends nothing). -/
def encode_popular_cells (pr : MetroProblem) (s : EncState) : EncState :=
  pr.popular_cells.foldl (fun s c =>
    let vs := vars_in_cell pr s.var_map c.1 c.2
    if ¬ vs.isEmpty then add_clause s vs else add_clause s []) s

/-- `GeneralSATEncoder.encode_constraints`: per line start/end,
connectivity, turn, anti-reversal constraints; then non-overlap; then,
in scenario 2 with popular cells, coverage. -/
def encode_constraints (pr : MetroProblem) (s : EncState) : EncState :=
  let s := (List.range pr.K.toNat).foldl (fun s kn =>
    let ln := pr.lines.getD kn ((0, 0), (0, 0))
    let k := (kn : ℤ)
    let s := encode_start_end s k ln.1.1 ln.1.2 ln.2.1 ln.2.2
    let s := encode_path_connectivity pr s k ln.1.1 ln.1.2 ln.2.1 ln.2.2
    let s := encode_turn_constraints pr s k ln.1.1 ln.1.2 ln.2.1 ln.2.2 pr.J
    encode_anti_parallel_directions pr s k) s
  let s := encode_no_overlap pr s
  if pr.scenario = 2 ∧ 0 < pr.P then encode_popular_cells pr s else s

/-- The whole encoding pipeline of `encoder.py`'s `__main__`:
`create_variables` then `encode_constraints` from the initial state. -/
def encode_all (pr : MetroProblem) : EncState :=
  encode_constraints pr (create_variables pr (initState pr))

/-! ## Clause semantics (DIMACS convention) -/

/-- Truth of one signed literal under an assignment of the positive
variable ids: `l > 0` demands the variable true, `l < 0` demands it
false. -/
def evalLit (A : ℤ → Bool) (l : ℤ) : Bool := if 0 < l then A l else !A (-l)

/-- A clause (disjunction) is satisfied when some literal is. -/
def evalClause (A : ℤ → Bool) (c : List ℤ) : Bool := c.any (evalLit A)

/-- A clause set (conjunction) is satisfied when every clause is. -/
def evalClauses (A : ℤ → Bool) (cs : List (List ℤ)) : Bool := cs.all (evalClause A)

/-! ## Decoder (`decoder.py`) -/

/-- Python `str.strip()`: drop leading and trailing whitespace
(structurally recursive over the character data). -/
def py_strip (s : String) : String :=
  ⟨((s.data.dropWhile Char.isWhitespace).reverse.dropWhile Char.isWhitespace).reverse⟩

/-- Python `str.split()` (no separator): split on whitespace runs,
dropping empty tokens. `acc` is the current token, reversed. -/
def split_ws : List Char → List Char → List String
  | [], [] => []
  | [], acc => [⟨acc.reverse⟩]
  | c :: cs, acc =>
      if c.isWhitespace then
        if acc.isEmpty then split_ws cs [] else (⟨acc.reverse⟩ : String) :: split_ws cs []
      else split_ws cs (c :: acc)

/-- Python `int(...)` on a canonical signed-decimal solver token
(Python also accepts surrounding junk or raises on malformed tokens;
solver output only ever holds canonical tokens). -/
def py_int (s : String) : ℤ :=
  match s.data with
  | '-' :: cs => -((cs.foldl (fun acc c => acc * 10 + (c.toNat - 48)) 0 : ℕ) : ℤ)
  | cs => ((cs.foldl (fun acc c => acc * 10 + (c.toNat - 48)) 0 : ℕ) : ℤ)

/-- `line.strip().split()` followed by `int(...)` per token. -/
def parse_tokens (l : String) : List ℤ :=
  (split_ws (py_strip l).data []).map py_int

/-- The assignment pairs built in `SATDecoder.__init__`: literals up to
the `0` sentinel, positive ⇒ true, negative ⇒ false. -/
def build_assignment (nums : List ℤ) : List (ℤ × Bool) :=
  (nums.takeWhile (fun v => v ≠ 0)).map
    (fun v => if 0 < v then (v, true) else (-v, false))

/-- `self.assignment.get(var, False)` over the dict built from the
pairs (a later pair for the same id overwrites an earlier one). -/
def assign_of (pairs : List (ℤ × Bool)) : ℤ → Bool := fun id =>
  match pairs.reverse.find? (fun p => p.1 = id) with
  | some p => p.2
  | none => false

/-- `SATDecoder.__init__` on the solver-output file's lines: an empty
file or a first line `UNSAT` gives `satisfiable = False` and an empty
assignment; otherwise the remaining lines are parsed as signed
literals. -/
def parse_sat_output (ls : List String) : Bool × (ℤ → Bool) :=
  match ls with
  | [] => (false, fun _ => false)
  | first :: rest =>
      if py_strip first = "UNSAT" then (false, fun _ => false)
      else
        (true,
          assign_of (build_assignment (rest.foldl (fun acc l => acc ++ parse_tokens l) [])))

/-- The decoder's direction table `{0: ('R',1,0), 1: ('L',-1,0),
2: ('D',0,1), 3: ('U',0,-1)}`. -/
def dir_map (d : ℕ) : String × ℤ × ℤ :=
  match d with
  | 0 => ("R", 1, 0)
  | 1 => ("L", -1, 0)
  | 2 => ("D", 0, 1)
  | _ => ("U", 0, -1)

/-- Destination of a move in decoder direction `d` from `(x, y)`. -/
def dir_dest (x y : ℤ) (d : ℕ) : ℤ × ℤ :=
  (x + (dir_map d).2.1, y + (dir_map d).2.2)

/-- Eligibility test of one scanned direction in
`extract_path_for_line`: the direction variable exists, is assigned
true, and the destination is unvisited. -/
def dir_eligible (vm : List (VarKey × ℤ)) (A : ℤ → Bool) (k x y : ℤ)
    (visited : List (ℤ × ℤ)) (d : ℕ) : Bool :=
  match lookup vm (.dir k x y (d : ℤ)) with
  | some dir_var => A dir_var && !(visited.contains (dir_dest x y d))
  | none => false

/-- The while-loop of `SATDecoder.extract_path_for_line`: stop at the
end cell; scan directions `0,1,2,3` (R, L, D, U) and take the first
eligible one; stop when none is eligible; stop when the visited set
exceeds `N * M` cells. -/
def extract_go (pr : MetroProblem) (vm : List (VarKey × ℤ)) (A : ℤ → Bool)
    (k ex ey : ℤ) (current : ℤ × ℤ) (visited : List (ℤ × ℤ))
    (path : List String) : List String :=
  if current = (ex, ey) then path
  else
    match ([0, 1, 2, 3] : List ℕ).find? (dir_eligible vm A k current.1 current.2 visited) with
    | none => path
    | some d =>
        let next := dir_dest current.1 current.2 d
        let path' := path ++ [(dir_map d).1]
        let visited' := next :: visited
        if h : (pr.N * pr.M : ℤ) < (visited'.length : ℤ) then path'
        else extract_go pr vm A k ex ey next visited' path'
termination_by (pr.N * pr.M).toNat + 1 - visited.length
decreasing_by
  unfold_let visited' at h ⊢
  simp only [List.length_cons] at h ⊢
  omega

/-- `SATDecoder.extract_path_for_line`: run the walk from the line's
start cell with the visited set seeded with it. -/
def extract_path_for_line (pr : MetroProblem) (vm : List (VarKey × ℤ))
    (A : ℤ → Bool) (k : ℤ) : List String :=
  let ln := pr.lines.getD k.toNat ((0, 0), (0, 0))
  extract_go pr vm A k ln.2.1 ln.2.2 (ln.1.1, ln.1.2) [(ln.1.1, ln.1.2)] []

/-- `SATDecoder.decode`: `None` when unsatisfiable, otherwise one
extracted path per line. -/
def decode (pr : MetroProblem) (vm : List (VarKey × ℤ))
    (sat_lines : List String) : Option (List (List String)) :=
  let p := parse_sat_output sat_lines
  if p.1 = false then none
  else some ((List.range pr.K.toNat).map (fun (kn : ℕ) => extract_path_for_line pr vm p.2 (kn : ℤ)))

/-- The path-output lines written by `decoder.py`'s `__main__`: a bare
`0` when decoding yielded no paths, otherwise one line per path,
space-separated symbols terminated by `0` (a bare `0` for an empty
path). -/
def write_metromap (paths : Option (List (List String))) : List String :=
  match paths with
  | none => ["0"]
  | some ps =>
      ps.map (fun path =>
        if path.isEmpty then "0" else String.intercalate " " path ++ " 0")

/-- The delta of one decoder output symbol (inverse of `dir_map`'s
symbol component; unknown symbols, which the decoder never emits, stay
put). -/
def move_delta (sym : String) : ℤ × ℤ :=
  if sym = "R" then (1, 0)
  else if sym = "L" then (-1, 0)
  else if sym = "D" then (0, 1)
  else if sym = "U" then (0, -1)
  else (0, 0)

/-- The cells visited when a symbol sequence is replayed from `p`
(including `p` itself). -/
def path_trace (p : ℤ × ℤ) : List String → List (ℤ × ℤ)
  | [] => [p]
  | m :: ms => p :: path_trace (p.1 + (move_delta m).1, p.2 + (move_delta m).2) ms

/-! ## Auxiliary definitions for the theorems -/

/-- The keys of a key list in first-use order (first occurrences kept,
later duplicates dropped). -/
def first_uses (keys : List VarKey) : List VarKey :=
  keys.foldl (fun acc k => if k ∈ acc then acc else acc ++ [k]) []

/-- The dense id range `1, 2, …, n` as integers. -/
def int_ids (n : ℕ) : List ℤ := (List.range n).map (fun (t : ℕ) => (t : ℤ) + 1)

/-- A fresh encoder state followed by one `new_var` call per key of a
list. -/
def run_new_vars (pr : MetroProblem) (keys : List VarKey) : EncState :=
  keys.foldl (fun s d => (new_var s d).2) (initState pr)

/-- A scenario-2 problem whose single popular cell `(5, 5)` lies
outside the 3×1 grid, hence outside every line's bounding box: the
`encode_popular_cells` unreachable-cell branch fires for it. -/
def c1_problem : MetroProblem :=
  { scenario := 2, N := 3, M := 1, K := 1, J := 0, P := 1,
    lines := [((0, 0), (2, 0))], popular_cells := [(5, 5)] }

/-- A two-line problem used to exhibit the unsatisfiable-output format. -/
def c3_problem : MetroProblem :=
  { scenario := 1, N := 2, M := 2, K := 2, J := 0, P := 0,
    lines := [((0, 0), (1, 0)), ((0, 1), (1, 1))], popular_cells := [] }

/-- The endpoint of a replayed symbol sequence. -/
def trace_end (p : ℤ × ℤ) : List String → (ℤ × ℤ)
  | [] => p
  | m :: ms => trace_end (p.1 + (move_delta m).1, p.2 + (move_delta m).2) ms

/-! ### Description of the sequential-counter output

Closed-form description of the variable map and clause list produced by
`at_most_k_efficient` in its main branch (`1 ≤ k < n`), against which
the stateful embedding is proved equal: `amkS kn i` counts the
auxiliary variables allocated by the first `i` rows of the first loop,
`sigma1`/`sigma2` give the ids of the first-loop and second-loop
auxiliary variables, and the `…Upto` lists replay the allocations and
emissions in loop order. -/

/-- Number of first-loop auxiliary variables in rows `1..i`
(row `t` holds `min kn t` of them). -/
def amkS (kn i : ℕ) : ℕ := ((List.range i).map (fun t => min kn (t + 1))).sum

/-- Id of the first-loop auxiliary variable `s(i, j)` (`c0` is the
counter value when the call starts). -/
def sigma1 (c0 : ℤ) (kn i j : ℕ) : ℤ := c0 + ((amkS kn (i - 1) + (j - 1) : ℕ) : ℤ)

/-- Id of the second-loop auxiliary variable `s(i, kn + 1)`. -/
def sigma2 (c0 : ℤ) (kn n i : ℕ) : ℤ := c0 + ((amkS kn n + (i - (kn + 1)) : ℕ) : ℤ)

/-- Variable-map entries of row `i`, first `jm` columns. -/
def rowEntriesUpto (line c0 : ℤ) (kn i jm : ℕ) : List (VarKey × ℤ) :=
  (List.range jm).map (fun j0 =>
    (VarKey.seq_count line (i : ℤ) ((j0 + 1 : ℕ) : ℤ), sigma1 c0 kn i (j0 + 1)))

/-- Variable-map entries of the first `im` rows of the first loop. -/
def E1upto (line c0 : ℤ) (kn im : ℕ) : List (VarKey × ℤ) :=
  (List.range im).bind (fun i0 => rowEntriesUpto line c0 kn (i0 + 1) (min kn (i0 + 1)))

/-- Clauses emitted at first-loop position `(i, j)`: the carry clause
when row `i - 1` also holds column `j`, then the increment clause
(simplified when `j = 1`). -/
def rowClausesAt (line c0 : ℤ) (kn : ℕ) (v_i : ℤ) (i j : ℕ) : List (List ℤ) :=
  (if 1 < i ∧ j ≤ i - 1 then [[-sigma1 c0 kn (i - 1) j, sigma1 c0 kn i j]] else []) ++
  (if j = 1 then [[-v_i, sigma1 c0 kn i j]]
   else [[-sigma1 c0 kn (i - 1) (j - 1), -v_i, sigma1 c0 kn i j]])

/-- Clauses of row `i`, first `jm` columns. -/
def rowClausesUpto (line c0 : ℤ) (kn : ℕ) (v_i : ℤ) (i jm : ℕ) : List (List ℤ) :=
  (List.range jm).bind (fun j0 => rowClausesAt line c0 kn v_i i (j0 + 1))

/-- Clauses of the first `im` rows of the first loop. -/
def CL1upto (line c0 : ℤ) (kn : ℕ) (vars : List ℤ) (im : ℕ) : List (List ℤ) :=
  (List.range im).bind (fun i0 =>
    rowClausesUpto line c0 kn (vars.getD i0 0) (i0 + 1) (min kn (i0 + 1)))

/-- Variable-map entries of the first `im` iterations of the second
loop (one per index `i ≥ kn + 1`). -/
def E2upto (line c0 : ℤ) (kn n im : ℕ) : List (VarKey × ℤ) :=
  (List.range im).bind (fun i0 =>
    if kn + 1 ≤ i0 + 1 then
      [(VarKey.seq_count line ((i0 + 1 : ℕ) : ℤ) ((kn : ℤ) + 1), sigma2 c0 kn n (i0 + 1))]
    else [])

/-- Clauses emitted at second-loop index `i`: the carry clause from
`s(i - 1, kn + 1)` when it exists, then the increment clause from
`s(i - 1, kn)`. -/
def step2ClausesAt (line c0 : ℤ) (kn n : ℕ) (v_i : ℤ) (i : ℕ) : List (List ℤ) :=
  if kn + 1 ≤ i then
    (if kn + 2 ≤ i then [[-sigma2 c0 kn n (i - 1), sigma2 c0 kn n i]] else []) ++
    [[-sigma1 c0 kn (i - 1) kn, -v_i, sigma2 c0 kn n i]]
  else []

/-- Clauses of the first `im` iterations of the second loop. -/
def CL2upto (line c0 : ℤ) (kn n : ℕ) (vars : List ℤ) (im : ℕ) : List (List ℤ) :=
  (List.range im).bind (fun i0 => step2ClausesAt line c0 kn n (vars.getD i0 0) (i0 + 1))

/-- The number of true inputs among the first `i` (`α` reads the truth
value of an input variable id). -/
def cntTrue (α : ℤ → Bool) (vars : List ℤ) (i : ℕ) : ℕ :=
  ((vars.take i).filter (fun v => α v)).length

/-- The `(i, j)` index pairs enumerated by the first loop of
`at_most_k_efficient` (1-based, row-major, as the Python loops run). -/
def amkPairs (kn n : ℕ) : List (ℕ × ℕ) :=
  (List.range n).bind (fun i0 =>
    (List.range (min kn (i0 + 1))).map (fun j0 => (i0 + 1, j0 + 1)))

/-- The canonical extension of an input assignment `α` to the auxiliary
sequential-counter variables: `s(i, j)` is true exactly when at least
`j` of the first `i` inputs are true. On input ids it returns `α`. -/
def amkA (α : ℤ → Bool) (vars : List ℤ) (c0 : ℤ) (kn n : ℕ) : ℤ → Bool := fun v =>
  if v ∈ vars then α v
  else
    match (amkPairs kn n).find? (fun p => sigma1 c0 kn p.1 p.2 == v) with
    | some p => decide (p.2 ≤ cntTrue α vars p.1)
    | none =>
        match (List.range n).find?
            (fun i0 => decide (kn + 1 ≤ i0 + 1) && (sigma2 c0 kn n (i0 + 1) == v)) with
        | some i0 => decide (kn + 1 ≤ cntTrue α vars (i0 + 1))
        | none => false

/-! ## Basic lemmas -/

theorem lookup_append (m1 m2 : List (VarKey × ℤ)) (key : VarKey) :
    lookup (m1 ++ m2) key =
      match lookup m1 key with
      | some v => some v
      | none => lookup m2 key := by
  induction m1 with
  | nil => simp [lookup]
  | cons p rest ih =>
      by_cases h : p.1 = key <;> simp [lookup, h, ih]

theorem lookup_eq_none_iff (m : List (VarKey × ℤ)) (key : VarKey) :
    lookup m key = none ↔ key ∉ m.map Prod.fst := by
  induction m with
  | nil => simp [lookup]
  | cons p rest ih =>
      by_cases h : p.1 = key <;> simp [lookup, h, ih] <;> tauto

theorem foldl_neg_unit_clauses (vars : List ℤ) : ∀ s : EncState,
    vars.foldl (fun s v => add_clause s [-v]) s
      = { s with clauses := s.clauses ++ vars.map (fun v => [-v]) } := by
  induction vars with
  | nil => intro s; simp
  | cons v rest ih =>
      intro s
      simp only [List.foldl_cons, List.map_cons]
      rw [ih]
      simp [add_clause]

/-- C4. For every list of `n` variables: `k < 0` or `k = 0` makes
`at_most_k_efficient` emit exactly one unit clause `[-v]` per variable,
in order, touching neither the variable map nor the counter; `k ≥ n`
makes it return the state unchanged. -/
theorem C4_at_most_k_edge_cases :
    (∀ (s : EncState) (vars : List ℤ) (k line : ℤ), k ≤ 0 →
      at_most_k_efficient s vars k line
        = { s with clauses := s.clauses ++ vars.map (fun v => [-v]) }) ∧
    (∀ (s : EncState) (vars : List ℤ) (k line : ℤ), (vars.length : ℤ) ≤ k →
      at_most_k_efficient s vars k line = s) := by
  constructor
  · intro s vars k line hk
    rcases lt_or_eq_of_le hk with hlt | heq
    · simp only [at_most_k_efficient]
      rw [if_pos hlt]
      cases vars with
      | nil => simp
      | cons v rest =>
          rw [if_pos (by simp), foldl_neg_unit_clauses]
    · subst heq
      simp only [at_most_k_efficient]
      norm_num
      rw [foldl_neg_unit_clauses]
  · intro s vars k line hk
    have hn : (0 : ℤ) ≤ (vars.length : ℤ) := by positivity
    rcases eq_or_lt_of_le (le_trans hn hk) with h0 | h0
    · have hlen : vars.length = 0 := by omega
      have hnil : vars = [] := List.length_eq_zero.mp hlen
      subst hnil
      simp only [at_most_k_efficient]
      rw [if_neg (by omega), if_pos (by omega : k = 0)]
      simp
    · simp only [at_most_k_efficient]
      rw [if_neg (by omega), if_neg (by omega : ¬ k = 0), if_pos hk]

/-- C4 witness: the `k = 0` case on two variables and the `k ≥ n` case
on one variable, evaluated concretely. -/
theorem C4_at_most_k_edge_cases_witness :
    at_most_k_efficient
        { var_counter := 9, var_map := [], clauses := [[1]],
          turn_vars_by_line := [], line_bounds := [] } [5, 7] 0 0
      = { var_counter := 9, var_map := [], clauses := [[1], [-5], [-7]],
          turn_vars_by_line := [], line_bounds := [] } ∧
    at_most_k_efficient
        { var_counter := 9, var_map := [], clauses := [[1]],
          turn_vars_by_line := [], line_bounds := [] } [5] 3 0
      = { var_counter := 9, var_map := [], clauses := [[1]],
          turn_vars_by_line := [], line_bounds := [] } := by
  constructor
  · rw [C4_at_most_k_edge_cases.1 _ [5, 7] 0 0 (by decide)]
    decide
  · rw [C4_at_most_k_edge_cases.2 _ [5] 3 0 (by decide)]

/-- C8. The allocator: re-allocating a seen key returns its original
id and changes nothing; a fresh key receives the current counter value
and bumps the counter; and after any call sequence from a fresh
encoder the map holds exactly the distinct keys in first-use order,
paired in order with the dense ids `1..m`. -/
theorem C8_new_var_allocator :
    (∀ (s : EncState) (d : VarKey) (v : ℤ),
      lookup s.var_map d = some v → new_var s d = (v, s)) ∧
    (∀ (s : EncState) (d : VarKey),
      lookup s.var_map d = none →
        new_var s d =
          (s.var_counter,
            { s with
              var_map := s.var_map ++ [(d, s.var_counter)]
              var_counter := s.var_counter + 1 })) ∧
    (∀ (pr : MetroProblem) (keys : List VarKey),
      (run_new_vars pr keys).var_map.map Prod.fst = first_uses keys ∧
      (run_new_vars pr keys).var_map.map Prod.snd = int_ids (first_uses keys).length ∧
      (run_new_vars pr keys).var_counter = 1 + ((first_uses keys).length : ℤ) ∧
      (first_uses keys).Nodup ∧ (int_ids (first_uses keys).length).Nodup) := by
  refine ⟨?_, ?_, ?_⟩
  · intro s d v h
    unfold new_var
    rw [h]
  · intro s d h
    unfold new_var
    rw [h]
  · intro pr keys
    -- invariant-carrying fold induction, generalized over the start state
    have main : ∀ (keys : List VarKey) (s : EncState),
        s.var_map.map Prod.snd = int_ids s.var_map.length →
        s.var_counter = 1 + (s.var_map.length : ℤ) →
        (keys.foldl (fun s d => (new_var s d).2) s).var_map.map Prod.fst
            = keys.foldl (fun acc k => if k ∈ acc then acc else acc ++ [k])
                (s.var_map.map Prod.fst) ∧
        (keys.foldl (fun s d => (new_var s d).2) s).var_map.map Prod.snd
            = int_ids (keys.foldl (fun s d => (new_var s d).2) s).var_map.length ∧
        (keys.foldl (fun s d => (new_var s d).2) s).var_counter
            = 1 + ((keys.foldl (fun s d => (new_var s d).2) s).var_map.length : ℤ) := by
      intro keys
      induction keys with
      | nil => intro s h1 h2; exact ⟨rfl, h1, h2⟩
      | cons d rest ih =>
          intro s h1 h2
          simp only [List.foldl_cons]
          by_cases hmem : d ∈ s.var_map.map Prod.fst
          · have hl : ∃ v, lookup s.var_map d = some v := by
              cases hcase : lookup s.var_map d with
              | some v => exact ⟨v, rfl⟩
              | none => exact absurd ((lookup_eq_none_iff _ _).mp hcase) (by simpa using hmem)
            rcases hl with ⟨v, hv⟩
            have hstep : new_var s d = (v, s) := by unfold new_var; rw [hv]
            rw [hstep]
            have := ih s h1 h2
            simpa [hmem] using this
          · have hl : lookup s.var_map d = none := (lookup_eq_none_iff _ _).mpr hmem
            have hn : new_var s d =
                (s.var_counter,
                  { s with
                    var_map := s.var_map ++ [(d, s.var_counter)]
                    var_counter := s.var_counter + 1 }) := by
              unfold new_var; rw [hl]
            rw [hn]
            have h1' : ({ s with
                var_map := s.var_map ++ [(d, s.var_counter)]
                var_counter := s.var_counter + 1 } : EncState).var_map.map Prod.snd
                = int_ids ({ s with
                    var_map := s.var_map ++ [(d, s.var_counter)]
                    var_counter := s.var_counter + 1 } : EncState).var_map.length := by
              simp only [List.map_append, List.length_append, List.map_cons, List.map_nil,
                List.length_cons, List.length_nil]
              rw [h1, h2]
              simp [int_ids, List.range_succ, add_comm]
            have h2' : ({ s with
                var_map := s.var_map ++ [(d, s.var_counter)]
                var_counter := s.var_counter + 1 } : EncState).var_counter
                = 1 + (({ s with
                    var_map := s.var_map ++ [(d, s.var_counter)]
                    var_counter := s.var_counter + 1 } : EncState).var_map.length : ℤ) := by
              simp only [List.length_append, List.length_cons, List.length_nil]
              push_cast
              omega
            have := ih _ h1' h2'
            simpa [hmem] using this
    have base := main keys (initState pr) (by simp [initState, int_ids]) (by simp [initState])
    have hfu : first_uses keys
        = keys.foldl (fun acc k => if k ∈ acc then acc else acc ++ [k])
            ((initState pr).var_map.map Prod.fst) := by
      simp [first_uses, initState]
    have hnodup : ∀ (keys : List VarKey) (acc : List VarKey), acc.Nodup →
        (keys.foldl (fun acc k => if k ∈ acc then acc else acc ++ [k]) acc).Nodup := by
      intro keys
      induction keys with
      | nil => intro acc h; exact h
      | cons d rest ih =>
          intro acc h
          simp only [List.foldl_cons]
          by_cases hmem : d ∈ acc
          · simpa [hmem] using ih acc h
          · refine ih _ ?_
            · simp only [if_neg hmem]
              simpa [List.nodup_append] using ⟨h, hmem⟩
    simp only [run_new_vars]
    refine ⟨?_, ?_, ?_, ?_, ?_⟩
    · rw [hfu]; exact base.1
    · rw [base.2.1]
      congr 1
      have := congrArg List.length base.1
      simpa [hfu] using this
    · rw [base.2.2]
      congr 1
      have := congrArg List.length base.1
      simpa [hfu] using this
    · rw [hfu]; exact hnodup keys [] (by simp)
    · have hinj : Function.Injective (fun t : ℕ => (t : ℤ) + 1) := by
        intro a b hab
        simp only at hab
        omega
      exact List.Nodup.map hinj (List.nodup_range _)

/-! ## Decoder claims -/

/-- C3 (amended). A solver result whose first line is `UNSAT` decodes
to no paths, and the written path output is the single line `0`,
regardless of the number of metro lines. -/
theorem C3_unsat_single_zero_line (pr : MetroProblem) (vm : List (VarKey × ℤ))
    (first : String) (rest : List String) (h : py_strip first = "UNSAT") :
    decode pr vm (first :: rest) = none ∧
    write_metromap (decode pr vm (first :: rest)) = ["0"] := by
  have hd : decode pr vm (first :: rest) = none := by
    simp [decode, parse_sat_output, h]
  exact ⟨hd, by rw [hd]; rfl⟩

/-- C3 witness: the amended statement evaluated on a concrete problem
and solver file. -/
theorem C3_unsat_single_zero_line_witness :
    decode c3_problem [] ["UNSAT"] = none ∧
    write_metromap (decode c3_problem [] ["UNSAT"]) = ["0"] :=
  C3_unsat_single_zero_line c3_problem [] "UNSAT" [] (by decide)

/-- C3 counterexample: for the unsatisfiable two-line problem the
output file is the single line `0`, not one `0` line per metro line
(`K = 2` would require `["0", "0"]`). -/
theorem C3_counterexample :
    decode c3_problem [] ["UNSAT"] = none ∧
    write_metromap (decode c3_problem [] ["UNSAT"]) = ["0"] ∧
    write_metromap (decode c3_problem [] ["UNSAT"])
      ≠ List.replicate c3_problem.K.toNat "0" := by
  refine ⟨by decide, by decide, by decide⟩

/-- C9. The decoder's path extraction is a pure function of the
problem, variable map, assignment and line index (equal inputs give
equal outputs), and the direction scan returns exactly the first index
of the fixed order `0,1,2,3` (R, L, D, U) whose variable is assigned
true and whose destination is unvisited. -/
theorem C9_decoder_deterministic :
    (∀ (pr₁ pr₂ : MetroProblem) (vm₁ vm₂ : List (VarKey × ℤ))
        (A₁ A₂ : ℤ → Bool) (k₁ k₂ : ℤ),
      pr₁ = pr₂ → vm₁ = vm₂ → A₁ = A₂ → k₁ = k₂ →
      extract_path_for_line pr₁ vm₁ A₁ k₁ = extract_path_for_line pr₂ vm₂ A₂ k₂) ∧
    (∀ (vm : List (VarKey × ℤ)) (A : ℤ → Bool) (k x y : ℤ)
        (visited : List (ℤ × ℤ)) (d : ℕ),
      (([0, 1, 2, 3] : List ℕ).find? (dir_eligible vm A k x y visited)) = some d →
      d < 4 ∧ dir_eligible vm A k x y visited d = true ∧
        ∀ d' : ℕ, d' < d → dir_eligible vm A k x y visited d' = false) := by
  constructor
  · intro pr₁ pr₂ vm₁ vm₂ A₁ A₂ k₁ k₂ h1 h2 h3 h4
    subst h1; subst h2; subst h3; subst h4; rfl
  · intro vm A k x y visited d h
    have hmem : d ∈ ([0, 1, 2, 3] : List ℕ) := List.mem_of_find?_eq_some h
    have h4 : d < 4 := by
      simp only [List.mem_cons, List.not_mem_nil, or_false] at hmem
      omega
    refine ⟨h4, List.find?_some h, ?_⟩
    intro d' hd'
    by_cases e0 : dir_eligible vm A k x y visited 0 = true
    · have hd0 : d = 0 := by simp [List.find?, e0] at h; omega
      exact absurd (hd0 ▸ hd') (Nat.not_lt_zero _)
    · by_cases e1 : dir_eligible vm A k x y visited 1 = true
      · have hd1 : d = 1 := by simp [List.find?, e0, e1] at h; omega
        have hd'0 : d' = 0 := by omega
        subst hd'0
        simpa using e0
      · by_cases e2 : dir_eligible vm A k x y visited 2 = true
        · have hd2 : d = 2 := by simp [List.find?, e0, e1, e2] at h; omega
          subst hd2
          interval_cases d'
          · simpa using e0
          · simpa using e1
        · by_cases e3 : dir_eligible vm A k x y visited 3 = true
          · have hd3 : d = 3 := by simp [List.find?, e0, e1, e2, e3] at h; omega
            subst hd3
            interval_cases d'
            · simpa using e0
            · simpa using e1
            · simpa using e2
          · simp [List.find?, e0, e1, e2, e3] at h

/-- C9 witness: the determinism part applied at concrete equal
inputs. -/
theorem C9_decoder_deterministic_witness :
    extract_path_for_line c3_problem [] (fun _ => false) 0
      = extract_path_for_line c3_problem [] (fun _ => false) 0 :=
  C9_decoder_deterministic.1 c3_problem c3_problem [] [] _ _ 0 0 rfl rfl rfl rfl

theorem path_trace_length (ms : List String) : ∀ p, (path_trace p ms).length = ms.length + 1 := by
  induction ms with
  | nil => intro p; rfl
  | cons m ms ih => intro p; simp [path_trace, ih]

theorem path_trace_append_one (ms : List String) : ∀ (p : ℤ × ℤ) (m : String),
    path_trace p (ms ++ [m])
      = path_trace p ms
          ++ [((trace_end p ms).1 + (move_delta m).1, (trace_end p ms).2 + (move_delta m).2)] := by
  induction ms with
  | nil => intro p m; rfl
  | cons m0 ms ih =>
      intro p m
      simp only [List.cons_append, path_trace, trace_end]
      simp only [List.append_eq]
      rw [ih]

theorem trace_end_append_one (ms : List String) : ∀ (p : ℤ × ℤ) (m : String),
    trace_end p (ms ++ [m])
      = ((trace_end p ms).1 + (move_delta m).1, (trace_end p ms).2 + (move_delta m).2) := by
  induction ms with
  | nil => intro p m; rfl
  | cons m0 ms ih =>
      intro p m
      simp only [List.cons_append, trace_end, List.append_eq]
      rw [ih]

theorem move_delta_dir_map (d : ℕ) (hd : d < 4) :
    move_delta (dir_map d).1 = (dir_map d).2 := by
  interval_cases d <;> rfl

theorem dir_eligible_not_visited (vm : List (VarKey × ℤ)) (A : ℤ → Bool)
    (k x y : ℤ) (visited : List (ℤ × ℤ)) (d : ℕ)
    (h : dir_eligible vm A k x y visited d = true) :
    dir_dest x y d ∉ visited := by
  unfold dir_eligible at h
  cases hl : lookup vm (.dir k x y (d : ℤ)) with
  | none => rw [hl] at h; cases h
  | some id =>
      rw [hl] at h
      have := (Bool.and_eq_true _ _).mp h
      simpa using this.2

/-- Invariant of the decoder walk: when the visited set is exactly the
reversed trace of the accumulated path and the current cell is the
trace's endpoint, the walk preserves a duplicate-free trace and the
size cap. -/
theorem extract_go_trace_spec (pr : MetroProblem) (vm : List (VarKey × ℤ)) (A : ℤ → Bool)
    (k ex ey : ℤ) :
    ∀ (fuel : ℕ) (s0 current : ℤ × ℤ) (visited : List (ℤ × ℤ)) (path : List String),
      (pr.N * pr.M).toNat + 2 - visited.length ≤ fuel →
      visited = (path_trace s0 path).reverse →
      current = trace_end s0 path →
      visited.Nodup →
      visited.length ≤ (pr.N * pr.M).toNat + 1 →
      (path_trace s0 (extract_go pr vm A k ex ey current visited path)).Nodup ∧
      (extract_go pr vm A k ex ey current visited path).length ≤ (pr.N * pr.M).toNat + 1 := by
  intro fuel
  induction fuel with
  | zero =>
      intro s0 current visited path hfuel hvis hcur hnd hlen
      exfalso; omega
  | succ fuel ih =>
      intro s0 current visited path hfuel hvis hcur hnd hlen
      have hlen_trace : visited.length = path.length + 1 := by
        rw [hvis, List.length_reverse, path_trace_length]
      rw [extract_go]
      by_cases hcurend : current = (ex, ey)
      · rw [if_pos hcurend]
        exact ⟨by rw [← List.nodup_reverse, ← hvis]; exact hnd, by omega⟩
      · rw [if_neg hcurend]
        cases hfind : ([0, 1, 2, 3] : List ℕ).find?
            (dir_eligible vm A k current.1 current.2 visited) with
        | none =>
            simp only [hfind]
            exact ⟨by rw [← List.nodup_reverse, ← hvis]; exact hnd, by omega⟩
        | some d =>
            simp only [hfind]
            have hd4 : d < 4 := by
              have hmem := List.mem_of_find?_eq_some hfind
              simp only [List.mem_cons, List.not_mem_nil, or_false] at hmem
              omega
            have helig := List.find?_some hfind
            have hnotvis : dir_dest current.1 current.2 d ∉ visited :=
              dir_eligible_not_visited _ _ _ _ _ _ _ helig
            have htrace' : path_trace s0 (path ++ [(dir_map d).1])
                = path_trace s0 path ++ [dir_dest current.1 current.2 d] := by
              rw [path_trace_append_one, move_delta_dir_map d hd4, ← hcur]
              rfl
            have hvis' : (dir_dest current.1 current.2 d) :: visited
                = (path_trace s0 (path ++ [(dir_map d).1])).reverse := by
              rw [htrace']
              simp [hvis]
            have hcur' : dir_dest current.1 current.2 d
                = trace_end s0 (path ++ [(dir_map d).1]) := by
              rw [trace_end_append_one, move_delta_dir_map d hd4, ← hcur]
              rfl
            have hnd' : ((dir_dest current.1 current.2 d) :: visited).Nodup :=
              List.nodup_cons.mpr ⟨hnotvis, hnd⟩
            by_cases hcap : (pr.N * pr.M : ℤ)
                < (((dir_dest current.1 current.2 d) :: visited).length : ℤ)
            · rw [dif_pos hcap]
              refine ⟨?_, ?_⟩
              · rw [← List.nodup_reverse, ← hvis']
                exact hnd'
              · simp only [List.length_append, List.length_cons, List.length_nil]
                omega
            · rw [dif_neg hcap]
              apply ih
              · simp only [List.length_cons]
                omega
              · exact hvis'
              · exact hcur'
              · exact hnd'
              · simp only [List.length_cons] at hcap ⊢
                omega

/-- C10. The decoder's per-line extraction is total (it is defined by
well-founded recursion on the visited-set capacity) and its result,
replayed from the line's start cell, never visits any cell twice; the
emitted move sequence is bounded by the grid's cell count plus one. -/
theorem C10_extract_path_no_revisit (pr : MetroProblem) (vm : List (VarKey × ℤ))
    (A : ℤ → Bool) (k : ℤ) :
    (path_trace ((pr.lines.getD k.toNat ((0, 0), (0, 0))).1.1,
        (pr.lines.getD k.toNat ((0, 0), (0, 0))).1.2)
      (extract_path_for_line pr vm A k)).Nodup ∧
    (extract_path_for_line pr vm A k).length ≤ (pr.N * pr.M).toNat + 1 := by
  unfold extract_path_for_line
  exact extract_go_trace_spec pr vm A k _ _ ((pr.N * pr.M).toNat + 2) _ _ _ []
    (by simp only [List.length_cons, List.length_nil]; omega) rfl rfl (by simp)
    (by simp only [List.length_cons, List.length_nil]; omega)

/-- C8 witness: the idempotence part applied at a concrete state whose
map already holds a key. -/
theorem C8_new_var_allocator_witness :
    new_var
        { var_counter := 2, var_map := [(VarKey.cell 0 0 0, 1)], clauses := [],
          turn_vars_by_line := [], line_bounds := [] } (VarKey.cell 0 0 0)
      = (1,
          { var_counter := 2, var_map := [(VarKey.cell 0 0 0, 1)], clauses := [],
            turn_vars_by_line := [], line_bounds := [] }) :=
  C8_new_var_allocator.1 _ _ _ (by decide)


/-! ## State-evolution lemmas for the constraint encoders -/

/-- Lookups that succeed keep succeeding with the same id. -/
def MapMono (s s' : EncState) : Prop :=
  ∀ key v, lookup s.var_map key = some v → lookup s'.var_map key = some v

/-- Emitted clauses are never removed. -/
def ClausesMono (s s' : EncState) : Prop :=
  ∀ c, c ∈ s.clauses → c ∈ s'.clauses

theorem add_clause_var_map (s : EncState) (l : List ℤ) :
    (add_clause s l).var_map = s.var_map := by
  unfold add_clause; split <;> rfl

theorem add_clause_line_bounds (s : EncState) (l : List ℤ) :
    (add_clause s l).line_bounds = s.line_bounds := by
  unfold add_clause; split <;> rfl

theorem add_clause_clauses_mono (s : EncState) (l : List ℤ) :
    ClausesMono s (add_clause s l) := by
  intro c hc
  unfold add_clause
  split
  · exact hc
  · exact List.mem_append_left _ hc

theorem add_clause_self_mem (s : EncState) (l : List ℤ) (hl : ¬ l.isEmpty) :
    l ∈ (add_clause s l).clauses := by
  unfold add_clause
  rw [if_neg hl]
  simp

theorem new_var_clauses (s : EncState) (d : VarKey) :
    ((new_var s d).2).clauses = s.clauses := by
  unfold new_var; split <;> rfl

theorem new_var_line_bounds (s : EncState) (d : VarKey) :
    ((new_var s d).2).line_bounds = s.line_bounds := by
  unfold new_var; split <;> rfl

theorem new_var_mapmono (s : EncState) (d : VarKey) : MapMono s ((new_var s d).2) := by
  intro key v hv
  unfold new_var
  cases hl : lookup s.var_map d with
  | some w => exact hv
  | none =>
      simp only [lookup_append, hv]

theorem new_var_establish (s : EncState) (d : VarKey) :
    ∃ v, lookup ((new_var s d).2).var_map d = some v := by
  unfold new_var
  cases hl : lookup s.var_map d with
  | some w => exact ⟨w, hl⟩
  | none =>
      refine ⟨s.var_counter, ?_⟩
      rw [lookup_append, hl]
      simp [lookup]

theorem foldl_var_map_eq {α : Type _} (f : EncState → α → EncState)
    (hf : ∀ s a, (f s a).var_map = s.var_map) (l : List α) :
    ∀ s, (l.foldl f s).var_map = s.var_map := by
  induction l with
  | nil => intro s; rfl
  | cons a l ih => intro s; rw [List.foldl_cons, ih, hf]

theorem foldl_line_bounds_eq {α : Type _} (f : EncState → α → EncState)
    (hf : ∀ s a, (f s a).line_bounds = s.line_bounds) (l : List α) :
    ∀ s, (l.foldl f s).line_bounds = s.line_bounds := by
  induction l with
  | nil => intro s; rfl
  | cons a l ih => intro s; rw [List.foldl_cons, ih, hf]

theorem foldl_clauses_mono {α : Type _} (f : EncState → α → EncState)
    (hf : ∀ s a, ClausesMono s (f s a)) (l : List α) :
    ∀ s, ClausesMono s (l.foldl f s) := by
  induction l with
  | nil => intro s c hc; exact hc
  | cons a l ih =>
      intro s c hc
      exact ih (f s a) c (hf s a c hc)

theorem foldl_mapmono {α : Type _} (f : EncState → α → EncState)
    (hf : ∀ s a, MapMono s (f s a)) (l : List α) :
    ∀ s, MapMono s (l.foldl f s) := by
  induction l with
  | nil => intro s key v hv; exact hv
  | cons a l ih =>
      intro s key v hv
      exact ih (f s a) key v (hf s a key v hv)

theorem foldl_mapmono_establish {α : Type _} (f : EncState → α → EncState)
    (hf : ∀ s a, MapMono s (f s a)) (l : List α) (a : α) (ha : a ∈ l) (key : VarKey)
    (hest : ∀ s, ∃ v, lookup ((f s a)).var_map key = some v) :
    ∀ s, ∃ v, lookup (l.foldl f s).var_map key = some v := by
  induction l with
  | nil => cases ha
  | cons b l ih =>
      intro s
      rcases List.mem_cons.mp ha with rfl | hmem
      · rcases hest s with ⟨v, hv⟩
        exact ⟨v, foldl_mapmono f hf l _ key v hv⟩
      · exact ih hmem (f s b)

theorem foldl_clause_establish {α : Type _} (f : EncState → α → EncState)
    (hmono : ∀ s a, ClausesMono s (f s a)) (l : List α) (a : α) (ha : a ∈ l) (c : List ℤ)
    (hest : ∀ s, c ∈ (f s a).clauses) :
    ∀ s, c ∈ (l.foldl f s).clauses := by
  induction l with
  | nil => cases ha
  | cons b l ih =>
      intro s
      rcases List.mem_cons.mp ha with rfl | hmem
      · exact foldl_clauses_mono f hmono l _ c (hest s)
      · exact ih hmem (f s b)

/-- A clause-establishment fold lemma for steps whose emission depends
on the variable map and bounds, both of which the steps leave fixed. -/
theorem foldl_clause_establish_ctx {α : Type _} (f : EncState → α → EncState)
    (vm0 : List (VarKey × ℤ)) (lb0 : List (ℤ × ℤ × ℤ × ℤ))
    (hmono : ∀ s a, ClausesMono s (f s a))
    (hvm : ∀ s a, (f s a).var_map = s.var_map)
    (hlb : ∀ s a, (f s a).line_bounds = s.line_bounds)
    (l : List α) (a : α) (ha : a ∈ l) (c : List ℤ)
    (hest : ∀ s, s.var_map = vm0 → s.line_bounds = lb0 → c ∈ (f s a).clauses) :
    ∀ s, s.var_map = vm0 → s.line_bounds = lb0 → c ∈ (l.foldl f s).clauses := by
  induction l with
  | nil => cases ha
  | cons b l ih =>
      intro s hsvm hslb
      rcases List.mem_cons.mp ha with rfl | hmem
      · exact foldl_clauses_mono f hmono l _ c (hest s hsvm hslb)
      · exact ih hmem (f s b) (by rw [hvm, hsvm]) (by rw [hlb, hslb])

theorem at_most_one_var_map (l : List ℤ) : ∀ s, (at_most_one s l).var_map = s.var_map := by
  induction l with
  | nil => intro s; rfl
  | cons v rest ih =>
      intro s
      unfold at_most_one
      rw [ih, foldl_var_map_eq _ (fun s w => add_clause_var_map s [-v, -w])]

theorem at_most_one_line_bounds (l : List ℤ) :
    ∀ s, (at_most_one s l).line_bounds = s.line_bounds := by
  induction l with
  | nil => intro s; rfl
  | cons v rest ih =>
      intro s
      unfold at_most_one
      rw [ih, foldl_line_bounds_eq _ (fun s w => add_clause_line_bounds s [-v, -w])]

theorem at_most_one_clauses_mono (l : List ℤ) : ∀ s, ClausesMono s (at_most_one s l) := by
  induction l with
  | nil => intro s c hc; exact hc
  | cons v rest ih =>
      intro s c hc
      unfold at_most_one
      exact ih _ c
        (foldl_clauses_mono _ (fun s w => add_clause_clauses_mono s [-v, -w]) rest s c hc)

theorem get_clause_var_map (s : EncState) (key : VarKey) (f : ℤ → List ℤ) :
    (get_clause s key f).var_map = s.var_map := by
  unfold get_clause
  cases lookup s.var_map key with
  | some p => exact add_clause_var_map s (f p)
  | none => rfl

theorem get_clause_line_bounds (s : EncState) (key : VarKey) (f : ℤ → List ℤ) :
    (get_clause s key f).line_bounds = s.line_bounds := by
  unfold get_clause
  cases lookup s.var_map key with
  | some p => exact add_clause_line_bounds s (f p)
  | none => rfl

theorem get_clause_clauses_mono (s : EncState) (key : VarKey) (f : ℤ → List ℤ) :
    ClausesMono s (get_clause s key f) := by
  intro c hc
  unfold get_clause
  cases lookup s.var_map key with
  | some p => exact add_clause_clauses_mono s (f p) c hc
  | none => exact hc

theorem get_clause_some (s : EncState) (key : VarKey) (f : ℤ → List ℤ) (v : ℤ)
    (hv : lookup s.var_map key = some v) :
    get_clause s key f = add_clause s (f v) := by
  unfold get_clause
  rw [hv]

theorem get_clause2_var_map (s : EncState) (k1 k2 : VarKey) (f : ℤ → ℤ → List ℤ) :
    (get_clause2 s k1 k2 f).var_map = s.var_map := by
  unfold get_clause2
  cases lookup s.var_map k1 with
  | some a =>
      cases lookup s.var_map k2 with
      | some b => exact add_clause_var_map s (f a b)
      | none => rfl
  | none => rfl

theorem get_clause2_line_bounds (s : EncState) (k1 k2 : VarKey) (f : ℤ → ℤ → List ℤ) :
    (get_clause2 s k1 k2 f).line_bounds = s.line_bounds := by
  unfold get_clause2
  cases lookup s.var_map k1 with
  | some a =>
      cases lookup s.var_map k2 with
      | some b => exact add_clause_line_bounds s (f a b)
      | none => rfl
  | none => rfl

theorem get_clause2_clauses_mono (s : EncState) (k1 k2 : VarKey) (f : ℤ → ℤ → List ℤ) :
    ClausesMono s (get_clause2 s k1 k2 f) := by
  intro c hc
  unfold get_clause2
  cases lookup s.var_map k1 with
  | some a =>
      cases lookup s.var_map k2 with
      | some b => exact add_clause_clauses_mono s (f a b) c hc
      | none => exact hc
  | none => exact hc

theorem get_clause2_some (s : EncState) (k1 k2 : VarKey) (f : ℤ → ℤ → List ℤ) (a b : ℤ)
    (ha : lookup s.var_map k1 = some a) (hb : lookup s.var_map k2 = some b) :
    get_clause2 s k1 k2 f = add_clause s (f a b) := by
  unfold get_clause2
  rw [ha, hb]

theorem amk_step1_clauses_mono (line v_i : ℤ) (i j : ℕ) (s : EncState) :
    ClausesMono s (amk_step1 line v_i i j s) := by
  intro c hc
  have h0 : c ∈ ((new_var s (.seq_count line (i : ℤ) (j : ℤ))).2).clauses := by
    rw [new_var_clauses]; exact hc
  unfold amk_step1
  dsimp only
  by_cases hi : 1 < i
  · simp only [if_pos hi]
    have h2 := get_clause_clauses_mono ((new_var s (.seq_count line (i : ℤ) (j : ℤ))).2)
      (.seq_count line ((i : ℤ) - 1) (j : ℤ))
      (fun s_prev_i_j => [-s_prev_i_j, (new_var s (.seq_count line (i : ℤ) (j : ℤ))).1]) c h0
    split
    · exact add_clause_clauses_mono _ _ c h2
    · exact get_clause_clauses_mono _ _ _ c h2
  · simp only [if_neg hi]
    split
    · exact add_clause_clauses_mono _ _ c h0
    · exact h0

theorem amk_row1_clauses_mono (line : ℤ) (kn : ℕ) (vars : List ℤ) (i : ℕ) (s : EncState) :
    ClausesMono s (amk_row1 line kn vars s i) := by
  intro c hc
  unfold amk_row1
  exact foldl_clauses_mono _ (fun s j0 => amk_step1_clauses_mono line _ i (j0 + 1) s)
    _ s c hc

theorem amk_step2_clauses_mono (line : ℤ) (kn : ℕ) (vars : List ℤ)
    (acc : Option ℤ × EncState) (i : ℕ) :
    ClausesMono acc.2 (amk_step2 line kn vars acc i).2 := by
  intro c hc
  unfold amk_step2
  dsimp only
  have h0 : c ∈ ((new_var acc.2 (.seq_count line (i : ℤ) ((kn : ℤ) + 1))).2).clauses := by
    rw [new_var_clauses]; exact hc
  split
  · by_cases hi : 1 < i
    · simp only [if_pos hi]
      exact get_clause_clauses_mono _ _ _ c (get_clause_clauses_mono _ _ _ c h0)
    · simp only [if_neg hi]
      exact h0
  · exact hc

theorem at_most_k_clauses_mono (s : EncState) (vars : List ℤ) (k line : ℤ) :
    ClausesMono s (at_most_k_efficient s vars k line) := by
  intro c hc
  unfold at_most_k_efficient
  dsimp only
  have hfold1 : ∀ s : EncState, ClausesMono s
      (vars.foldl (fun s v => add_clause s [-v]) s) :=
    fun s => foldl_clauses_mono _ (fun s v => add_clause_clauses_mono s [-v]) vars s
  split
  · split
    · exact hfold1 s c hc
    · exact hc
  · split
    · exact hfold1 s c hc
    · split
      · exact hc
      · have hrows : c ∈ ((List.range vars.length).foldl
            (fun s i0 => amk_row1 line k.toNat vars s (i0 + 1)) s).clauses :=
          foldl_clauses_mono _ (fun s i0 => amk_row1_clauses_mono line k.toNat vars (i0 + 1) s)
            _ s c hc
        split
        · have hloop2 : ∀ (l : List ℕ) (acc : Option ℤ × EncState), ClausesMono acc.2
              (l.foldl (fun acc i0 => amk_step2 line k.toNat vars acc (i0 + 1)) acc).2 := by
            intro l
            induction l with
            | nil => intro acc c hc; exact hc
            | cons a l ih =>
                intro acc c hc
                exact ih _ c (amk_step2_clauses_mono line k.toNat vars acc (a + 1) c hc)
          have h2 := hloop2 (List.range vars.length) (none, _) c hrows
          split
          · exact add_clause_clauses_mono _ _ c h2
          · exact h2
        · exact hrows

/-! ## `create_variables` coverage -/

theorem int_range_mem (a b x : ℤ) : x ∈ int_range a b ↔ a ≤ x ∧ x ≤ b := by
  unfold int_range
  simp only [List.mem_map, List.mem_range]
  constructor
  · rintro ⟨t, ht, rfl⟩
    omega
  · rintro ⟨h1, h2⟩
    exact ⟨(x - a).toNat, by omega, by omega⟩

theorem foldl_clauses_eq {α : Type _} (f : EncState → α → EncState)
    (hf : ∀ s a, (f s a).clauses = s.clauses) (l : List α) :
    ∀ s, (l.foldl f s).clauses = s.clauses := by
  induction l with
  | nil => intro s; rfl
  | cons a l ih => intro s; rw [List.foldl_cons, ih, hf]

theorem create_cell_vars_clauses (k x y : ℤ) (s : EncState) :
    (create_cell_vars k x y s).clauses = s.clauses := by
  unfold create_cell_vars
  rw [new_var_clauses, foldl_clauses_eq _ (fun s d => new_var_clauses s _), new_var_clauses]

theorem create_cell_vars_line_bounds (k x y : ℤ) (s : EncState) :
    (create_cell_vars k x y s).line_bounds = s.line_bounds := by
  unfold create_cell_vars
  rw [new_var_line_bounds, foldl_line_bounds_eq _ (fun s d => new_var_line_bounds s _),
    new_var_line_bounds]

theorem create_cell_vars_mapmono (k x y : ℤ) (s : EncState) :
    MapMono s (create_cell_vars k x y s) := by
  intro key v hv
  unfold create_cell_vars
  exact new_var_mapmono _ _ key v
    (foldl_mapmono _ (fun s d => new_var_mapmono s _) _ _ key v
      (new_var_mapmono _ _ key v hv))

theorem create_cell_vars_cell (k x y : ℤ) (s : EncState) :
    ∃ v, lookup (create_cell_vars k x y s).var_map (.cell k x y) = some v := by
  obtain ⟨v, hv⟩ := new_var_establish s (.cell k x y)
  refine ⟨v, ?_⟩
  unfold create_cell_vars
  exact new_var_mapmono _ _ _ v
    (foldl_mapmono _ (fun s d => new_var_mapmono s _) _ _ _ v hv)

theorem create_cell_vars_dir (k x y d : ℤ) (hd : d ∈ ([0, 1, 2, 3] : List ℤ)) (s : EncState) :
    ∃ v, lookup (create_cell_vars k x y s).var_map (.dir k x y d) = some v := by
  unfold create_cell_vars
  obtain ⟨v, hv⟩ := foldl_mapmono_establish (fun s d => (new_var s (.dir k x y d)).2)
    (fun s d => new_var_mapmono s _) [0, 1, 2, 3] d hd (.dir k x y d)
    (fun s => new_var_establish s _) ((new_var s (.cell k x y)).2)
  exact ⟨v, new_var_mapmono _ _ _ v hv⟩

theorem create_cell_vars_turn (k x y : ℤ) (s : EncState) :
    ∃ v, lookup (create_cell_vars k x y s).var_map (.turn k x y) = some v := by
  unfold create_cell_vars
  exact new_var_establish _ _

/-- One iteration of the `create_variables` line loop (bounds appended,
then every box cell's variables allocated). -/
def create_line_vars (pr : MetroProblem) (lte : List ℤ) (s : EncState) (kn : ℕ) : EncState :=
  let b := line_box pr lte kn
  let s := { s with line_bounds := s.line_bounds ++ [b] }
  (int_range b.1 b.2.1).foldl (fun s x =>
    (int_range b.2.2.1 b.2.2.2).foldl (fun s y =>
      create_cell_vars (kn : ℤ) x y s) s) s

theorem create_variables_eq (pr : MetroProblem) (s : EncState) :
    create_variables pr s
      = (List.range pr.K.toNat).foldl
          (create_line_vars pr (identify_lines_for_popular_cells pr)) s := rfl

theorem create_line_vars_var_map_mono (pr : MetroProblem) (lte : List ℤ)
    (s : EncState) (kn : ℕ) : MapMono s (create_line_vars pr lte s kn) := by
  intro key v hv
  unfold create_line_vars
  dsimp only
  exact foldl_mapmono _
    (fun s x => foldl_mapmono _ (fun s y => create_cell_vars_mapmono (kn : ℤ) x y s) _ s) _ _
    key v hv

theorem create_line_vars_line_bounds (pr : MetroProblem) (lte : List ℤ)
    (s : EncState) (kn : ℕ) :
    (create_line_vars pr lte s kn).line_bounds = s.line_bounds ++ [line_box pr lte kn] := by
  unfold create_line_vars
  dsimp only
  rw [foldl_line_bounds_eq _ (fun s x =>
    foldl_line_bounds_eq _ (fun s y => create_cell_vars_line_bounds (kn : ℤ) x y s) _ s) _]

theorem foldl_create_line_vars_bounds (pr : MetroProblem) (lte : List ℤ) :
    ∀ (l : List ℕ) (s : EncState),
      (l.foldl (create_line_vars pr lte) s).line_bounds
        = s.line_bounds ++ l.map (line_box pr lte) := by
  intro l
  induction l with
  | nil => intro s; simp
  | cons a l ih =>
      intro s
      rw [List.foldl_cons, ih, create_line_vars_line_bounds]
      simp

theorem create_variables_line_bounds (pr : MetroProblem) (s : EncState) :
    (create_variables pr s).line_bounds
      = s.line_bounds
          ++ (List.range pr.K.toNat).map (line_box pr (identify_lines_for_popular_cells pr)) := by
  rw [create_variables_eq, foldl_create_line_vars_bounds]

theorem create_line_vars_establish (pr : MetroProblem) (lte : List ℤ) (kn : ℕ)
    (x y : ℤ) (key : VarKey)
    (hx : (line_box pr lte kn).1 ≤ x ∧ x ≤ (line_box pr lte kn).2.1)
    (hy : (line_box pr lte kn).2.2.1 ≤ y ∧ y ≤ (line_box pr lte kn).2.2.2)
    (hest : ∀ t : EncState, ∃ v, lookup (create_cell_vars (kn : ℤ) x y t).var_map key = some v) :
    ∀ s, ∃ v, lookup (create_line_vars pr lte s kn).var_map key = some v := by
  intro s
  unfold create_line_vars
  dsimp only
  refine foldl_mapmono_establish _
    (fun s x => foldl_mapmono _ (fun s y => create_cell_vars_mapmono (kn : ℤ) x y s) _ s)
    _ x ((int_range_mem _ _ _).mpr hx) key ?_ _
  intro t
  exact foldl_mapmono_establish _ (fun s y => create_cell_vars_mapmono (kn : ℤ) x y s)
    _ y ((int_range_mem _ _ _).mpr hy) key hest t

theorem create_variables_establish (pr : MetroProblem) (kn : ℕ) (hk : kn < pr.K.toNat)
    (x y : ℤ) (key : VarKey)
    (hx : (line_box pr (identify_lines_for_popular_cells pr) kn).1 ≤ x ∧
          x ≤ (line_box pr (identify_lines_for_popular_cells pr) kn).2.1)
    (hy : (line_box pr (identify_lines_for_popular_cells pr) kn).2.2.1 ≤ y ∧
          y ≤ (line_box pr (identify_lines_for_popular_cells pr) kn).2.2.2)
    (hest : ∀ t : EncState, ∃ v, lookup (create_cell_vars (kn : ℤ) x y t).var_map key = some v)
    (s : EncState) :
    ∃ v, lookup (create_variables pr s).var_map key = some v := by
  rw [create_variables_eq]
  exact foldl_mapmono_establish _ (fun s kn => create_line_vars_var_map_mono pr _ s kn)
    _ kn (List.mem_range.mpr hk) key
    (create_line_vars_establish pr _ kn x y key hx hy hest) s

theorem int_of_frac_nonneg (a : ℤ × ℤ) (h1 : 0 ≤ a.1) (h2 : 0 ≤ a.2) :
    0 ≤ int_of_frac a :=
  Int.tdiv_nonneg h1 h2

theorem popular_fold_nonneg (NM : ℤ) (hNM : 0 ≤ NM) (g : ℤ × ℤ → ℤ)
    (hg : ∀ pc, 0 ≤ g pc) :
    ∀ (l : List (ℤ × ℤ)) (buffer : ℤ), 0 ≤ buffer →
      0 ≤ l.foldl (fun buffer pc => if g pc > buffer then min (g pc) NM else buffer) buffer := by
  intro l
  induction l with
  | nil => intro buffer hb; exact hb
  | cons pc l ih =>
      intro buffer hb
      rw [List.foldl_cons]
      apply ih
      split
      · exact le_min (hg pc) hNM
      · exact hb

theorem calculate_buffer_nonneg (pr : MetroProblem) (sx sy ex ey J : ℤ) (e : Bool)
    (hJ : 0 ≤ J) (hN : 1 ≤ pr.N) (hM : 1 ≤ pr.M) :
    0 ≤ calculate_buffer pr sx sy ex ey J e := by
  have hNM : (0 : ℤ) ≤ max pr.N pr.M := le_trans (by omega) (le_max_left pr.N pr.M)
  unfold calculate_buffer
  dsimp only
  split
  · refine popular_fold_nonneg (max pr.N pr.M) hNM _
      (fun pc => le_trans (abs_nonneg _) (le_trans (le_max_left _ _) (le_max_left _ _)))
      pr.popular_cells _ ?_
    apply le_min
    · split
      · have := int_of_frac_nonneg ((|ex - sx| + |ey - sy|) * 15, 100)
          (by positivity) (by norm_num)
        omega
      · split
        · have := int_of_frac_nonneg ((|ex - sx| + |ey - sy|) * 10, 100)
            (by positivity) (by norm_num)
          omega
        · omega
    · apply le_min (by omega)
      exact le_trans (by omega) (le_max_of_le_right (le_max_right _ _))
  · apply le_min
    · split
      · have := int_of_frac_nonneg ((|ex - sx| + |ey - sy|) * 15, 100)
          (by positivity) (by norm_num)
        omega
      · split
        · have := int_of_frac_nonneg ((|ex - sx| + |ey - sy|) * 10, 100)
            (by positivity) (by norm_num)
          omega
        · omega
    · apply le_min (by omega)
      exact le_trans (by omega) (le_max_of_le_right (le_max_right _ _))

theorem line_box_contains (pr : MetroProblem) (lte : List ℤ) (kn : ℕ)
    (sx sy ex ey : ℤ)
    (hline : pr.lines.get? kn = some ((sx, sy), (ex, ey)))
    (hJ : 0 ≤ pr.J)
    (hs : 0 ≤ sx ∧ sx ≤ pr.N - 1 ∧ 0 ≤ sy ∧ sy ≤ pr.M - 1)
    (he : 0 ≤ ex ∧ ex ≤ pr.N - 1 ∧ 0 ≤ ey ∧ ey ≤ pr.M - 1) :
    (line_box pr lte kn).1 ≤ sx ∧ sx ≤ (line_box pr lte kn).2.1 ∧
    (line_box pr lte kn).2.2.1 ≤ sy ∧ sy ≤ (line_box pr lte kn).2.2.2 ∧
    (line_box pr lte kn).1 ≤ ex ∧ ex ≤ (line_box pr lte kn).2.1 ∧
    (line_box pr lte kn).2.2.1 ≤ ey ∧ ey ≤ (line_box pr lte kn).2.2.2 := by
  have hN : 1 ≤ pr.N := by omega
  have hM : 1 ≤ pr.M := by omega
  have hgetD : pr.lines.getD kn ((0, 0), (0, 0)) = ((sx, sy), (ex, ey)) := by
    rw [List.getD_eq_getElem?_getD, ← List.get?_eq_getElem?, hline]
    rfl
  unfold line_box
  rw [hgetD]
  dsimp only
  have hbuf := calculate_buffer_nonneg pr sx sy ex ey pr.J
    (decide ((kn : ℤ) ∈ lte)) hJ hN hM
  refine ⟨?_, ?_, ?_, ?_, ?_, ?_, ?_, ?_⟩ <;> omega

theorem encode_start_end_spec (s : EncState) (k sx sy ex ey sv ev : ℤ)
    (hs : lookup s.var_map (.cell k sx sy) = some sv)
    (he : lookup s.var_map (.cell k ex ey) = some ev) :
    (encode_start_end s k sx sy ex ey).clauses = s.clauses ++ [[sv], [ev]] := by
  unfold encode_start_end
  dsimp only
  rw [get_clause_some _ _ _ _ hs]
  rw [get_clause_some _ _ _ _ (by rw [add_clause_var_map]; exact he)]
  unfold add_clause
  norm_num

/-- C5. With a nonnegative turn budget and in-grid endpoints, line `k`'s
recorded bounding box contains its start and end cells, both cell
variables are allocated, and `encode_start_end` appends exactly the two
unit clauses asserting them. -/
theorem C5_start_end_in_box_forced (pr : MetroProblem) (kn : ℕ) (sx sy ex ey : ℤ)
    (hk : kn < pr.K.toNat)
    (hline : pr.lines.get? kn = some ((sx, sy), (ex, ey)))
    (hJ : 0 ≤ pr.J)
    (hs : 0 ≤ sx ∧ sx ≤ pr.N - 1 ∧ 0 ≤ sy ∧ sy ≤ pr.M - 1)
    (he : 0 ≤ ex ∧ ex ≤ pr.N - 1 ∧ 0 ≤ ey ∧ ey ≤ pr.M - 1) :
    ∃ b, (create_variables pr (initState pr)).line_bounds.get? kn = some b ∧
      (b.1 ≤ sx ∧ sx ≤ b.2.1 ∧ b.2.2.1 ≤ sy ∧ sy ≤ b.2.2.2) ∧
      (b.1 ≤ ex ∧ ex ≤ b.2.1 ∧ b.2.2.1 ≤ ey ∧ ey ≤ b.2.2.2) ∧
      ∃ sv ev,
        lookup (create_variables pr (initState pr)).var_map (.cell (kn : ℤ) sx sy) = some sv ∧
        lookup (create_variables pr (initState pr)).var_map (.cell (kn : ℤ) ex ey) = some ev ∧
        (encode_start_end (create_variables pr (initState pr)) (kn : ℤ) sx sy ex ey).clauses
          = (create_variables pr (initState pr)).clauses ++ [[sv], [ev]] := by
  have hbox := line_box_contains pr (identify_lines_for_popular_cells pr) kn sx sy ex ey
    hline hJ hs he
  refine ⟨line_box pr (identify_lines_for_popular_cells pr) kn, ?_, ?_, ?_, ?_⟩
  · rw [create_variables_line_bounds]
    simp only [initState, List.nil_append]
    rw [List.get?_map, List.get?_range hk]
    rfl
  · exact ⟨hbox.1, hbox.2.1, hbox.2.2.1, hbox.2.2.2.1⟩
  · exact ⟨hbox.2.2.2.2.1, hbox.2.2.2.2.2.1, hbox.2.2.2.2.2.2.1, hbox.2.2.2.2.2.2.2⟩
  · obtain ⟨sv, hsv⟩ := create_variables_establish pr kn hk sx sy (.cell (kn : ℤ) sx sy)
      ⟨hbox.1, hbox.2.1⟩ ⟨hbox.2.2.1, hbox.2.2.2.1⟩
      (fun t => create_cell_vars_cell (kn : ℤ) sx sy t) (initState pr)
    obtain ⟨ev, hev⟩ := create_variables_establish pr kn hk ex ey (.cell (kn : ℤ) ex ey)
      ⟨hbox.2.2.2.2.1, hbox.2.2.2.2.2.1⟩ ⟨hbox.2.2.2.2.2.2.1, hbox.2.2.2.2.2.2.2⟩
      (fun t => create_cell_vars_cell (kn : ℤ) ex ey t) (initState pr)
    exact ⟨sv, ev, hsv, hev, encode_start_end_spec _ _ _ _ _ _ _ _ hsv hev⟩

/-- C5 witness: the statement applied to a concrete 3×1 one-line
problem. -/
theorem C5_start_end_in_box_forced_witness :
    ∃ b, (create_variables
        { scenario := 1, N := 3, M := 1, K := 1, J := 0, P := 0,
          lines := [((0, 0), (2, 0))], popular_cells := [] }
        (initState
          { scenario := 1, N := 3, M := 1, K := 1, J := 0, P := 0,
            lines := [((0, 0), (2, 0))], popular_cells := [] })).line_bounds.get? 0
        = some b ∧
      (b.1 ≤ 0 ∧ 0 ≤ b.2.1 ∧ b.2.2.1 ≤ 0 ∧ 0 ≤ b.2.2.2) ∧
      (b.1 ≤ 2 ∧ 2 ≤ b.2.1 ∧ b.2.2.1 ≤ 0 ∧ 0 ≤ b.2.2.2) ∧
      ∃ sv ev,
        lookup (create_variables
            { scenario := 1, N := 3, M := 1, K := 1, J := 0, P := 0,
              lines := [((0, 0), (2, 0))], popular_cells := [] }
            (initState
              { scenario := 1, N := 3, M := 1, K := 1, J := 0, P := 0,
                lines := [((0, 0), (2, 0))], popular_cells := [] })).var_map
            (.cell 0 0 0) = some sv ∧
        lookup (create_variables
            { scenario := 1, N := 3, M := 1, K := 1, J := 0, P := 0,
              lines := [((0, 0), (2, 0))], popular_cells := [] }
            (initState
              { scenario := 1, N := 3, M := 1, K := 1, J := 0, P := 0,
                lines := [((0, 0), (2, 0))], popular_cells := [] })).var_map
            (.cell 0 2 0) = some ev ∧
        (encode_start_end (create_variables
            { scenario := 1, N := 3, M := 1, K := 1, J := 0, P := 0,
              lines := [((0, 0), (2, 0))], popular_cells := [] }
            (initState
              { scenario := 1, N := 3, M := 1, K := 1, J := 0, P := 0,
                lines := [((0, 0), (2, 0))], popular_cells := [] })) 0 0 0 2 0).clauses
          = (create_variables
            { scenario := 1, N := 3, M := 1, K := 1, J := 0, P := 0,
              lines := [((0, 0), (2, 0))], popular_cells := [] }
            (initState
              { scenario := 1, N := 3, M := 1, K := 1, J := 0, P := 0,
                lines := [((0, 0), (2, 0))], popular_cells := [] })).clauses ++ [[sv], [ev]] :=
  C5_start_end_in_box_forced
    { scenario := 1, N := 3, M := 1, K := 1, J := 0, P := 0,
      lines := [((0, 0), (2, 0))], popular_cells := [] }
    0 0 0 2 0 (by decide) (by decide) (by decide) (by decide) (by decide)

/-! ## Turn-constraint emission (C6) -/

theorem turn_pair_clause_var_map (tv : ℤ) (s : EncState) (p q : ℤ × ℤ) :
    (turn_pair_clause tv s p q).var_map = s.var_map := by
  unfold turn_pair_clause
  split <;> apply add_clause_var_map

theorem turn_pair_clause_line_bounds (tv : ℤ) (s : EncState) (p q : ℤ × ℤ) :
    (turn_pair_clause tv s p q).line_bounds = s.line_bounds := by
  unfold turn_pair_clause
  split <;> apply add_clause_line_bounds

theorem turn_pair_clause_clauses_mono (tv : ℤ) (s : EncState) (p q : ℤ × ℤ) :
    ClausesMono s (turn_pair_clause tv s p q) := by
  intro c hc
  unfold turn_pair_clause
  split <;> exact add_clause_clauses_mono _ _ c hc

theorem turn_pair_clause_self (tv : ℤ) (s : EncState) (p q : ℤ × ℤ) :
    (p.1 ≠ q.1 → [-p.2, -q.2, tv] ∈ (turn_pair_clause tv s p q).clauses) ∧
    (p.1 = q.1 → [-p.2, -q.2, -tv] ∈ (turn_pair_clause tv s p q).clauses) := by
  constructor
  · intro hne
    unfold turn_pair_clause
    rw [if_pos hne]
    exact add_clause_self_mem s _ (by simp)
  · intro heq
    unfold turn_pair_clause
    rw [if_neg (by simp [heq])]
    exact add_clause_self_mem s _ (by simp)

theorem turn_pairs_fold_var_map (tv : ℤ) (ins outs : List (ℤ × ℤ)) (s : EncState) :
    (ins.foldl (fun s din_v =>
      outs.foldl (fun s dout_v => turn_pair_clause tv s din_v dout_v) s) s).var_map
      = s.var_map :=
  foldl_var_map_eq _ (fun s p =>
    foldl_var_map_eq _ (fun s q => turn_pair_clause_var_map tv s p q) _ s) _ s

theorem turn_pairs_fold_line_bounds (tv : ℤ) (ins outs : List (ℤ × ℤ)) (s : EncState) :
    (ins.foldl (fun s din_v =>
      outs.foldl (fun s dout_v => turn_pair_clause tv s din_v dout_v) s) s).line_bounds
      = s.line_bounds :=
  foldl_line_bounds_eq _ (fun s p =>
    foldl_line_bounds_eq _ (fun s q => turn_pair_clause_line_bounds tv s p q) _ s) _ s

theorem turn_pairs_fold_clauses_mono (tv : ℤ) (ins outs : List (ℤ × ℤ)) (s : EncState) :
    ClausesMono s (ins.foldl (fun s din_v =>
      outs.foldl (fun s dout_v => turn_pair_clause tv s din_v dout_v) s) s) :=
  foldl_clauses_mono _ (fun s p =>
    foldl_clauses_mono _ (fun s q => turn_pair_clause_clauses_mono tv s p q) _ s) _ s

theorem turn_pairs_fold_mem (tv : ℤ) (ins outs : List (ℤ × ℤ)) (p q : ℤ × ℤ)
    (hp : p ∈ ins) (hq : q ∈ outs) (c : List ℤ)
    (hc : ∀ s' : EncState, c ∈ (turn_pair_clause tv s' p q).clauses) :
    ∀ s : EncState, c ∈ (ins.foldl (fun s din_v =>
      outs.foldl (fun s dout_v => turn_pair_clause tv s din_v dout_v) s) s).clauses := by
  intro s
  refine foldl_clause_establish _
    (fun s p => foldl_clauses_mono _
      (fun s q => turn_pair_clause_clauses_mono tv s p q) _ s) ins p hp c ?_ s
  intro s'
  exact foldl_clause_establish _ (fun s q => turn_pair_clause_clauses_mono tv s p q)
    outs q hq c hc s'

theorem encode_turn_cell_var_map (N M sx sy ex ey k : ℤ) (s : EncState) (x y : ℤ) :
    (encode_turn_cell N M sx sy ex ey k s x y).var_map = s.var_map := by
  unfold encode_turn_cell
  cases htv : lookup s.var_map (.turn k x y) with
  | none => rfl
  | some tv =>
      dsimp only
      split
      · apply add_clause_var_map
      · cases hcell : lookup s.var_map (.cell k x y) <;>
          simp only [turn_pairs_fold_var_map, add_clause_var_map, add_clause_line_bounds]

theorem encode_turn_cell_line_bounds (N M sx sy ex ey k : ℤ) (s : EncState) (x y : ℤ) :
    (encode_turn_cell N M sx sy ex ey k s x y).line_bounds = s.line_bounds := by
  unfold encode_turn_cell
  cases htv : lookup s.var_map (.turn k x y) with
  | none => rfl
  | some tv =>
      dsimp only
      split
      · apply add_clause_line_bounds
      · cases hcell : lookup s.var_map (.cell k x y) <;>
          simp only [turn_pairs_fold_line_bounds, add_clause_var_map, add_clause_line_bounds]

theorem encode_turn_cell_clauses_mono (N M sx sy ex ey k : ℤ) (s : EncState) (x y : ℤ) :
    ClausesMono s (encode_turn_cell N M sx sy ex ey k s x y) := by
  intro c hc
  unfold encode_turn_cell
  cases htv : lookup s.var_map (.turn k x y) with
  | none => exact hc
  | some tv =>
      dsimp only
      split
      · exact add_clause_clauses_mono _ _ c hc
      · cases hcell : lookup s.var_map (.cell k x y) with
        | none =>
            simp only []
            exact turn_pairs_fold_clauses_mono tv _ _ s c hc
        | some cv =>
            simp only []
            exact turn_pairs_fold_clauses_mono tv _ _ _ c
              (add_clause_clauses_mono _ _ c hc)

theorem encode_turn_cell_endpoint_mem (N M sx sy ex ey k : ℤ) (s : EncState) (x y : ℤ)
    (tv : ℤ) (htv : lookup s.var_map (.turn k x y) = some tv)
    (hend : (x, y) = (sx, sy) ∨ (x, y) = (ex, ey)) :
    [-tv] ∈ (encode_turn_cell N M sx sy ex ey k s x y).clauses := by
  unfold encode_turn_cell
  rw [htv]
  dsimp only
  rw [if_pos hend]
  exact add_clause_self_mem s _ (by simp)

theorem encode_turn_cell_pair_mem (N M sx sy ex ey k : ℤ) (s : EncState) (x y : ℤ)
    (tv : ℤ) (htv : lookup s.var_map (.turn k x y) = some tv)
    (hne : ¬((x, y) = (sx, sy) ∨ (x, y) = (ex, ey)))
    (p q : ℤ × ℤ)
    (hp : p ∈ turn_in_dirs N M s.line_bounds s.var_map k x y)
    (hq : q ∈ turn_out_dirs N M s.line_bounds s.var_map k x y) :
    (p.1 ≠ q.1 → [-p.2, -q.2, tv] ∈ (encode_turn_cell N M sx sy ex ey k s x y).clauses) ∧
    (p.1 = q.1 → [-p.2, -q.2, -tv] ∈ (encode_turn_cell N M sx sy ex ey k s x y).clauses) := by
  unfold encode_turn_cell
  rw [htv]
  dsimp only
  rw [if_neg hne]
  cases hcell : lookup s.var_map (.cell k x y) with
  | none =>
      simp only []
      constructor
      · intro hpq
        exact turn_pairs_fold_mem tv _ _ p q hp hq _
          (fun s' => (turn_pair_clause_self tv s' p q).1 hpq) s
      · intro hpq
        exact turn_pairs_fold_mem tv _ _ p q hp hq _
          (fun s' => (turn_pair_clause_self tv s' p q).2 hpq) s
  | some cv =>
      simp only [add_clause_var_map, add_clause_line_bounds]
      constructor
      · intro hpq
        exact turn_pairs_fold_mem tv _ _ p q hp hq _
          (fun s' => (turn_pair_clause_self tv s' p q).1 hpq) _
      · intro hpq
        exact turn_pairs_fold_mem tv _ _ p q hp hq _
          (fun s' => (turn_pair_clause_self tv s' p q).2 hpq) _

theorem encode_turn_constraints_mem (pr : MetroProblem) (s : EncState) (kn : ℕ)
    (sx sy ex ey J : ℤ) (b : ℤ × ℤ × ℤ × ℤ)
    (hb : s.line_bounds.get? kn = some b)
    (x y : ℤ) (hx : b.1 ≤ x ∧ x ≤ b.2.1) (hy : b.2.2.1 ≤ y ∧ y ≤ b.2.2.2)
    (c : List ℤ)
    (hest : ∀ s' : EncState, s'.var_map = s.var_map → s'.line_bounds = s.line_bounds →
      c ∈ (encode_turn_cell pr.N pr.M sx sy ex ey (kn : ℤ) s' x y).clauses) :
    c ∈ (encode_turn_constraints pr s (kn : ℤ) sx sy ex ey J).clauses := by
  unfold encode_turn_constraints
  dsimp only
  have hgetD : s.line_bounds.getD ((kn : ℤ)).toNat (0, -1, 0, -1) = b := by
    rw [Int.toNat_ofNat, List.getD_eq_getElem?_getD, ← List.get?_eq_getElem?, hb]
    rfl
  rw [hgetD]
  apply at_most_k_clauses_mono
  refine foldl_clause_establish_ctx _ s.var_map s.line_bounds
    (fun s' x => foldl_clauses_mono _
      (fun s' y => encode_turn_cell_clauses_mono pr.N pr.M sx sy ex ey (kn : ℤ) s' x y) _ s')
    (fun s' x => foldl_var_map_eq _
      (fun s' y => encode_turn_cell_var_map pr.N pr.M sx sy ex ey (kn : ℤ) s' x y) _ s')
    (fun s' x => foldl_line_bounds_eq _
      (fun s' y => encode_turn_cell_line_bounds pr.N pr.M sx sy ex ey (kn : ℤ) s' x y) _ s')
    _ x ((int_range_mem _ _ _).mpr hx) c ?_ s rfl rfl
  intro s' hvm hlb
  refine foldl_clause_establish_ctx _ s.var_map s.line_bounds
    (fun s' y => encode_turn_cell_clauses_mono pr.N pr.M sx sy ex ey (kn : ℤ) s' x y)
    (fun s' y => encode_turn_cell_var_map pr.N pr.M sx sy ex ey (kn : ℤ) s' x y)
    (fun s' y => encode_turn_cell_line_bounds pr.N pr.M sx sy ex ey (kn : ℤ) s' x y)
    _ y ((int_range_mem _ _ _).mpr hy) c hest s' hvm hlb

/-- C6. After variable creation, every in-box cell of line `k` has a
turn variable; running `encode_turn_constraints` emits, at the line's
start or end cell, the unit clause forbidding that turn variable, and
at every other in-box cell, for each collected (incoming, outgoing)
direction-variable pair, the clause forcing the turn variable when the
directions differ and the clause forbidding it when they agree. -/
theorem C6_turn_definitions (pr : MetroProblem) (kn : ℕ) (sx sy ex ey J : ℤ)
    (b : ℤ × ℤ × ℤ × ℤ) (x y : ℤ)
    (hk : kn < pr.K.toNat)
    (hb : (create_variables pr (initState pr)).line_bounds.get? kn = some b)
    (hx : b.1 ≤ x ∧ x ≤ b.2.1) (hy : b.2.2.1 ≤ y ∧ y ≤ b.2.2.2) :
    ∃ tv, lookup (create_variables pr (initState pr)).var_map (.turn (kn : ℤ) x y) = some tv ∧
      (((x, y) = (sx, sy) ∨ (x, y) = (ex, ey)) →
        [-tv] ∈ (encode_turn_constraints pr (create_variables pr (initState pr))
          (kn : ℤ) sx sy ex ey J).clauses) ∧
      (¬((x, y) = (sx, sy) ∨ (x, y) = (ex, ey)) →
        ∀ p ∈ turn_in_dirs pr.N pr.M (create_variables pr (initState pr)).line_bounds
            (create_variables pr (initState pr)).var_map (kn : ℤ) x y,
        ∀ q ∈ turn_out_dirs pr.N pr.M (create_variables pr (initState pr)).line_bounds
            (create_variables pr (initState pr)).var_map (kn : ℤ) x y,
          (p.1 ≠ q.1 → [-p.2, -q.2, tv] ∈ (encode_turn_constraints pr
            (create_variables pr (initState pr)) (kn : ℤ) sx sy ex ey J).clauses) ∧
          (p.1 = q.1 → [-p.2, -q.2, -tv] ∈ (encode_turn_constraints pr
            (create_variables pr (initState pr)) (kn : ℤ) sx sy ex ey J).clauses)) := by
  have hbval : b = line_box pr (identify_lines_for_popular_cells pr) kn := by
    have := create_variables_line_bounds pr (initState pr)
    rw [this] at hb
    simp only [initState, List.nil_append] at hb
    rw [List.get?_map, List.get?_range hk] at hb
    exact (Option.some.injEq _ _).mp hb.symm
  obtain ⟨tv, htv⟩ := create_variables_establish pr kn hk x y (.turn (kn : ℤ) x y)
    (hbval ▸ hx) (hbval ▸ hy) (fun t => create_cell_vars_turn (kn : ℤ) x y t) (initState pr)
  refine ⟨tv, htv, ?_, ?_⟩
  · intro hend
    exact encode_turn_constraints_mem pr _ kn sx sy ex ey J b hb x y hx hy _
      (fun s' hvm hlb => encode_turn_cell_endpoint_mem pr.N pr.M sx sy ex ey (kn : ℤ)
        s' x y tv (by rw [hvm]; exact htv) hend)
  · intro hne p hp q hq
    constructor
    · intro hpq
      refine encode_turn_constraints_mem pr _ kn sx sy ex ey J b hb x y hx hy _ ?_
      intro s' hvm hlb
      exact (encode_turn_cell_pair_mem pr.N pr.M sx sy ex ey (kn : ℤ) s' x y tv
        (by rw [hvm]; exact htv) hne p q (by rw [hvm, hlb]; exact hp)
        (by rw [hvm, hlb]; exact hq)).1 hpq
    · intro hpq
      refine encode_turn_constraints_mem pr _ kn sx sy ex ey J b hb x y hx hy _ ?_
      intro s' hvm hlb
      exact (encode_turn_cell_pair_mem pr.N pr.M sx sy ex ey (kn : ℤ) s' x y tv
        (by rw [hvm]; exact htv) hne p q (by rw [hvm, hlb]; exact hp)
        (by rw [hvm, hlb]; exact hq)).2 hpq

/-- C6 witness: the endpoint case evaluated at the start cell of a
concrete 3×1 one-line problem. -/
theorem C6_turn_definitions_witness :
    ∃ tv, lookup (create_variables
        { scenario := 1, N := 3, M := 1, K := 1, J := 0, P := 0,
          lines := [((0, 0), (2, 0))], popular_cells := [] }
        (initState
          { scenario := 1, N := 3, M := 1, K := 1, J := 0, P := 0,
            lines := [((0, 0), (2, 0))], popular_cells := [] })).var_map
        (.turn 0 0 0) = some tv ∧
      ((((0 : ℤ), (0 : ℤ)) = (0, 0) ∨ ((0 : ℤ), (0 : ℤ)) = (2, 0)) →
        [-tv] ∈ (encode_turn_constraints
          { scenario := 1, N := 3, M := 1, K := 1, J := 0, P := 0,
            lines := [((0, 0), (2, 0))], popular_cells := [] }
          (create_variables
            { scenario := 1, N := 3, M := 1, K := 1, J := 0, P := 0,
              lines := [((0, 0), (2, 0))], popular_cells := [] }
            (initState
              { scenario := 1, N := 3, M := 1, K := 1, J := 0, P := 0,
                lines := [((0, 0), (2, 0))], popular_cells := [] }))
          0 0 0 2 0 0).clauses) ∧
      (¬(((0 : ℤ), (0 : ℤ)) = (0, 0) ∨ ((0 : ℤ), (0 : ℤ)) = (2, 0)) →
        ∀ p ∈ turn_in_dirs 3 1 (create_variables
            { scenario := 1, N := 3, M := 1, K := 1, J := 0, P := 0,
              lines := [((0, 0), (2, 0))], popular_cells := [] }
            (initState
              { scenario := 1, N := 3, M := 1, K := 1, J := 0, P := 0,
                lines := [((0, 0), (2, 0))], popular_cells := [] })).line_bounds
            (create_variables
            { scenario := 1, N := 3, M := 1, K := 1, J := 0, P := 0,
              lines := [((0, 0), (2, 0))], popular_cells := [] }
            (initState
              { scenario := 1, N := 3, M := 1, K := 1, J := 0, P := 0,
                lines := [((0, 0), (2, 0))], popular_cells := [] })).var_map 0 0 0,
        ∀ q ∈ turn_out_dirs 3 1 (create_variables
            { scenario := 1, N := 3, M := 1, K := 1, J := 0, P := 0,
              lines := [((0, 0), (2, 0))], popular_cells := [] }
            (initState
              { scenario := 1, N := 3, M := 1, K := 1, J := 0, P := 0,
                lines := [((0, 0), (2, 0))], popular_cells := [] })).line_bounds
            (create_variables
            { scenario := 1, N := 3, M := 1, K := 1, J := 0, P := 0,
              lines := [((0, 0), (2, 0))], popular_cells := [] }
            (initState
              { scenario := 1, N := 3, M := 1, K := 1, J := 0, P := 0,
                lines := [((0, 0), (2, 0))], popular_cells := [] })).var_map 0 0 0,
          (p.1 ≠ q.1 → [-p.2, -q.2, tv] ∈ (encode_turn_constraints
            { scenario := 1, N := 3, M := 1, K := 1, J := 0, P := 0,
              lines := [((0, 0), (2, 0))], popular_cells := [] }
            (create_variables
              { scenario := 1, N := 3, M := 1, K := 1, J := 0, P := 0,
                lines := [((0, 0), (2, 0))], popular_cells := [] }
              (initState
                { scenario := 1, N := 3, M := 1, K := 1, J := 0, P := 0,
                  lines := [((0, 0), (2, 0))], popular_cells := [] }))
            0 0 0 2 0 0).clauses) ∧
          (p.1 = q.1 → [-p.2, -q.2, -tv] ∈ (encode_turn_constraints
            { scenario := 1, N := 3, M := 1, K := 1, J := 0, P := 0,
              lines := [((0, 0), (2, 0))], popular_cells := [] }
            (create_variables
              { scenario := 1, N := 3, M := 1, K := 1, J := 0, P := 0,
                lines := [((0, 0), (2, 0))], popular_cells := [] }
              (initState
                { scenario := 1, N := 3, M := 1, K := 1, J := 0, P := 0,
                  lines := [((0, 0), (2, 0))], popular_cells := [] }))
            0 0 0 2 0 0).clauses)) :=
  C6_turn_definitions
    { scenario := 1, N := 3, M := 1, K := 1, J := 0, P := 0,
      lines := [((0, 0), (2, 0))], popular_cells := [] }
    0 0 0 2 0 0 (0, 2, 0, 0) 0 0 (by decide) (by decide) (by decide) (by decide)

/-! ## Anti-reversal emission (C7) -/

/-- Ids recorded in the variable map are positive and below the
counter's reach (truthiness of ids in the Python `if dir_var:`
checks). -/
def StPos (s : EncState) : Prop :=
  1 ≤ s.var_counter ∧ ∀ p ∈ s.var_map, 0 < p.2

theorem lookup_mem (m : List (VarKey × ℤ)) (key : VarKey) (v : ℤ)
    (h : lookup m key = some v) : (key, v) ∈ m := by
  induction m with
  | nil => cases h
  | cons p rest ih =>
      unfold lookup at h
      by_cases hk : p.1 = key
      · rw [if_pos hk] at h
        have hp : p = (key, v) := by
          obtain ⟨p1, p2⟩ := p
          simp only at hk h
          have hv : p2 = v := (Option.some.injEq _ _).mp h
          simp [hk, hv]
        rw [hp]
        exact List.mem_cons_self _ _
      · rw [if_neg hk] at h
        exact List.mem_cons_of_mem p (ih h)

theorem new_var_stpos (s : EncState) (d : VarKey) (h : StPos s) : StPos ((new_var s d).2) := by
  unfold new_var
  cases hl : lookup s.var_map d with
  | some v => exact h
  | none =>
      dsimp only
      obtain ⟨h1, h2⟩ := h
      refine ⟨by show 1 ≤ s.var_counter + 1; omega, ?_⟩
      intro p hp
      rcases List.mem_append.mp hp with hp | hp
      · exact h2 p hp
      · simp only [List.mem_singleton] at hp
        subst hp
        simpa using h1

theorem foldl_stpos {α : Type _} (f : EncState → α → EncState)
    (hf : ∀ s a, StPos s → StPos (f s a)) (l : List α) :
    ∀ s, StPos s → StPos (l.foldl f s) := by
  induction l with
  | nil => intro s h; exact h
  | cons a l ih => intro s h; exact ih (f s a) (hf s a h)

theorem create_cell_vars_stpos (k x y : ℤ) (s : EncState) (h : StPos s) :
    StPos (create_cell_vars k x y s) := by
  unfold create_cell_vars
  exact new_var_stpos _ _
    (foldl_stpos _ (fun s d => new_var_stpos s _) _ _ (new_var_stpos _ _ h))

theorem create_variables_stpos (pr : MetroProblem) (s : EncState) (h : StPos s) :
    StPos (create_variables pr s) := by
  rw [create_variables_eq]
  refine foldl_stpos _ (fun s kn hs => ?_) _ s h
  unfold create_line_vars
  dsimp only
  refine foldl_stpos _ (fun s x hs => ?_) _ _ ?_
  · exact foldl_stpos _ (fun s y hs => create_cell_vars_stpos _ x y s hs) _ s hs
  · exact ⟨hs.1, hs.2⟩

theorem lookup_pos (s : EncState) (key : VarKey) (v : ℤ) (h : StPos s)
    (hv : lookup s.var_map key = some v) : 0 < v :=
  h.2 _ (lookup_mem _ _ _ hv)

/-- A clause with two negative literals over positive ids rejects any
satisfying assignment that asserts both ids. -/
theorem neg_pair_clause_sem (A : ℤ → Bool) (a b : ℤ) (ha : 0 < a) (hb : 0 < b)
    (cs : List (List ℤ)) (hmem : [-a, -b] ∈ cs) (hsat : evalClauses A cs = true) :
    ¬(A a = true ∧ A b = true) := by
  rintro ⟨haa, hbb⟩
  have hc : evalClause A [-a, -b] = true :=
    List.all_eq_true.mp hsat _ hmem
  unfold evalClause at hc
  simp only [List.any_cons, List.any_nil, Bool.or_false, Bool.or_eq_true] at hc
  unfold evalLit at hc
  rcases hc with hc | hc
  · rw [if_neg (by omega), neg_neg, haa] at hc
    cases hc
  · rw [if_neg (by omega), neg_neg, hbb] at hc
    cases hc

theorem anti_parallel_case_var_map (s : EncState) (cond : Bool) (okey ikey : VarKey) :
    (anti_parallel_case s cond okey ikey).var_map = s.var_map := by
  unfold anti_parallel_case
  split
  · exact get_clause2_var_map s okey ikey _
  · rfl

theorem anti_parallel_case_line_bounds (s : EncState) (cond : Bool) (okey ikey : VarKey) :
    (anti_parallel_case s cond okey ikey).line_bounds = s.line_bounds := by
  unfold anti_parallel_case
  split
  · exact get_clause2_line_bounds s okey ikey _
  · rfl

theorem anti_parallel_case_clauses_mono (s : EncState) (cond : Bool) (okey ikey : VarKey) :
    ClausesMono s (anti_parallel_case s cond okey ikey) := by
  intro c hc
  unfold anti_parallel_case
  split
  · exact get_clause2_clauses_mono s okey ikey _ c hc
  · exact hc

theorem anti_parallel_case_self (s : EncState) (okey ikey : VarKey) (a b : ℤ)
    (ha : lookup s.var_map okey = some a) (hb : lookup s.var_map ikey = some b) :
    [-a, -b] ∈ (anti_parallel_case s true okey ikey).clauses := by
  unfold anti_parallel_case
  rw [if_pos rfl, get_clause2_some s okey ikey _ a b ha hb]
  exact add_clause_self_mem s _ (by simp)

theorem anti_parallel_cell_var_map (pr : MetroProblem) (k : ℤ) (s : EncState) (x y : ℤ) :
    (anti_parallel_cell pr k s x y).var_map = s.var_map := by
  unfold anti_parallel_cell
  dsimp only
  simp only [anti_parallel_case_var_map]

theorem anti_parallel_cell_line_bounds (pr : MetroProblem) (k : ℤ) (s : EncState) (x y : ℤ) :
    (anti_parallel_cell pr k s x y).line_bounds = s.line_bounds := by
  unfold anti_parallel_cell
  dsimp only
  simp only [anti_parallel_case_line_bounds]

theorem anti_parallel_cell_clauses_mono (pr : MetroProblem) (k : ℤ) (s : EncState) (x y : ℤ) :
    ClausesMono s (anti_parallel_cell pr k s x y) := by
  intro c hc
  unfold anti_parallel_cell
  dsimp only
  exact anti_parallel_case_clauses_mono _ _ _ _ c
    (anti_parallel_case_clauses_mono _ _ _ _ c
      (anti_parallel_case_clauses_mono _ _ _ _ c
        (anti_parallel_case_clauses_mono _ _ _ _ c hc)))

theorem in_bounds_true (bounds : List (ℤ × ℤ × ℤ × ℤ)) (kn : ℕ) (b : ℤ × ℤ × ℤ × ℤ)
    (hb : bounds.get? kn = some b) (x y : ℤ)
    (hx : b.1 ≤ x ∧ x ≤ b.2.1) (hy : b.2.2.1 ≤ y ∧ y ≤ b.2.2.2) :
    in_bounds bounds (kn : ℤ) x y = true := by
  have hgetD : bounds.getD ((kn : ℤ)).toNat (0, -1, 0, -1) = b := by
    rw [Int.toNat_ofNat, List.getD_eq_getElem?_getD, ← List.get?_eq_getElem?, hb]
    rfl
  unfold in_bounds
  rw [hgetD]
  exact decide_eq_true ⟨hx.1, hx.2, hy.1, hy.2⟩

theorem anti_parallel_case_self_cond (s : EncState) (cond : Bool) (okey ikey : VarKey)
    (a b : ℤ) (hcond : cond = true)
    (ha : lookup s.var_map okey = some a) (hb : lookup s.var_map ikey = some b) :
    [-a, -b] ∈ (anti_parallel_case s cond okey ikey).clauses := by
  rw [hcond]
  exact anti_parallel_case_self s okey ikey a b ha hb

theorem anti_parallel_cell_mem (pr : MetroProblem) (kn : ℕ) (b : ℤ × ℤ × ℤ × ℤ)
    (s : EncState) (x y x' y' dout dback : ℤ) (ov iv : ℤ)
    (hb : s.line_bounds.get? kn = some b)
    (hx' : b.1 ≤ x' ∧ x' ≤ b.2.1) (hy' : b.2.2.1 ≤ y' ∧ y' ≤ b.2.2.2)
    (horient :
      (x' = x + 1 ∧ y' = y ∧ dout = 0 ∧ dback = 1 ∧ x + 1 < pr.N) ∨
      (x' = x - 1 ∧ y' = y ∧ dout = 1 ∧ dback = 0 ∧ 0 ≤ x - 1) ∨
      (x' = x ∧ y' = y + 1 ∧ dout = 2 ∧ dback = 3 ∧ y + 1 < pr.M) ∨
      (x' = x ∧ y' = y - 1 ∧ dout = 3 ∧ dback = 2 ∧ 0 ≤ y - 1))
    (hov : lookup s.var_map (.dir (kn : ℤ) x y dout) = some ov)
    (hiv : lookup s.var_map (.dir (kn : ℤ) x' y' dback) = some iv) :
    [-ov, -iv] ∈ (anti_parallel_cell pr (kn : ℤ) s x y).clauses := by
  rcases horient with ⟨h1, h2, h3, h4, hg⟩ | ⟨h1, h2, h3, h4, hg⟩ |
    ⟨h1, h2, h3, h4, hg⟩ | ⟨h1, h2, h3, h4, hg⟩ <;>
    subst h1 <;> subst h3 <;> subst h4 <;> subst h2 <;>
    unfold anti_parallel_cell <;> dsimp only
  · refine anti_parallel_case_clauses_mono _ _ _ _ _
      (anti_parallel_case_clauses_mono _ _ _ _ _
        (anti_parallel_case_clauses_mono _ _ _ _ _ ?_))
    refine anti_parallel_case_self_cond _ _ _ _ _ _ ?_ hov hiv
    exact decide_eq_true ⟨hg, in_bounds_true _ kn b hb _ _ hx' hy'⟩
  · refine anti_parallel_case_clauses_mono _ _ _ _ _
      (anti_parallel_case_clauses_mono _ _ _ _ _ ?_)
    refine anti_parallel_case_self_cond _ _ _ _ _ _ ?_ ?_ ?_
    · simp only [anti_parallel_case_line_bounds]
      exact decide_eq_true ⟨hg, in_bounds_true _ kn b hb _ _ hx' hy'⟩
    · simp only [anti_parallel_case_var_map]
      exact hov
    · simp only [anti_parallel_case_var_map]
      exact hiv
  · refine anti_parallel_case_clauses_mono _ _ _ _ _ ?_
    refine anti_parallel_case_self_cond _ _ _ _ _ _ ?_ ?_ ?_
    · simp only [anti_parallel_case_line_bounds]
      exact decide_eq_true ⟨hg, in_bounds_true _ kn b hb _ _ hx' hy'⟩
    · simp only [anti_parallel_case_var_map]
      exact hov
    · simp only [anti_parallel_case_var_map]
      exact hiv
  · refine anti_parallel_case_self_cond _ _ _ _ _ _ ?_ ?_ ?_
    · simp only [anti_parallel_case_line_bounds]
      exact decide_eq_true ⟨hg, in_bounds_true _ kn b hb _ _ hx' hy'⟩
    · simp only [anti_parallel_case_var_map]
      exact hov
    · simp only [anti_parallel_case_var_map]
      exact hiv

theorem bounds_get_eq (pr : MetroProblem) (kn : ℕ) (hk : kn < pr.K.toNat)
    (b : ℤ × ℤ × ℤ × ℤ)
    (hb : (create_variables pr (initState pr)).line_bounds.get? kn = some b) :
    b = line_box pr (identify_lines_for_popular_cells pr) kn := by
  rw [create_variables_line_bounds] at hb
  simp only [initState, List.nil_append] at hb
  rw [List.get?_map, List.get?_range hk] at hb
  exact (Option.some.injEq _ _).mp hb.symm

theorem line_box_in_grid (pr : MetroProblem) (lte : List ℤ) (kn : ℕ) :
    0 ≤ (line_box pr lte kn).1 ∧ (line_box pr lte kn).2.1 ≤ pr.N - 1 ∧
    0 ≤ (line_box pr lte kn).2.2.1 ∧ (line_box pr lte kn).2.2.2 ≤ pr.M - 1 := by
  unfold line_box
  dsimp only
  exact ⟨le_max_left _ _, min_le_left _ _, le_max_left _ _, min_le_left _ _⟩

/-- C7. For adjacent cells both inside line `k`'s bounding box, the
direction variables of the move from the first to the second and of
the immediately reversing move both exist, the encoder emits the
binary clause forbidding them together, and hence no satisfying
assignment of the emitted clause set asserts both. -/
theorem C7_anti_reversal (pr : MetroProblem) (kn : ℕ) (b : ℤ × ℤ × ℤ × ℤ)
    (x y x' y' dout dback : ℤ)
    (hk : kn < pr.K.toNat)
    (hb : (create_variables pr (initState pr)).line_bounds.get? kn = some b)
    (hx : b.1 ≤ x ∧ x ≤ b.2.1) (hy : b.2.2.1 ≤ y ∧ y ≤ b.2.2.2)
    (hx' : b.1 ≤ x' ∧ x' ≤ b.2.1) (hy' : b.2.2.1 ≤ y' ∧ y' ≤ b.2.2.2)
    (horient :
      (x' = x + 1 ∧ y' = y ∧ dout = 0 ∧ dback = 1) ∨
      (x' = x - 1 ∧ y' = y ∧ dout = 1 ∧ dback = 0) ∨
      (x' = x ∧ y' = y + 1 ∧ dout = 2 ∧ dback = 3) ∨
      (x' = x ∧ y' = y - 1 ∧ dout = 3 ∧ dback = 2)) :
    ∃ ov iv,
      lookup (create_variables pr (initState pr)).var_map
        (.dir (kn : ℤ) x y dout) = some ov ∧
      lookup (create_variables pr (initState pr)).var_map
        (.dir (kn : ℤ) x' y' dback) = some iv ∧
      [-ov, -iv] ∈ (encode_anti_parallel_directions pr
        (create_variables pr (initState pr)) (kn : ℤ)).clauses ∧
      ∀ A : ℤ → Bool,
        evalClauses A (encode_anti_parallel_directions pr
          (create_variables pr (initState pr)) (kn : ℤ)).clauses = true →
        ¬(A ov = true ∧ A iv = true) := by
  have hbval := bounds_get_eq pr kn hk b hb
  have hgrid := line_box_in_grid pr (identify_lines_for_popular_cells pr) kn
  rw [← hbval] at hgrid
  have hdout : dout ∈ ([0, 1, 2, 3] : List ℤ) := by
    rcases horient with h | h | h | h
    · rw [h.2.2.1]; simp
    · rw [h.2.2.1]; simp
    · rw [h.2.2.1]; simp
    · rw [h.2.2.1]; simp
  have hdback : dback ∈ ([0, 1, 2, 3] : List ℤ) := by
    rcases horient with h | h | h | h
    · rw [h.2.2.2]; simp
    · rw [h.2.2.2]; simp
    · rw [h.2.2.2]; simp
    · rw [h.2.2.2]; simp
  obtain ⟨ov, hov⟩ := create_variables_establish pr kn hk x y (.dir (kn : ℤ) x y dout)
    (hbval ▸ hx) (hbval ▸ hy) (fun t => create_cell_vars_dir (kn : ℤ) x y dout hdout t)
    (initState pr)
  obtain ⟨iv, hiv⟩ := create_variables_establish pr kn hk x' y' (.dir (kn : ℤ) x' y' dback)
    (hbval ▸ hx') (hbval ▸ hy') (fun t => create_cell_vars_dir (kn : ℤ) x' y' dback hdback t)
    (initState pr)
  have horient' :
      (x' = x + 1 ∧ y' = y ∧ dout = 0 ∧ dback = 1 ∧ x + 1 < pr.N) ∨
      (x' = x - 1 ∧ y' = y ∧ dout = 1 ∧ dback = 0 ∧ 0 ≤ x - 1) ∨
      (x' = x ∧ y' = y + 1 ∧ dout = 2 ∧ dback = 3 ∧ y + 1 < pr.M) ∨
      (x' = x ∧ y' = y - 1 ∧ dout = 3 ∧ dback = 2 ∧ 0 ≤ y - 1) := by
    rcases horient with ⟨h1, h2, h3, h4⟩ | ⟨h1, h2, h3, h4⟩ | ⟨h1, h2, h3, h4⟩ |
      ⟨h1, h2, h3, h4⟩
    · exact Or.inl ⟨h1, h2, h3, h4, by omega⟩
    · exact Or.inr (Or.inl ⟨h1, h2, h3, h4, by omega⟩)
    · exact Or.inr (Or.inr (Or.inl ⟨h1, h2, h3, h4, by omega⟩))
    · exact Or.inr (Or.inr (Or.inr ⟨h1, h2, h3, h4, by omega⟩))
  have hmem : [-ov, -iv] ∈ (encode_anti_parallel_directions pr
      (create_variables pr (initState pr)) (kn : ℤ)).clauses := by
    unfold encode_anti_parallel_directions
    dsimp only
    have hgetD : (create_variables pr (initState pr)).line_bounds.getD
        ((kn : ℤ)).toNat (0, -1, 0, -1) = b := by
      rw [Int.toNat_ofNat, List.getD_eq_getElem?_getD, ← List.get?_eq_getElem?, hb]
      rfl
    rw [hgetD]
    refine foldl_clause_establish_ctx _
      (create_variables pr (initState pr)).var_map
      (create_variables pr (initState pr)).line_bounds
      (fun s' x => foldl_clauses_mono _
        (fun s' y => anti_parallel_cell_clauses_mono pr (kn : ℤ) s' x y) _ s')
      (fun s' x => foldl_var_map_eq _
        (fun s' y => anti_parallel_cell_var_map pr (kn : ℤ) s' x y) _ s')
      (fun s' x => foldl_line_bounds_eq _
        (fun s' y => anti_parallel_cell_line_bounds pr (kn : ℤ) s' x y) _ s')
      _ x ((int_range_mem _ _ _).mpr hx) _ ?_ _ rfl rfl
    intro s' hvm hlb
    refine foldl_clause_establish_ctx _
      (create_variables pr (initState pr)).var_map
      (create_variables pr (initState pr)).line_bounds
      (fun s' y => anti_parallel_cell_clauses_mono pr (kn : ℤ) s' x y)
      (fun s' y => anti_parallel_cell_var_map pr (kn : ℤ) s' x y)
      (fun s' y => anti_parallel_cell_line_bounds pr (kn : ℤ) s' x y)
      _ y ((int_range_mem _ _ _).mpr hy) _ ?_ s' hvm hlb
    intro s'' hvm' hlb'
    exact anti_parallel_cell_mem pr kn b s'' x y x' y' dout dback ov iv
      (by rw [hlb']; exact hb) hx' hy' horient'
      (by rw [hvm']; exact hov) (by rw [hvm']; exact hiv)
  refine ⟨ov, iv, hov, hiv, hmem, ?_⟩
  intro A hsat
  have hpos : StPos (create_variables pr (initState pr)) :=
    create_variables_stpos pr (initState pr)
      ⟨le_refl 1, by intro p hp; cases hp⟩
  exact neg_pair_clause_sem A ov iv
    (lookup_pos _ _ _ hpos hov) (lookup_pos _ _ _ hpos hiv) _ hmem hsat

/-- C7 witness: the right-adjacency case on the concrete 3×1 one-line
problem. -/
theorem C7_anti_reversal_witness :
    ∃ ov iv,
      lookup (create_variables
        { scenario := 1, N := 3, M := 1, K := 1, J := 0, P := 0,
          lines := [((0, 0), (2, 0))], popular_cells := [] }
        (initState
          { scenario := 1, N := 3, M := 1, K := 1, J := 0, P := 0,
            lines := [((0, 0), (2, 0))], popular_cells := [] })).var_map
        (.dir 0 0 0 0) = some ov ∧
      lookup (create_variables
        { scenario := 1, N := 3, M := 1, K := 1, J := 0, P := 0,
          lines := [((0, 0), (2, 0))], popular_cells := [] }
        (initState
          { scenario := 1, N := 3, M := 1, K := 1, J := 0, P := 0,
            lines := [((0, 0), (2, 0))], popular_cells := [] })).var_map
        (.dir 0 1 0 1) = some iv ∧
      [-ov, -iv] ∈ (encode_anti_parallel_directions
        { scenario := 1, N := 3, M := 1, K := 1, J := 0, P := 0,
          lines := [((0, 0), (2, 0))], popular_cells := [] }
        (create_variables
          { scenario := 1, N := 3, M := 1, K := 1, J := 0, P := 0,
            lines := [((0, 0), (2, 0))], popular_cells := [] }
          (initState
            { scenario := 1, N := 3, M := 1, K := 1, J := 0, P := 0,
              lines := [((0, 0), (2, 0))], popular_cells := [] })) 0).clauses ∧
      ∀ A : ℤ → Bool,
        evalClauses A (encode_anti_parallel_directions
          { scenario := 1, N := 3, M := 1, K := 1, J := 0, P := 0,
            lines := [((0, 0), (2, 0))], popular_cells := [] }
          (create_variables
            { scenario := 1, N := 3, M := 1, K := 1, J := 0, P := 0,
              lines := [((0, 0), (2, 0))], popular_cells := [] }
            (initState
              { scenario := 1, N := 3, M := 1, K := 1, J := 0, P := 0,
                lines := [((0, 0), (2, 0))], popular_cells := [] })) 0).clauses = true →
        ¬(A ov = true ∧ A iv = true) :=
  C7_anti_reversal
    { scenario := 1, N := 3, M := 1, K := 1, J := 0, P := 0,
      lines := [((0, 0), (2, 0))], popular_cells := [] }
    0 (0, 2, 0, 0) 0 0 1 0 0 1 (by decide) (by decide) (by decide) (by decide)
    (by decide) (by decide) (by decide)

/-! ## The dropped empty clause (C1) -/

/-- C1. `add_clause` drops the empty clause (`if literals:` is false on
the empty Python list), so for the concrete scenario-2 problem whose
popular cell `(5, 5)` is unreachable by the single line's bounding box,
no line has a cell variable there, the emitted clause list contains no
empty clause, and the resulting CNF is satisfied by the assignment
asserting the straight path's cell and direction variables — the
encoder does not force unsatisfiability. -/
theorem C1_empty_clause_dropped :
    (∀ s : EncState, add_clause s [] = s) ∧
    c1_problem.scenario = 2 ∧ 0 < c1_problem.P ∧
    vars_in_cell c1_problem (encode_all c1_problem).var_map 5 5 = [] ∧
    ([] : List ℤ) ∉ (encode_all c1_problem).clauses ∧
    evalClauses (fun v => v ∈ ([1, 2, 7, 8, 13] : List ℤ))
      (encode_all c1_problem).clauses = true :=
  ⟨fun s => rfl, by decide, by decide, by decide, by decide, by decide⟩

/-! ## Characterization of `at_most_k_efficient` (C2) -/

theorem lookup_none_of (l : List (VarKey × ℤ)) (key : VarKey)
    (h : ∀ p ∈ l, p.1 ≠ key) : lookup l key = none := by
  induction l with
  | nil => rfl
  | cons p rest ih =>
      unfold lookup
      rw [if_neg (h p (List.mem_cons_self _ _))]
      exact ih (fun q hq => h q (List.mem_cons_of_mem p hq))

theorem lookup_fun (l : List (VarKey × ℤ)) (key : VarKey) (v : ℤ)
    (hmem : (key, v) ∈ l) (hfun : ∀ p ∈ l, p.1 = key → p.2 = v) :
    lookup l key = some v := by
  induction l with
  | nil => cases hmem
  | cons p rest ih =>
      unfold lookup
      by_cases hk : p.1 = key
      · rw [if_pos hk, hfun p (List.mem_cons_self _ _) hk]
      · rw [if_neg hk]
        rcases List.mem_cons.mp hmem with heq | hmem'
        · exact absurd (by rw [← heq]) hk
        · exact ih hmem' (fun q hq => hfun q (List.mem_cons_of_mem p hq))

theorem amkS_zero (kn : ℕ) : amkS kn 0 = 0 := rfl

theorem amkS_succ (kn i : ℕ) : amkS kn (i + 1) = amkS kn i + min kn (i + 1) := by
  unfold amkS
  rw [List.range_succ, List.map_append, List.sum_append]
  rfl

theorem rowEntriesUpto_succ (line c0 : ℤ) (kn i jm : ℕ) :
    rowEntriesUpto line c0 kn i (jm + 1)
      = rowEntriesUpto line c0 kn i jm
          ++ [(VarKey.seq_count line (i : ℤ) ((jm + 1 : ℕ) : ℤ), sigma1 c0 kn i (jm + 1))] := by
  unfold rowEntriesUpto
  rw [List.range_succ, List.map_append]
  rfl

theorem rowEntriesUpto_zero (line c0 : ℤ) (kn i : ℕ) :
    rowEntriesUpto line c0 kn i 0 = [] := rfl

theorem rowClausesUpto_succ (line c0 : ℤ) (kn : ℕ) (v_i : ℤ) (i jm : ℕ) :
    rowClausesUpto line c0 kn v_i i (jm + 1)
      = rowClausesUpto line c0 kn v_i i jm ++ rowClausesAt line c0 kn v_i i (jm + 1) := by
  unfold rowClausesUpto
  simp [List.range_succ]

theorem E1upto_succ (line c0 : ℤ) (kn im : ℕ) :
    E1upto line c0 kn (im + 1)
      = E1upto line c0 kn im ++ rowEntriesUpto line c0 kn (im + 1) (min kn (im + 1)) := by
  unfold E1upto
  simp [List.range_succ]

theorem CL1upto_succ (line c0 : ℤ) (kn : ℕ) (vars : List ℤ) (im : ℕ) :
    CL1upto line c0 kn vars (im + 1)
      = CL1upto line c0 kn vars im
          ++ rowClausesUpto line c0 kn (vars.getD im 0) (im + 1) (min kn (im + 1)) := by
  unfold CL1upto
  simp [List.range_succ]

theorem E2upto_succ (line c0 : ℤ) (kn n im : ℕ) :
    E2upto line c0 kn n (im + 1)
      = E2upto line c0 kn n im
          ++ (if kn + 1 ≤ im + 1 then
              [(VarKey.seq_count line ((im + 1 : ℕ) : ℤ) ((kn : ℤ) + 1),
                sigma2 c0 kn n (im + 1))]
            else []) := by
  unfold E2upto
  simp [List.range_succ]

theorem CL2upto_succ (line c0 : ℤ) (kn n : ℕ) (vars : List ℤ) (im : ℕ) :
    CL2upto line c0 kn n vars (im + 1)
      = CL2upto line c0 kn n vars im
          ++ step2ClausesAt line c0 kn n (vars.getD im 0) (im + 1) := by
  unfold CL2upto
  simp [List.range_succ]

theorem lookup_rowEntriesUpto_none (line c0 : ℤ) (kn i jm : ℕ) (a b : ℤ)
    (h : ∀ j0, j0 < jm → ¬(a = (i : ℤ) ∧ b = ((j0 + 1 : ℕ) : ℤ))) :
    lookup (rowEntriesUpto line c0 kn i jm) (.seq_count line a b) = none := by
  refine lookup_none_of _ _ ?_
  intro p hp
  unfold rowEntriesUpto at hp
  simp only [List.mem_map, List.mem_range] at hp
  obtain ⟨j0, hj0, rfl⟩ := hp
  simp only [ne_eq, VarKey.seq_count.injEq, not_and]
  intro _ hia hjb
  exact h j0 hj0 ⟨hia.symm, hjb.symm⟩

theorem lookup_E1upto_none (line c0 : ℤ) (kn im : ℕ) (a b : ℤ)
    (h : ∀ i0, i0 < im → ∀ j0, j0 < min kn (i0 + 1) →
      ¬(a = ((i0 + 1 : ℕ) : ℤ) ∧ b = ((j0 + 1 : ℕ) : ℤ))) :
    lookup (E1upto line c0 kn im) (.seq_count line a b) = none := by
  refine lookup_none_of _ _ ?_
  intro p hp
  unfold E1upto rowEntriesUpto at hp
  simp only [List.mem_bind, List.mem_map, List.mem_range] at hp
  obtain ⟨i0, hi0, j0, hj0, rfl⟩ := hp
  simp only [ne_eq, VarKey.seq_count.injEq, not_and]
  intro _ hia hjb
  exact h i0 hi0 j0 hj0 ⟨hia.symm, hjb.symm⟩

theorem lookup_E2upto_none (line c0 : ℤ) (kn n im : ℕ) (a b : ℤ)
    (h : ∀ i0, i0 < im → kn + 1 ≤ i0 + 1 → ¬(a = ((i0 + 1 : ℕ) : ℤ) ∧ b = (kn : ℤ) + 1)) :
    lookup (E2upto line c0 kn n im) (.seq_count line a b) = none := by
  refine lookup_none_of _ _ ?_
  intro p hp
  unfold E2upto at hp
  simp only [List.mem_bind, List.mem_range] at hp
  obtain ⟨i0, hi0, hp⟩ := hp
  by_cases hc : kn + 1 ≤ i0 + 1
  · rw [if_pos hc] at hp
    simp only [List.mem_singleton] at hp
    subst hp
    simp only [ne_eq, VarKey.seq_count.injEq, not_and]
    intro _ hia hjb
    exact h i0 hi0 hc ⟨hia.symm, hjb.symm⟩
  · rw [if_neg hc] at hp
    cases hp

theorem lookup_E1upto_some (line c0 : ℤ) (kn im : ℕ) (i j : ℕ)
    (hi1 : 1 ≤ i) (him : i ≤ im) (hj1 : 1 ≤ j) (hjm : j ≤ min kn i) :
    lookup (E1upto line c0 kn im) (.seq_count line (i : ℤ) (j : ℤ))
      = some (sigma1 c0 kn i j) := by
  refine lookup_fun _ _ _ ?_ ?_
  · unfold E1upto rowEntriesUpto
    simp only [List.mem_bind, List.mem_map, List.mem_range]
    refine ⟨i - 1, by omega, j - 1, by omega, ?_⟩
    have h1 : i - 1 + 1 = i := by omega
    have h2 : j - 1 + 1 = j := by omega
    rw [h1, h2]
  · intro p hp
    unfold E1upto rowEntriesUpto at hp
    simp only [List.mem_bind, List.mem_map, List.mem_range] at hp
    obtain ⟨i0, hi0, j0, hj0, rfl⟩ := hp
    simp only [VarKey.seq_count.injEq, and_imp]
    intro _ hia hjb
    have hii : i0 + 1 = i := by exact_mod_cast hia
    have hjj : j0 + 1 = j := by exact_mod_cast hjb
    rw [hii, hjj]

theorem lookup_E2upto_some (line c0 : ℤ) (kn n im : ℕ) (i : ℕ)
    (hi : kn + 1 ≤ i) (him : i ≤ im) :
    lookup (E2upto line c0 kn n im) (.seq_count line (i : ℤ) ((kn : ℤ) + 1))
      = some (sigma2 c0 kn n i) := by
  refine lookup_fun _ _ _ ?_ ?_
  · unfold E2upto
    simp only [List.mem_bind, List.mem_range]
    refine ⟨i - 1, by omega, ?_⟩
    rw [if_pos (by omega)]
    have h1 : i - 1 + 1 = i := by omega
    rw [h1]
    simp
  · intro p hp
    unfold E2upto at hp
    simp only [List.mem_bind, List.mem_range] at hp
    obtain ⟨i0, hi0, hp⟩ := hp
    by_cases hc : kn + 1 ≤ i0 + 1
    · rw [if_pos hc] at hp
      simp only [List.mem_singleton] at hp
      subst hp
      simp only [VarKey.seq_count.injEq, and_imp]
      intro _ hia _
      have hii : i0 + 1 = i := by exact_mod_cast hia
      rw [hii]
    · rw [if_neg hc] at hp
      cases hp

theorem lookup_append_none (m1 m2 : List (VarKey × ℤ)) (key : VarKey)
    (h : lookup m1 key = none) : lookup (m1 ++ m2) key = lookup m2 key := by
  rw [lookup_append, h]

theorem lookup_append_some (m1 m2 : List (VarKey × ℤ)) (key : VarKey) (v : ℤ)
    (h : lookup m1 key = some v) : lookup (m1 ++ m2) key = some v := by
  rw [lookup_append, h]

theorem lookup_single_ne (k : VarKey) (v : ℤ) (key : VarKey) (h : k ≠ key) :
    lookup [(k, v)] key = none := by
  unfold lookup
  rw [if_neg h]
  rfl

theorem add_clause_cons (s : EncState) (x : ℤ) (rest : List ℤ) :
    add_clause s (x :: rest) = { s with clauses := s.clauses ++ [x :: rest] } := rfl

theorem new_var_none (a : ℤ) (m : List (VarKey × ℤ)) (c : List (List ℤ))
    (t : List (List ℤ)) (b : List (ℤ × ℤ × ℤ × ℤ)) (key : VarKey)
    (h : lookup m key = none) :
    new_var ⟨a, m, c, t, b⟩ key = (a, ⟨a + 1, m ++ [(key, a)], c, t, b⟩) := by
  unfold new_var
  rw [h]

theorem get_clause_some_mk (a : ℤ) (m : List (VarKey × ℤ)) (c : List (List ℤ))
    (t : List (List ℤ)) (b : List (ℤ × ℤ × ℤ × ℤ)) (key : VarKey)
    (f : ℤ → List ℤ) (v : ℤ) (h : lookup m key = some v) :
    get_clause ⟨a, m, c, t, b⟩ key f = add_clause ⟨a, m, c, t, b⟩ (f v) := by
  unfold get_clause
  rw [h]

theorem get_clause_none_mk (a : ℤ) (m : List (VarKey × ℤ)) (c : List (List ℤ))
    (t : List (List ℤ)) (b : List (ℤ × ℤ × ℤ × ℤ)) (key : VarKey)
    (f : ℤ → List ℤ) (h : lookup m key = none) :
    get_clause ⟨a, m, c, t, b⟩ key f = ⟨a, m, c, t, b⟩ := by
  unfold get_clause
  rw [h]

theorem amk_step1_spec (s0 : EncState) (line : ℤ) (kn : ℕ) (vars : List ℤ)
    (hfresh : ∀ i j : ℤ, lookup s0.var_map (.seq_count line i j) = none)
    (i0 j0 : ℕ) (hj0 : j0 < min kn (i0 + 1)) :
    amk_step1 line (vars.getD i0 0) (i0 + 1) (j0 + 1)
      { s0 with
        var_counter := s0.var_counter + ((amkS kn i0 + j0 : ℕ) : ℤ)
        var_map := s0.var_map ++ E1upto line s0.var_counter kn i0
          ++ rowEntriesUpto line s0.var_counter kn (i0 + 1) j0
        clauses := s0.clauses ++ CL1upto line s0.var_counter kn vars i0
          ++ rowClausesUpto line s0.var_counter kn (vars.getD i0 0) (i0 + 1) j0 }
      = { s0 with
        var_counter := s0.var_counter + ((amkS kn i0 + (j0 + 1) : ℕ) : ℤ)
        var_map := s0.var_map ++ E1upto line s0.var_counter kn i0
          ++ rowEntriesUpto line s0.var_counter kn (i0 + 1) (j0 + 1)
        clauses := s0.clauses ++ CL1upto line s0.var_counter kn vars i0
          ++ rowClausesUpto line s0.var_counter kn (vars.getD i0 0) (i0 + 1) (j0 + 1) } := by
  have hjkn : j0 + 1 ≤ kn := by omega
  have hji : j0 ≤ i0 := by omega
  have hsig : sigma1 s0.var_counter kn (i0 + 1) (j0 + 1)
      = s0.var_counter + ((amkS kn i0 + j0 : ℕ) : ℤ) := rfl
  have hnew : lookup (s0.var_map ++ E1upto line s0.var_counter kn i0
      ++ rowEntriesUpto line s0.var_counter kn (i0 + 1) j0)
      (VarKey.seq_count line ((i0 + 1 : ℕ) : ℤ) ((j0 + 1 : ℕ) : ℤ)) = none := by
    rw [List.append_assoc, lookup_append_none _ _ _ (hfresh _ _),
      lookup_append_none _ _ _
        (lookup_E1upto_none _ _ _ _ _ _ (by intro a ha b hb; omega))]
    exact lookup_rowEntriesUpto_none _ _ _ _ _ _ _ (by intro b hb; omega)
  rw [rowEntriesUpto_succ, rowClausesUpto_succ]
  by_cases hcar : j0 + 1 ≤ i0
  · have hl1 : lookup ((s0.var_map ++ E1upto line s0.var_counter kn i0
        ++ rowEntriesUpto line s0.var_counter kn (i0 + 1) j0)
        ++ [(VarKey.seq_count line ((i0 + 1 : ℕ) : ℤ) ((j0 + 1 : ℕ) : ℤ),
          s0.var_counter + ((amkS kn i0 + j0 : ℕ) : ℤ))])
        (VarKey.seq_count line (((i0 + 1 : ℕ) : ℤ) - 1) ((j0 + 1 : ℕ) : ℤ))
        = some (sigma1 s0.var_counter kn i0 (j0 + 1)) := by
      have hk : VarKey.seq_count line (((i0 + 1 : ℕ) : ℤ) - 1) ((j0 + 1 : ℕ) : ℤ)
          = VarKey.seq_count line (i0 : ℤ) ((j0 + 1 : ℕ) : ℤ) := by
        rw [VarKey.seq_count.injEq]
        refine ⟨by trivial, by push_cast; ring, by trivial⟩
      rw [hk, List.append_assoc, List.append_assoc,
        lookup_append_none _ _ _ (hfresh _ _),
        lookup_append_some _ _ _ _
          (lookup_E1upto_some line s0.var_counter kn i0 i0 (j0 + 1)
            (by omega) le_rfl (by omega) (by omega))]
    by_cases hj : j0 = 0
    · simp only [amk_step1, new_var_none _ _ _ _ _ _ hnew,
        if_pos (show 1 < i0 + 1 by omega),
        get_clause_some_mk _ _ _ _ _ _ _ _ hl1,
        if_pos (show j0 + 1 = 1 by omega), add_clause_cons,
        rowClausesAt, Nat.add_sub_cancel,
        if_pos (show 1 < i0 + 1 ∧ j0 + 1 ≤ i0 from ⟨by omega, hcar⟩), hsig,
        EncState.mk.injEq]
      refine ⟨by push_cast; ring, by simp [List.append_assoc],
        by simp [List.append_assoc], by trivial, by trivial⟩
    · have hl2 : lookup ((s0.var_map ++ E1upto line s0.var_counter kn i0
          ++ rowEntriesUpto line s0.var_counter kn (i0 + 1) j0)
          ++ [(VarKey.seq_count line ((i0 + 1 : ℕ) : ℤ) ((j0 + 1 : ℕ) : ℤ),
            s0.var_counter + ((amkS kn i0 + j0 : ℕ) : ℤ))])
          (VarKey.seq_count line (((i0 + 1 : ℕ) : ℤ) - 1) (((j0 + 1 : ℕ) : ℤ) - 1))
          = some (sigma1 s0.var_counter kn i0 j0) := by
        have hk : VarKey.seq_count line (((i0 + 1 : ℕ) : ℤ) - 1) (((j0 + 1 : ℕ) : ℤ) - 1)
            = VarKey.seq_count line (i0 : ℤ) (j0 : ℤ) := by
          rw [VarKey.seq_count.injEq]
          refine ⟨by trivial, by push_cast; ring, by push_cast; ring⟩
        rw [hk, List.append_assoc, List.append_assoc,
          lookup_append_none _ _ _ (hfresh _ _),
          lookup_append_some _ _ _ _
            (lookup_E1upto_some line s0.var_counter kn i0 i0 j0
              (by omega) le_rfl (by omega) (by omega))]
      simp only [amk_step1, new_var_none _ _ _ _ _ _ hnew,
        if_pos (show 1 < i0 + 1 by omega),
        get_clause_some_mk _ _ _ _ _ _ _ _ hl1,
        get_clause_some_mk _ _ _ _ _ _ _ _ hl2,
        if_neg (show ¬(j0 + 1 = 1) by omega), add_clause_cons,
        rowClausesAt, Nat.add_sub_cancel,
        if_pos (show 1 < i0 + 1 ∧ j0 + 1 ≤ i0 from ⟨by omega, hcar⟩), hsig,
        EncState.mk.injEq]
      refine ⟨by push_cast; ring, by simp [List.append_assoc],
        by simp [List.append_assoc], by trivial, by trivial⟩
  · by_cases hi : i0 = 0
    · simp only [amk_step1, new_var_none _ _ _ _ _ _ hnew,
        if_neg (show ¬(1 < i0 + 1) by omega),
        if_pos (show j0 + 1 = 1 by omega), add_clause_cons,
        rowClausesAt, Nat.add_sub_cancel,
        if_neg (show ¬(1 < i0 + 1 ∧ j0 + 1 ≤ i0) by omega), hsig,
        EncState.mk.injEq]
      refine ⟨by push_cast; ring, by simp [List.append_assoc],
        by simp [List.append_assoc], by trivial, by trivial⟩
    · have hl1n : lookup ((s0.var_map ++ E1upto line s0.var_counter kn i0
          ++ rowEntriesUpto line s0.var_counter kn (i0 + 1) j0)
          ++ [(VarKey.seq_count line ((i0 + 1 : ℕ) : ℤ) ((j0 + 1 : ℕ) : ℤ),
            s0.var_counter + ((amkS kn i0 + j0 : ℕ) : ℤ))])
          (VarKey.seq_count line (((i0 + 1 : ℕ) : ℤ) - 1) ((j0 + 1 : ℕ) : ℤ)) = none := by
        have hk : VarKey.seq_count line (((i0 + 1 : ℕ) : ℤ) - 1) ((j0 + 1 : ℕ) : ℤ)
            = VarKey.seq_count line (i0 : ℤ) ((j0 + 1 : ℕ) : ℤ) := by
          rw [VarKey.seq_count.injEq]
          refine ⟨by trivial, by push_cast; ring, by trivial⟩
        rw [hk, List.append_assoc, List.append_assoc,
          lookup_append_none _ _ _ (hfresh _ _),
          lookup_append_none _ _ _
            (lookup_E1upto_none _ _ _ _ _ _ (by intro a ha b hb; omega)),
          lookup_append_none _ _ _
            (lookup_rowEntriesUpto_none _ _ _ _ _ _ _ (by intro b hb; omega))]
        refine lookup_single_ne _ _ _ ?_
        simp only [ne_eq, VarKey.seq_count.injEq, not_and]
        intro _ h
        omega
      have hl2 : lookup ((s0.var_map ++ E1upto line s0.var_counter kn i0
          ++ rowEntriesUpto line s0.var_counter kn (i0 + 1) j0)
          ++ [(VarKey.seq_count line ((i0 + 1 : ℕ) : ℤ) ((j0 + 1 : ℕ) : ℤ),
            s0.var_counter + ((amkS kn i0 + j0 : ℕ) : ℤ))])
          (VarKey.seq_count line (((i0 + 1 : ℕ) : ℤ) - 1) (((j0 + 1 : ℕ) : ℤ) - 1))
          = some (sigma1 s0.var_counter kn i0 j0) := by
        have hk : VarKey.seq_count line (((i0 + 1 : ℕ) : ℤ) - 1) (((j0 + 1 : ℕ) : ℤ) - 1)
            = VarKey.seq_count line (i0 : ℤ) (j0 : ℤ) := by
          rw [VarKey.seq_count.injEq]
          refine ⟨by trivial, by push_cast; ring, by push_cast; ring⟩
        rw [hk, List.append_assoc, List.append_assoc,
          lookup_append_none _ _ _ (hfresh _ _),
          lookup_append_some _ _ _ _
            (lookup_E1upto_some line s0.var_counter kn i0 i0 j0
              (by omega) le_rfl (by omega) (by omega))]
      simp only [amk_step1, new_var_none _ _ _ _ _ _ hnew,
        if_pos (show 1 < i0 + 1 by omega),
        get_clause_none_mk _ _ _ _ _ _ _ hl1n,
        get_clause_some_mk _ _ _ _ _ _ _ _ hl2,
        if_neg (show ¬(j0 + 1 = 1) by omega), add_clause_cons,
        rowClausesAt, Nat.add_sub_cancel,
        if_neg (show ¬(1 < i0 + 1 ∧ j0 + 1 ≤ i0) by omega), hsig,
        EncState.mk.injEq]
      refine ⟨by push_cast; ring, by simp [List.append_assoc],
        by simp [List.append_assoc], by trivial, by trivial⟩

theorem amk_row1_spec (s0 : EncState) (line : ℤ) (kn : ℕ) (vars : List ℤ)
    (hfresh : ∀ i j : ℤ, lookup s0.var_map (.seq_count line i j) = none) (i0 : ℕ) :
    amk_row1 line kn vars
      { s0 with
        var_counter := s0.var_counter + ((amkS kn i0 : ℕ) : ℤ)
        var_map := s0.var_map ++ E1upto line s0.var_counter kn i0
        clauses := s0.clauses ++ CL1upto line s0.var_counter kn vars i0 }
      (i0 + 1)
      = { s0 with
        var_counter := s0.var_counter + ((amkS kn (i0 + 1) : ℕ) : ℤ)
        var_map := s0.var_map ++ E1upto line s0.var_counter kn (i0 + 1)
        clauses := s0.clauses ++ CL1upto line s0.var_counter kn vars (i0 + 1) } := by
  have key : ∀ jm, jm ≤ min kn (i0 + 1) →
      (List.range jm).foldl
        (fun s j0 => amk_step1 line (vars.getD i0 0) (i0 + 1) (j0 + 1) s)
        { s0 with
          var_counter := s0.var_counter + ((amkS kn i0 : ℕ) : ℤ)
          var_map := s0.var_map ++ E1upto line s0.var_counter kn i0
          clauses := s0.clauses ++ CL1upto line s0.var_counter kn vars i0 }
      = { s0 with
          var_counter := s0.var_counter + ((amkS kn i0 + jm : ℕ) : ℤ)
          var_map := s0.var_map ++ E1upto line s0.var_counter kn i0
            ++ rowEntriesUpto line s0.var_counter kn (i0 + 1) jm
          clauses := s0.clauses ++ CL1upto line s0.var_counter kn vars i0
            ++ rowClausesUpto line s0.var_counter kn (vars.getD i0 0) (i0 + 1) jm } := by
    intro jm
    induction jm with
    | zero =>
        intro _
        simp [rowEntriesUpto, rowClausesUpto]
    | succ jm ih =>
        intro hjm
        rw [List.range_succ, List.foldl_append]
        simp only [List.foldl_cons, List.foldl_nil]
        rw [ih (by omega)]
        exact amk_step1_spec s0 line kn vars hfresh i0 jm (by omega)
  simp only [amk_row1, Nat.add_sub_cancel]
  rw [key (min kn (i0 + 1)) le_rfl, E1upto_succ, CL1upto_succ, amkS_succ]
  simp [List.append_assoc]

theorem amk_loop1_spec (s0 : EncState) (line : ℤ) (kn : ℕ) (vars : List ℤ)
    (hfresh : ∀ i j : ℤ, lookup s0.var_map (.seq_count line i j) = none) (im : ℕ) :
    (List.range im).foldl (fun s i0 => amk_row1 line kn vars s (i0 + 1)) s0
      = { s0 with
          var_counter := s0.var_counter + ((amkS kn im : ℕ) : ℤ)
          var_map := s0.var_map ++ E1upto line s0.var_counter kn im
          clauses := s0.clauses ++ CL1upto line s0.var_counter kn vars im } := by
  induction im with
  | zero => simp [E1upto, CL1upto, amkS]
  | succ im ih =>
      rw [List.range_succ, List.foldl_append]
      simp only [List.foldl_cons, List.foldl_nil]
      rw [ih]
      exact amk_row1_spec s0 line kn vars hfresh im

theorem amk_step2_spec (s0 : EncState) (line : ℤ) (kn n : ℕ) (vars : List ℤ)
    (hfresh : ∀ i j : ℤ, lookup s0.var_map (.seq_count line i j) = none)
    (hkn : 1 ≤ kn) (o : Option ℤ) (im : ℕ) (hge : kn ≤ im) (him : im ≤ n) :
    amk_step2 line kn vars
      (o, { s0 with
        var_counter := s0.var_counter + ((amkS kn n + (im - kn) : ℕ) : ℤ)
        var_map := s0.var_map ++ E1upto line s0.var_counter kn n
          ++ E2upto line s0.var_counter kn n im
        clauses := s0.clauses ++ CL1upto line s0.var_counter kn vars n
          ++ CL2upto line s0.var_counter kn n vars im }) (im + 1)
      = (some (sigma2 s0.var_counter kn n (im + 1)),
        { s0 with
          var_counter := s0.var_counter + ((amkS kn n + (im + 1 - kn) : ℕ) : ℤ)
          var_map := s0.var_map ++ E1upto line s0.var_counter kn n
            ++ E2upto line s0.var_counter kn n (im + 1)
          clauses := s0.clauses ++ CL1upto line s0.var_counter kn vars n
            ++ CL2upto line s0.var_counter kn n vars (im + 1) }) := by
  have hsub : im + 1 - kn = (im - kn) + 1 := by omega
  have hsig2 : sigma2 s0.var_counter kn n (im + 1)
      = s0.var_counter + ((amkS kn n + (im - kn) : ℕ) : ℤ) := by
    simp [sigma2, Nat.succ_sub_succ]
  have hnew : lookup (s0.var_map ++ E1upto line s0.var_counter kn n
      ++ E2upto line s0.var_counter kn n im)
      (VarKey.seq_count line ((im + 1 : ℕ) : ℤ) ((kn : ℤ) + 1)) = none := by
    rw [List.append_assoc, lookup_append_none _ _ _ (hfresh _ _),
      lookup_append_none _ _ _
        (lookup_E1upto_none _ _ _ _ _ _ (by intro a ha b hb; omega))]
    exact lookup_E2upto_none _ _ _ _ _ _ _ (by intro a ha hc; omega)
  have hl3 : lookup ((s0.var_map ++ E1upto line s0.var_counter kn n
      ++ E2upto line s0.var_counter kn n im)
      ++ [(VarKey.seq_count line ((im + 1 : ℕ) : ℤ) ((kn : ℤ) + 1),
        s0.var_counter + ((amkS kn n + (im - kn) : ℕ) : ℤ))])
      (VarKey.seq_count line (((im + 1 : ℕ) : ℤ) - 1) (kn : ℤ))
      = some (sigma1 s0.var_counter kn im kn) := by
    have hk : VarKey.seq_count line (((im + 1 : ℕ) : ℤ) - 1) (kn : ℤ)
        = VarKey.seq_count line (im : ℤ) (kn : ℤ) := by
      rw [VarKey.seq_count.injEq]
      refine ⟨by trivial, by push_cast; ring, by trivial⟩
    rw [hk, List.append_assoc, List.append_assoc,
      lookup_append_none _ _ _ (hfresh _ _),
      lookup_append_some _ _ _ _
        (lookup_E1upto_some line s0.var_counter kn n im kn
          (by omega) him hkn (by omega))]
  by_cases hc2 : kn + 1 ≤ im
  · have hl2 : lookup ((s0.var_map ++ E1upto line s0.var_counter kn n
        ++ E2upto line s0.var_counter kn n im)
        ++ [(VarKey.seq_count line ((im + 1 : ℕ) : ℤ) ((kn : ℤ) + 1),
          s0.var_counter + ((amkS kn n + (im - kn) : ℕ) : ℤ))])
        (VarKey.seq_count line (((im + 1 : ℕ) : ℤ) - 1) ((kn : ℤ) + 1))
        = some (sigma2 s0.var_counter kn n im) := by
      have hk : VarKey.seq_count line (((im + 1 : ℕ) : ℤ) - 1) ((kn : ℤ) + 1)
          = VarKey.seq_count line (im : ℤ) ((kn : ℤ) + 1) := by
        rw [VarKey.seq_count.injEq]
        refine ⟨by trivial, by push_cast; ring, by trivial⟩
      rw [hk, List.append_assoc, List.append_assoc,
        lookup_append_none _ _ _ (hfresh _ _),
        lookup_append_none _ _ _
          (lookup_E1upto_none _ _ _ _ _ _ (by intro a ha b hb; omega)),
        lookup_append_some _ _ _ _ (lookup_E2upto_some line s0.var_counter kn n im im hc2 le_rfl)]
    simp only [amk_step2, if_pos (show kn + 1 ≤ im + 1 by omega),
      new_var_none _ _ _ _ _ _ hnew,
      if_pos (show 1 < im + 1 by omega),
      get_clause_some_mk _ _ _ _ _ _ _ _ hl2,
      get_clause_some_mk _ _ _ _ _ _ _ _ hl3,
      add_clause_cons, Nat.add_sub_cancel,
      E2upto_succ, CL2upto_succ, step2ClausesAt,
      if_pos (show kn + 2 ≤ im + 1 by omega), hsig2, hsub,
      Prod.mk.injEq, EncState.mk.injEq]
    refine ⟨by trivial, by push_cast; ring, by simp [List.append_assoc],
      by simp [List.append_assoc], by trivial, by trivial⟩
  · have hl2n : lookup ((s0.var_map ++ E1upto line s0.var_counter kn n
        ++ E2upto line s0.var_counter kn n im)
        ++ [(VarKey.seq_count line ((im + 1 : ℕ) : ℤ) ((kn : ℤ) + 1),
          s0.var_counter + ((amkS kn n + (im - kn) : ℕ) : ℤ))])
        (VarKey.seq_count line (((im + 1 : ℕ) : ℤ) - 1) ((kn : ℤ) + 1)) = none := by
      have hk : VarKey.seq_count line (((im + 1 : ℕ) : ℤ) - 1) ((kn : ℤ) + 1)
          = VarKey.seq_count line (im : ℤ) ((kn : ℤ) + 1) := by
        rw [VarKey.seq_count.injEq]
        refine ⟨by trivial, by push_cast; ring, by trivial⟩
      rw [hk, List.append_assoc, List.append_assoc,
        lookup_append_none _ _ _ (hfresh _ _),
        lookup_append_none _ _ _
          (lookup_E1upto_none _ _ _ _ _ _ (by intro a ha b hb; omega)),
        lookup_append_none _ _ _
          (lookup_E2upto_none _ _ _ _ _ _ _ (by intro a ha hc; omega))]
      refine lookup_single_ne _ _ _ ?_
      simp only [ne_eq, VarKey.seq_count.injEq, not_and]
      intro _ h
      omega
    simp only [amk_step2, if_pos (show kn + 1 ≤ im + 1 by omega),
      new_var_none _ _ _ _ _ _ hnew,
      if_pos (show 1 < im + 1 by omega),
      get_clause_none_mk _ _ _ _ _ _ _ hl2n,
      get_clause_some_mk _ _ _ _ _ _ _ _ hl3,
      add_clause_cons, Nat.add_sub_cancel,
      E2upto_succ, CL2upto_succ, step2ClausesAt,
      if_pos (show kn + 1 ≤ im + 1 by omega),
      if_neg (show ¬(kn + 2 ≤ im + 1) by omega), hsig2, hsub,
      Prod.mk.injEq, EncState.mk.injEq]
    refine ⟨by trivial, by push_cast; ring, by simp [List.append_assoc],
      by simp [List.append_assoc], by trivial, by trivial⟩

theorem amk_loop2_spec (s0 : EncState) (line : ℤ) (kn n : ℕ) (vars : List ℤ)
    (hfresh : ∀ i j : ℤ, lookup s0.var_map (.seq_count line i j) = none)
    (hkn : 1 ≤ kn) :
    ∀ im, im ≤ n →
    (List.range im).foldl (fun acc i0 => amk_step2 line kn vars acc (i0 + 1))
      (none, { s0 with
        var_counter := s0.var_counter + ((amkS kn n : ℕ) : ℤ)
        var_map := s0.var_map ++ E1upto line s0.var_counter kn n
        clauses := s0.clauses ++ CL1upto line s0.var_counter kn vars n })
    = ((if kn + 1 ≤ im then some (sigma2 s0.var_counter kn n im) else none),
      { s0 with
        var_counter := s0.var_counter + ((amkS kn n + (im - kn) : ℕ) : ℤ)
        var_map := s0.var_map ++ E1upto line s0.var_counter kn n
          ++ E2upto line s0.var_counter kn n im
        clauses := s0.clauses ++ CL1upto line s0.var_counter kn vars n
          ++ CL2upto line s0.var_counter kn n vars im }) := by
  intro im
  induction im with
  | zero =>
      intro _
      simp [E2upto, CL2upto, if_neg (show ¬(kn + 1 ≤ 0) by omega)]
  | succ im ih =>
      intro him
      rw [List.range_succ, List.foldl_append]
      simp only [List.foldl_cons, List.foldl_nil]
      rw [ih (by omega)]
      by_cases hge : kn ≤ im
      · rw [amk_step2_spec s0 line kn n vars hfresh hkn _ im hge (by omega)]
        rw [if_pos (show kn + 1 ≤ im + 1 by omega)]
      · simp only [amk_step2, if_neg (show ¬(kn + 1 ≤ im + 1) by omega),
          if_neg (show ¬(kn + 1 ≤ im) by omega)]
        have h1 : im + 1 - kn = im - kn := by omega
        rw [h1, E2upto_succ, CL2upto_succ]
        simp [step2ClausesAt, if_neg (show ¬(kn + 1 ≤ im + 1) by omega)]
        omega

theorem at_most_k_spec (s0 : EncState) (line : ℤ) (vars : List ℤ) (k : ℤ)
    (hfresh : ∀ i j : ℤ, lookup s0.var_map (.seq_count line i j) = none)
    (hk1 : 1 ≤ k) (hklt : k < (vars.length : ℤ)) :
    at_most_k_efficient s0 vars k line
      = { s0 with
          var_counter := s0.var_counter
            + ((amkS k.toNat vars.length + (vars.length - k.toNat) : ℕ) : ℤ)
          var_map := s0.var_map
            ++ E1upto line s0.var_counter k.toNat vars.length
            ++ E2upto line s0.var_counter k.toNat vars.length vars.length
          clauses := s0.clauses
            ++ CL1upto line s0.var_counter k.toNat vars vars.length
            ++ CL2upto line s0.var_counter k.toNat vars.length vars vars.length
            ++ [[-sigma2 s0.var_counter k.toNat vars.length vars.length]] } := by
  have hkn1 : 1 ≤ k.toNat := by omega
  have hknlt : k.toNat < vars.length := by omega
  simp only [at_most_k_efficient,
    if_neg (show ¬(k < 0) by omega), if_neg (show ¬(k = 0) by omega),
    if_neg (show ¬((vars.length : ℤ) ≤ k) by omega),
    if_pos (show k + 1 ≤ (vars.length : ℤ) by omega)]
  rw [amk_loop1_spec s0 line k.toNat vars hfresh vars.length]
  rw [amk_loop2_spec s0 line k.toNat vars.length vars hfresh hkn1 vars.length le_rfl]
  rw [if_pos (show k.toNat + 1 ≤ vars.length by omega)]
  simp only [add_clause_cons]
  try simp [List.append_assoc]

theorem amkS_mono (kn : ℕ) {a b : ℕ} (h : a ≤ b) : amkS kn a ≤ amkS kn b := by
  induction b with
  | zero =>
      have ha : a = 0 := by omega
      simp [ha]
  | succ b ih =>
      by_cases hab : a = b + 1
      · simp [hab]
      · have h1 := ih (by omega)
        rw [amkS_succ]
        omega

theorem amk_t1_lt (kn n i0 j0 : ℕ) (hi : i0 < n) (hj : j0 < min kn (i0 + 1)) :
    amkS kn i0 + j0 < amkS kn n := by
  have h1 : amkS kn i0 + j0 < amkS kn (i0 + 1) := by
    rw [amkS_succ]
    omega
  have h2 : amkS kn (i0 + 1) ≤ amkS kn n := amkS_mono kn (by omega)
  omega

theorem amk_t1_inj (kn i0 j0 i0' j0' : ℕ)
    (hj : j0 < min kn (i0 + 1)) (hj' : j0' < min kn (i0' + 1))
    (he : amkS kn i0 + j0 = amkS kn i0' + j0') : i0 = i0' ∧ j0 = j0' := by
  rcases Nat.lt_trichotomy i0 i0' with h | h | h
  · exfalso
    have h1 : amkS kn i0 + j0 < amkS kn (i0 + 1) := by
      rw [amkS_succ]
      omega
    have h2 : amkS kn (i0 + 1) ≤ amkS kn i0' := amkS_mono kn (by omega)
    omega
  · exact ⟨h, by subst h; omega⟩
  · exfalso
    have h1 : amkS kn i0' + j0' < amkS kn (i0' + 1) := by
      rw [amkS_succ]
      omega
    have h2 : amkS kn (i0' + 1) ≤ amkS kn i0 := amkS_mono kn (by omega)
    omega

theorem find_eq_some_of_unique {α : Type} (l : List α) (p : α → Bool) (a : α)
    (ha : a ∈ l) (hpa : p a = true) (hu : ∀ b ∈ l, p b = true → b = a) :
    l.find? p = some a := by
  induction l with
  | nil => cases ha
  | cons c rest ih =>
      by_cases hc : p c = true
      · rw [List.find?_cons_of_pos _ hc, hu c (List.mem_cons_self _ _) hc]
      · rw [List.find?_cons_of_neg _ (by simpa using hc)]
        refine ih ?_ (fun b hb hpb => hu b (List.mem_cons_of_mem _ hb) hpb)
        rcases List.mem_cons.mp ha with rfl | h
        · exact absurd hpa hc
        · exact h

theorem mem_amkPairs (kn n : ℕ) (p : ℕ × ℕ) :
    p ∈ amkPairs kn n
      ↔ ∃ i0, i0 < n ∧ ∃ j0, j0 < min kn (i0 + 1) ∧ p = (i0 + 1, j0 + 1) := by
  constructor
  · intro hp
    simp only [amkPairs, List.mem_bind, List.mem_map, List.mem_range] at hp
    obtain ⟨i0, hi0, j0, hj0, rfl⟩ := hp
    exact ⟨i0, hi0, j0, hj0, rfl⟩
  · rintro ⟨i0, hi0, j0, hj0, rfl⟩
    simp only [amkPairs, List.mem_bind, List.mem_map, List.mem_range]
    exact ⟨i0, hi0, j0, hj0, rfl⟩

theorem sigma1_pos (c0 : ℤ) (kn i j : ℕ) (hc0 : 1 ≤ c0) : 0 < sigma1 c0 kn i j := by
  unfold sigma1
  omega

theorem sigma2_pos (c0 : ℤ) (kn n i : ℕ) (hc0 : 1 ≤ c0) : 0 < sigma2 c0 kn n i := by
  unfold sigma2
  omega

theorem evalLit_pos (A : ℤ → Bool) (x : ℤ) (h : 0 < x) : evalLit A x = A x := by
  simp [evalLit, h]

theorem evalLit_neg (A : ℤ → Bool) (x : ℤ) (h : 0 < x) : evalLit A (-x) = !A x := by
  unfold evalLit
  rw [if_neg (by omega), neg_neg]

theorem getD_mem_of_lt : ∀ (l : List ℤ) (i : ℕ), i < l.length → l.getD i 0 ∈ l := by
  intro l
  induction l with
  | nil =>
      intro i h
      simp at h
  | cons a t ih =>
      intro i h
      cases i with
      | zero => simp
      | succ i =>
          simp only [List.getD_cons_succ]
          exact List.mem_cons_of_mem _ (ih i (by simpa using h))

theorem cntTrue_zero (α : ℤ → Bool) (vars : List ℤ) : cntTrue α vars 0 = 0 := rfl

theorem cntTrue_succ (α : ℤ → Bool) (vars : List ℤ) (i : ℕ) (h : i < vars.length) :
    cntTrue α vars (i + 1)
      = cntTrue α vars i + (if α (vars.getD i 0) = true then 1 else 0) := by
  unfold cntTrue
  rw [List.take_succ, List.filter_append, List.length_append]
  congr 1
  rw [List.getElem?_eq_getElem h]
  have hg : vars.getD i 0 = vars[i] := by
    rw [List.getD_eq_getElem?_getD, List.getElem?_eq_getElem h]
    rfl
  rw [hg]
  by_cases hα : α vars[i] = true
  · simp [List.filter, hα]
  · simp [List.filter, hα]

theorem cntTrue_mono (α : ℤ → Bool) (vars : List ℤ) {a b : ℕ} (h : a ≤ b) :
    cntTrue α vars a ≤ cntTrue α vars b := by
  unfold cntTrue
  have h1 : vars.take a = (vars.take b).take a := by
    rw [List.take_take, Nat.min_eq_left h]
  rw [h1]
  exact List.Sublist.length_le
    (List.Sublist.filter _ (List.take_sublist a (vars.take b)))

theorem cntTrue_le (α : ℤ → Bool) (vars : List ℤ) (i : ℕ) : cntTrue α vars i ≤ i := by
  unfold cntTrue
  calc ((vars.take i).filter (fun v => α v)).length
      ≤ (vars.take i).length := List.length_filter_le _ _
    _ ≤ i := List.length_take_le _ _

theorem amkA_mem (α : ℤ → Bool) (vars : List ℤ) (c0 : ℤ) (kn n : ℕ) (v : ℤ)
    (hv : v ∈ vars) : amkA α vars c0 kn n v = α v := by
  simp [amkA, hv]

theorem amkA_sigma1 (α : ℤ → Bool) (vars : List ℤ) (c0 : ℤ) (kn n : ℕ)
    (hvars : ∀ v ∈ vars, v < c0) (i0 j0 : ℕ)
    (hi : i0 < n) (hj : j0 < min kn (i0 + 1)) :
    amkA α vars c0 kn n (sigma1 c0 kn (i0 + 1) (j0 + 1))
      = decide (j0 + 1 ≤ cntTrue α vars (i0 + 1)) := by
  have hge : c0 ≤ sigma1 c0 kn (i0 + 1) (j0 + 1) := by
    unfold sigma1
    omega
  have hnm : sigma1 c0 kn (i0 + 1) (j0 + 1) ∉ vars :=
    fun hmem => absurd (hvars _ hmem) (by omega)
  have hfind : (amkPairs kn n).find?
      (fun p => sigma1 c0 kn p.1 p.2 == sigma1 c0 kn (i0 + 1) (j0 + 1))
      = some (i0 + 1, j0 + 1) := by
    refine find_eq_some_of_unique _ _ _
      ((mem_amkPairs kn n _).mpr ⟨i0, hi, j0, hj, rfl⟩) (by simp) ?_
    intro b hb hpb
    obtain ⟨i0', hi0', j0', hj0', rfl⟩ := (mem_amkPairs kn n b).mp hb
    simp only [beq_iff_eq] at hpb
    have ht : amkS kn i0' + j0' = amkS kn i0 + j0 := by
      have := hpb
      unfold sigma1 at this
      simp only [Nat.add_sub_cancel, Nat.succ_sub_succ, Nat.sub_zero] at this
      omega
    obtain ⟨h1, h2⟩ := amk_t1_inj kn i0' j0' i0 j0 hj0' hj ht
    simp [h1, h2]
  unfold amkA
  rw [if_neg hnm, hfind]

theorem amkA_sigma2 (α : ℤ → Bool) (vars : List ℤ) (c0 : ℤ) (kn n : ℕ)
    (hvars : ∀ v ∈ vars, v < c0) (i0 : ℕ) (hge : kn ≤ i0) (hi : i0 < n) :
    amkA α vars c0 kn n (sigma2 c0 kn n (i0 + 1))
      = decide (kn + 1 ≤ cntTrue α vars (i0 + 1)) := by
  have hge2 : c0 ≤ sigma2 c0 kn n (i0 + 1) := by
    unfold sigma2
    omega
  have hnm : sigma2 c0 kn n (i0 + 1) ∉ vars :=
    fun hmem => absurd (hvars _ hmem) (by omega)
  have hnone : (amkPairs kn n).find?
      (fun p => sigma1 c0 kn p.1 p.2 == sigma2 c0 kn n (i0 + 1)) = none := by
    rw [List.find?_eq_none]
    intro b hb
    obtain ⟨i0', hi0', j0', hj0', rfl⟩ := (mem_amkPairs kn n b).mp hb
    simp only [beq_iff_eq]
    intro hpb
    have hlt := amk_t1_lt kn n i0' j0' hi0' hj0'
    unfold sigma1 sigma2 at hpb
    simp only [Nat.add_sub_cancel, Nat.succ_sub_succ, Nat.sub_zero] at hpb
    omega
  have hfind : (List.range n).find?
      (fun i1 => decide (kn + 1 ≤ i1 + 1)
        && (sigma2 c0 kn n (i1 + 1) == sigma2 c0 kn n (i0 + 1)))
      = some i0 := by
    refine find_eq_some_of_unique _ _ _ (List.mem_range.mpr hi)
      (by simp; omega) ?_
    intro b hb hpb
    simp only [Bool.and_eq_true, decide_eq_true_eq, beq_iff_eq] at hpb
    obtain ⟨hb1, hb2⟩ := hpb
    unfold sigma2 at hb2
    simp only [Nat.succ_sub_succ, Nat.sub_zero] at hb2
    omega
  unfold amkA
  rw [if_neg hnm, hnone, hfind]

theorem rowClausesAt_mem_carry (line c0 : ℤ) (kn : ℕ) (v : ℤ) (i0 j0 : ℕ)
    (h : j0 + 1 ≤ i0) :
    [-sigma1 c0 kn i0 (j0 + 1), sigma1 c0 kn (i0 + 1) (j0 + 1)]
      ∈ rowClausesAt line c0 kn v (i0 + 1) (j0 + 1) := by
  unfold rowClausesAt
  rw [if_pos (by simp only [Nat.add_sub_cancel]; omega)]
  simp [Nat.add_sub_cancel]

theorem rowClausesAt_mem_j1 (line c0 : ℤ) (kn : ℕ) (v : ℤ) (i0 : ℕ) :
    [-v, sigma1 c0 kn (i0 + 1) 1] ∈ rowClausesAt line c0 kn v (i0 + 1) 1 := by
  unfold rowClausesAt
  simp

theorem rowClausesAt_mem_inc (line c0 : ℤ) (kn : ℕ) (v : ℤ) (i0 j0 : ℕ)
    (h : 1 ≤ j0) :
    [-sigma1 c0 kn i0 j0, -v, sigma1 c0 kn (i0 + 1) (j0 + 1)]
      ∈ rowClausesAt line c0 kn v (i0 + 1) (j0 + 1) := by
  unfold rowClausesAt
  rw [List.mem_append]
  right
  rw [if_neg (by omega)]
  simp [Nat.add_sub_cancel]

theorem mem_CL1upto (line c0 : ℤ) (kn : ℕ) (vars : List ℤ) (n i0 j0 : ℕ)
    (hi : i0 < n) (hj : j0 < min kn (i0 + 1)) (c : List ℤ)
    (hc : c ∈ rowClausesAt line c0 kn (vars.getD i0 0) (i0 + 1) (j0 + 1)) :
    c ∈ CL1upto line c0 kn vars n := by
  simp only [CL1upto, rowClausesUpto, List.mem_bind, List.mem_range]
  exact ⟨i0, hi, j0, hj, hc⟩

theorem step2_mem_carry (line c0 : ℤ) (kn n : ℕ) (v : ℤ) (i0 : ℕ)
    (h : kn + 1 ≤ i0) :
    [-sigma2 c0 kn n i0, sigma2 c0 kn n (i0 + 1)]
      ∈ step2ClausesAt line c0 kn n v (i0 + 1) := by
  unfold step2ClausesAt
  rw [if_pos (by omega), List.mem_append]
  left
  rw [if_pos (by omega)]
  simp [Nat.add_sub_cancel]

theorem step2_mem_inc (line c0 : ℤ) (kn n : ℕ) (v : ℤ) (i0 : ℕ)
    (h : kn ≤ i0) :
    [-sigma1 c0 kn i0 kn, -v, sigma2 c0 kn n (i0 + 1)]
      ∈ step2ClausesAt line c0 kn n v (i0 + 1) := by
  unfold step2ClausesAt
  rw [if_pos (by omega), List.mem_append]
  right
  simp [Nat.add_sub_cancel]

theorem mem_CL2upto (line c0 : ℤ) (kn n : ℕ) (vars : List ℤ) (i0 : ℕ)
    (hi : i0 < n) (c : List ℤ)
    (hc : c ∈ step2ClausesAt line c0 kn n (vars.getD i0 0) (i0 + 1)) :
    c ∈ CL2upto line c0 kn n vars n := by
  simp only [CL2upto, List.mem_bind, List.mem_range]
  exact ⟨i0, hi, hc⟩

theorem amk_complete (line c0 : ℤ) (vars : List ℤ) (kn n : ℕ) (α : ℤ → Bool)
    (hc0 : 1 ≤ c0) (hvars : ∀ v ∈ vars, 0 < v ∧ v < c0)
    (hkn1 : 1 ≤ kn) (hn : vars.length = n) (hklt : kn < n)
    (hcnt : cntTrue α vars n ≤ kn) :
    evalClauses (amkA α vars c0 kn n)
      (CL1upto line c0 kn vars n ++ CL2upto line c0 kn n vars n
        ++ [[-sigma2 c0 kn n n]]) = true := by
  have hvlt : ∀ v ∈ vars, v < c0 := fun v hv => (hvars v hv).2
  simp only [evalClauses, List.all_append, Bool.and_eq_true, List.all_eq_true]
  refine ⟨⟨?_, ?_⟩, ?_⟩
  · -- first-loop clauses
    intro c hc
    simp only [CL1upto, rowClausesUpto, List.mem_bind, List.mem_range] at hc
    obtain ⟨i0, hi0, j0, hj0, hc⟩ := hc
    have hvi : vars.getD i0 0 ∈ vars := getD_mem_of_lt vars i0 (by omega)
    have hvip : 0 < vars.getD i0 0 := (hvars _ hvi).1
    have hBv : amkA α vars c0 kn n (vars.getD i0 0) = α (vars.getD i0 0) :=
      amkA_mem α vars c0 kn n _ hvi
    unfold rowClausesAt at hc
    rw [List.mem_append] at hc
    rcases hc with hc | hc
    · -- carry clause
      by_cases hcar : 1 < i0 + 1 ∧ j0 + 1 ≤ i0 + 1 - 1
      · rw [if_pos hcar, List.mem_singleton] at hc
        subst hc
        obtain ⟨i1, rfl⟩ : ∃ i1, i0 = i1 + 1 := ⟨i0 - 1, by omega⟩
        simp only [Nat.add_sub_cancel]
        simp only [evalClause, List.any_cons, List.any_nil, Bool.or_false,
          Bool.or_eq_true]
        rw [evalLit_neg _ _ (sigma1_pos c0 kn _ _ hc0),
          evalLit_pos _ _ (sigma1_pos c0 kn _ _ hc0),
          amkA_sigma1 α vars c0 kn n hvlt i1 j0 (by omega) (by omega),
          amkA_sigma1 α vars c0 kn n hvlt (i1 + 1) j0 (by omega) hj0]
        have hmono : cntTrue α vars (i1 + 1) ≤ cntTrue α vars (i1 + 1 + 1) :=
          cntTrue_mono α vars (by omega)
        simp only [Bool.not_eq_true', decide_eq_false_iff_not, decide_eq_true_eq]
        omega
      · rw [if_neg hcar] at hc
        simp at hc
    · -- increment clause
      by_cases hj1 : j0 + 1 = 1
      · rw [if_pos hj1, List.mem_singleton] at hc
        subst hc
        have hj0z : j0 = 0 := by omega
        subst hj0z
        simp only [evalClause, List.any_cons, List.any_nil, Bool.or_false,
          Bool.or_eq_true]
        rw [evalLit_neg _ _ hvip, evalLit_pos _ _ (sigma1_pos c0 kn _ _ hc0),
          hBv, amkA_sigma1 α vars c0 kn n hvlt i0 0 hi0 hj0]
        have hstep := cntTrue_succ α vars i0 (by omega)
        by_cases hα : α (vars.getD i0 0) = true
        · rw [if_pos hα] at hstep
          simp only [hα, Bool.not_true, Bool.false_or, decide_eq_true_eq]
          omega
        · simp only [Bool.not_eq_true] at hα
          simp only [hα]
          tauto
      · rw [if_neg hj1, List.mem_singleton] at hc
        subst hc
        simp only [Nat.add_sub_cancel]
        obtain ⟨j1, rfl⟩ : ∃ j1, j0 = j1 + 1 := ⟨j0 - 1, by omega⟩
        obtain ⟨i1, rfl⟩ : ∃ i1, i0 = i1 + 1 := ⟨i0 - 1, by omega⟩
        simp only [evalClause, List.any_cons, List.any_nil, Bool.or_false,
          Bool.or_eq_true]
        rw [evalLit_neg _ _ (sigma1_pos c0 kn _ _ hc0), evalLit_neg _ _ hvip,
          evalLit_pos _ _ (sigma1_pos c0 kn _ _ hc0), hBv,
          amkA_sigma1 α vars c0 kn n hvlt i1 j1 (by omega) (by omega),
          amkA_sigma1 α vars c0 kn n hvlt (i1 + 1) (j1 + 1) (by omega) hj0]
        have hstep := cntTrue_succ α vars (i1 + 1) (by omega)
        by_cases hα : α (vars.getD (i1 + 1) 0) = true
        · rw [if_pos hα] at hstep
          simp only [hα, Bool.not_true, Bool.false_or, Bool.not_eq_true',
            decide_eq_false_iff_not, decide_eq_true_eq]
          omega
        · simp only [Bool.not_eq_true] at hα
          simp only [hα]
          tauto
  · -- second-loop clauses
    intro c hc
    simp only [CL2upto, List.mem_bind, List.mem_range] at hc
    obtain ⟨i0, hi0, hc⟩ := hc
    unfold step2ClausesAt at hc
    by_cases hge : kn + 1 ≤ i0 + 1
    · rw [if_pos hge, List.mem_append] at hc
      have hvi : vars.getD i0 0 ∈ vars := getD_mem_of_lt vars i0 (by omega)
      have hvip : 0 < vars.getD i0 0 := (hvars _ hvi).1
      have hBv : amkA α vars c0 kn n (vars.getD i0 0) = α (vars.getD i0 0) :=
        amkA_mem α vars c0 kn n _ hvi
      rcases hc with hc | hc
      · by_cases hc2 : kn + 2 ≤ i0 + 1
        · rw [if_pos hc2, List.mem_singleton] at hc
          subst hc
          simp only [Nat.add_sub_cancel]
          obtain ⟨i1, rfl⟩ : ∃ i1, i0 = i1 + 1 := ⟨i0 - 1, by omega⟩
          simp only [evalClause, List.any_cons, List.any_nil, Bool.or_false,
            Bool.or_eq_true]
          rw [evalLit_neg _ _ (sigma2_pos c0 kn n _ hc0),
            evalLit_pos _ _ (sigma2_pos c0 kn n _ hc0),
            amkA_sigma2 α vars c0 kn n hvlt i1 (by omega) (by omega),
            amkA_sigma2 α vars c0 kn n hvlt (i1 + 1) (by omega) (by omega)]
          have hmono : cntTrue α vars (i1 + 1) ≤ cntTrue α vars (i1 + 1 + 1) :=
            cntTrue_mono α vars (by omega)
          simp only [Bool.not_eq_true', decide_eq_false_iff_not, decide_eq_true_eq]
          omega
        · rw [if_neg hc2] at hc
          simp at hc
      · rw [List.mem_singleton] at hc
        subst hc
        simp only [Nat.add_sub_cancel]
        obtain ⟨i1, rfl⟩ : ∃ i1, i0 = i1 + 1 := ⟨i0 - 1, by omega⟩
        obtain ⟨k1, rfl⟩ : ∃ k1, kn = k1 + 1 := ⟨kn - 1, by omega⟩
        simp only [evalClause, List.any_cons, List.any_nil, Bool.or_false,
          Bool.or_eq_true]
        rw [evalLit_neg _ _ (sigma1_pos c0 (k1 + 1) _ _ hc0), evalLit_neg _ _ hvip,
          evalLit_pos _ _ (sigma2_pos c0 (k1 + 1) n _ hc0), hBv,
          amkA_sigma1 α vars c0 (k1 + 1) n hvlt i1 k1 (by omega) (by omega),
          amkA_sigma2 α vars c0 (k1 + 1) n hvlt (i1 + 1) (by omega) (by omega)]
        have hstep := cntTrue_succ α vars (i1 + 1) (by omega)
        by_cases hα : α (vars.getD (i1 + 1) 0) = true
        · rw [if_pos hα] at hstep
          simp only [hα, Bool.not_true, Bool.false_or, Bool.not_eq_true',
            decide_eq_false_iff_not, decide_eq_true_eq]
          omega
        · simp only [Bool.not_eq_true] at hα
          simp only [hα]
          tauto
    · rw [if_neg hge] at hc
      simp at hc
  · -- the final unit clause
    intro c hc
    rw [List.mem_singleton] at hc
    subst hc
    obtain ⟨n1, rfl⟩ : ∃ n1, n = n1 + 1 := ⟨n - 1, by omega⟩
    simp only [evalClause, List.any_cons, List.any_nil, Bool.or_false,
      Bool.or_eq_true]
    rw [evalLit_neg _ _ (sigma2_pos c0 kn (n1 + 1) _ hc0),
      amkA_sigma2 α vars c0 kn (n1 + 1) hvlt n1 (by omega) (by omega)]
    simp only [Bool.not_eq_true', decide_eq_false_iff_not]
    omega

theorem amk_sound_row (line c0 : ℤ) (vars : List ℤ) (kn n : ℕ) (α A : ℤ → Bool)
    (hvars : ∀ v ∈ vars, 0 < v ∧ v < c0) (hc0 : 1 ≤ c0)
    (hn : vars.length = n)
    (hagree : ∀ v ∈ vars, A v = α v)
    (hsat : ∀ c ∈ CL1upto line c0 kn vars n, evalClause A c = true) :
    ∀ i0, i0 < n → ∀ j0, j0 < min kn (i0 + 1) →
      j0 + 1 ≤ cntTrue α vars (i0 + 1) →
      A (sigma1 c0 kn (i0 + 1) (j0 + 1)) = true := by
  intro i0
  induction i0 with
  | zero =>
      intro hi0 j0 hj0 hcnt
      have hj0z : j0 = 0 := by omega
      subst hj0z
      have hstep := cntTrue_succ α vars 0 (by omega)
      rw [cntTrue_zero] at hstep
      have hα : α (vars.getD 0 0) = true := by
        by_contra hα
        simp only [Bool.not_eq_true] at hα
        rw [hα] at hstep
        simp only [Bool.false_eq_true, if_false, Nat.add_zero] at hstep
        omega
      have hvi : vars.getD 0 0 ∈ vars := getD_mem_of_lt vars 0 (by omega)
      have hclause := hsat _ (mem_CL1upto line c0 kn vars n 0 0 hi0 hj0 _
        (rowClausesAt_mem_j1 line c0 kn (vars.getD 0 0) 0))
      simp only [evalClause, List.any_cons, List.any_nil, Bool.or_false,
        Bool.or_eq_true] at hclause
      rw [evalLit_neg _ _ (hvars _ hvi).1, evalLit_pos _ _ (sigma1_pos c0 kn _ _ hc0),
        hagree _ hvi, hα] at hclause
      simpa using hclause
  | succ i1 ih =>
      intro hi0 j0 hj0 hcnt
      by_cases hd : j0 + 1 ≤ cntTrue α vars (i1 + 1)
      · have hAprev : A (sigma1 c0 kn (i1 + 1) (j0 + 1)) = true := by
          refine ih (by omega) j0 ?_ hd
          have := cntTrue_le α vars (i1 + 1)
          omega
        have hcar : j0 + 1 ≤ i1 + 1 := by
          have := cntTrue_le α vars (i1 + 1)
          omega
        have hclause := hsat _ (mem_CL1upto line c0 kn vars n (i1 + 1) j0 hi0 hj0 _
          (rowClausesAt_mem_carry line c0 kn (vars.getD (i1 + 1) 0) (i1 + 1) j0 hcar))
        simp only [evalClause, List.any_cons, List.any_nil, Bool.or_false,
          Bool.or_eq_true] at hclause
        rw [evalLit_neg _ _ (sigma1_pos c0 kn _ _ hc0),
          evalLit_pos _ _ (sigma1_pos c0 kn _ _ hc0), hAprev] at hclause
        simpa using hclause
      · have hstep := cntTrue_succ α vars (i1 + 1) (by omega)
        have hα : α (vars.getD (i1 + 1) 0) = true := by
          by_contra hα
          simp only [Bool.not_eq_true] at hα
          rw [hα] at hstep
          simp only [Bool.false_eq_true, if_false, Nat.add_zero] at hstep
          omega
        rw [if_pos hα] at hstep
        have hvi : vars.getD (i1 + 1) 0 ∈ vars := getD_mem_of_lt vars (i1 + 1) (by omega)
        by_cases hj1 : j0 = 0
        · subst hj1
          have hclause := hsat _ (mem_CL1upto line c0 kn vars n (i1 + 1) 0 hi0 hj0 _
            (rowClausesAt_mem_j1 line c0 kn (vars.getD (i1 + 1) 0) (i1 + 1)))
          simp only [evalClause, List.any_cons, List.any_nil, Bool.or_false,
            Bool.or_eq_true] at hclause
          rw [evalLit_neg _ _ (hvars _ hvi).1,
            evalLit_pos _ _ (sigma1_pos c0 kn _ _ hc0),
            hagree _ hvi, hα] at hclause
          simpa using hclause
        · obtain ⟨j1, rfl⟩ : ∃ j1, j0 = j1 + 1 := ⟨j0 - 1, by omega⟩
          have hAprev : A (sigma1 c0 kn (i1 + 1) (j1 + 1)) = true := by
            refine ih (by omega) j1 (by omega) (by omega)
          have hclause := hsat _ (mem_CL1upto line c0 kn vars n (i1 + 1) (j1 + 1)
            hi0 hj0 _
            (rowClausesAt_mem_inc line c0 kn (vars.getD (i1 + 1) 0) (i1 + 1) (j1 + 1)
              (by omega)))
          simp only [evalClause, List.any_cons, List.any_nil, Bool.or_false,
            Bool.or_eq_true] at hclause
          rw [evalLit_neg _ _ (sigma1_pos c0 kn _ _ hc0), evalLit_neg _ _ (hvars _ hvi).1,
            evalLit_pos _ _ (sigma1_pos c0 kn _ _ hc0), hAprev,
            hagree _ hvi, hα] at hclause
          simpa using hclause

theorem amk_sound_final (line c0 : ℤ) (vars : List ℤ) (kn n : ℕ) (α A : ℤ → Bool)
    (hvars : ∀ v ∈ vars, 0 < v ∧ v < c0) (hc0 : 1 ≤ c0)
    (hn : vars.length = n) (hkn1 : 1 ≤ kn)
    (hagree : ∀ v ∈ vars, A v = α v)
    (hsat1 : ∀ c ∈ CL1upto line c0 kn vars n, evalClause A c = true)
    (hsat2 : ∀ c ∈ CL2upto line c0 kn n vars n, evalClause A c = true) :
    ∀ i0, i0 < n → kn ≤ i0 → kn + 1 ≤ cntTrue α vars (i0 + 1) →
      A (sigma2 c0 kn n (i0 + 1)) = true := by
  intro i0
  induction i0 with
  | zero =>
      intro _ hge _
      exact absurd hge (by omega)
  | succ i1 ih =>
      intro hi0 hge hcnt
      by_cases hd : kn + 1 ≤ cntTrue α vars (i1 + 1)
      · have hge1 : kn ≤ i1 := by
          have := cntTrue_le α vars (i1 + 1)
          omega
        have hAprev := ih (by omega) hge1 hd
        have hclause := hsat2 _ (mem_CL2upto line c0 kn n vars (i1 + 1) hi0 _
          (step2_mem_carry line c0 kn n (vars.getD (i1 + 1) 0) (i1 + 1) (by omega)))
        simp only [evalClause, List.any_cons, List.any_nil, Bool.or_false,
          Bool.or_eq_true] at hclause
        rw [evalLit_neg _ _ (sigma2_pos c0 kn n _ hc0),
          evalLit_pos _ _ (sigma2_pos c0 kn n _ hc0), hAprev] at hclause
        simpa using hclause
      · have hstep := cntTrue_succ α vars (i1 + 1) (by omega)
        have hα : α (vars.getD (i1 + 1) 0) = true := by
          by_contra hα
          simp only [Bool.not_eq_true] at hα
          rw [hα] at hstep
          simp only [Bool.false_eq_true, if_false, Nat.add_zero] at hstep
          omega
        rw [if_pos hα] at hstep
        have hvi : vars.getD (i1 + 1) 0 ∈ vars := getD_mem_of_lt vars (i1 + 1) (by omega)
        obtain ⟨k1, rfl⟩ : ∃ k1, kn = k1 + 1 := ⟨kn - 1, by omega⟩
        have hrow : A (sigma1 c0 (k1 + 1) (i1 + 1) (k1 + 1)) = true := by
          refine amk_sound_row line c0 vars (k1 + 1) n α A hvars hc0 hn hagree hsat1
            i1 (by omega) k1 (by omega) (by omega)
        have hclause := hsat2 _ (mem_CL2upto line c0 (k1 + 1) n vars (i1 + 1) hi0 _
          (step2_mem_inc line c0 (k1 + 1) n (vars.getD (i1 + 1) 0) (i1 + 1) (by omega)))
        simp only [evalClause, List.any_cons, List.any_nil, Bool.or_false,
          Bool.or_eq_true] at hclause
        rw [evalLit_neg _ _ (sigma1_pos c0 (k1 + 1) _ _ hc0), evalLit_neg _ _ (hvars _ hvi).1,
          evalLit_pos _ _ (sigma2_pos c0 (k1 + 1) n _ hc0), hrow,
          hagree _ hvi, hα] at hclause
        simpa using hclause

theorem amk_semantics (line c0 : ℤ) (vars : List ℤ) (kn n : ℕ) (α : ℤ → Bool)
    (hc0 : 1 ≤ c0) (hvars : ∀ v ∈ vars, 0 < v ∧ v < c0)
    (hkn1 : 1 ≤ kn) (hn : vars.length = n) (hklt : kn < n) :
    (∃ A : ℤ → Bool, (∀ v ∈ vars, A v = α v) ∧
      evalClauses A (CL1upto line c0 kn vars n ++ CL2upto line c0 kn n vars n
        ++ [[-sigma2 c0 kn n n]]) = true)
    ↔ cntTrue α vars n ≤ kn := by
  constructor
  · rintro ⟨A, hagree, hsat⟩
    by_contra hgt
    push_neg at hgt
    simp only [evalClauses, List.all_append, Bool.and_eq_true, List.all_eq_true] at hsat
    obtain ⟨⟨hsat1, hsat2⟩, hsat3⟩ := hsat
    obtain ⟨n1, rfl⟩ : ∃ n1, n = n1 + 1 := ⟨n - 1, by omega⟩
    have hA : A (sigma2 c0 kn (n1 + 1) (n1 + 1)) = true :=
      amk_sound_final line c0 vars kn (n1 + 1) α A hvars hc0 hn hkn1 hagree hsat1 hsat2
        n1 (by omega) (by omega) (by omega)
    have hfinal := hsat3 _ (List.mem_singleton.mpr rfl)
    simp only [evalClause, List.any_cons, List.any_nil, Bool.or_false] at hfinal
    rw [evalLit_neg _ _ (sigma2_pos c0 kn (n1 + 1) _ hc0), hA] at hfinal
    simp at hfinal
  · intro hcnt
    exact ⟨amkA α vars c0 kn n,
      fun v hv => amkA_mem α vars c0 kn n v hv,
      amk_complete line c0 vars kn n α hc0 hvars hkn1 hn hklt hcnt⟩

/-- **C2.** For every list of distinct positive input variables (all below
the encoder's current counter `c0`) and every budget `k` with
`1 ≤ k < n`, the clause set emitted by `at_most_k_efficient` is
satisfiable by an extension of a given input assignment `α` over the
auxiliary `seq_count` variables exactly when at most `k` of the inputs
are true under `α`: more than `k` true inputs falsify some emitted
clause under every extension, and at most `k` true inputs admit a
completion satisfying all emitted clauses. -/
theorem C2_at_most_k_correct (line c0 : ℤ) (vars : List ℤ) (k : ℤ) (α : ℤ → Bool)
    (hk1 : 1 ≤ k) (hklt : k < (vars.length : ℤ))
    (hvars : ∀ v ∈ vars, 0 < v ∧ v < c0) (hnd : vars.Nodup) :
    (∃ A : ℤ → Bool, (∀ v ∈ vars, A v = α v) ∧
        evalClauses A (at_most_k_efficient ⟨c0, [], [], [], []⟩ vars k line).clauses
          = true)
      ↔ ((vars.filter (fun v => α v)).length : ℤ) ≤ k := by
  have hne : vars ≠ [] := by
    intro h
    rw [h] at hklt
    simp at hklt
    omega
  obtain ⟨v0, hv0⟩ := List.exists_mem_of_ne_nil vars hne
  have hc0 : 1 ≤ c0 := by
    have := hvars v0 hv0
    omega
  have hclauses : (at_most_k_efficient ⟨c0, [], [], [], []⟩ vars k line).clauses
      = CL1upto line c0 k.toNat vars vars.length
        ++ CL2upto line c0 k.toNat vars.length vars vars.length
        ++ [[-sigma2 c0 k.toNat vars.length vars.length]] := by
    rw [at_most_k_spec ⟨c0, [], [], [], []⟩ line vars k (fun _ _ => rfl) hk1 hklt]
    simp
  rw [hclauses,
    amk_semantics line c0 vars k.toNat vars.length α hc0 hvars (by omega) rfl (by omega)]
  unfold cntTrue
  rw [List.take_length]
  omega

theorem C2_at_most_k_correct_witness :
    (∃ A : ℤ → Bool, (∀ v ∈ [(1 : ℤ), 2, 3], A v = (v == 1)) ∧
        evalClauses A
          (at_most_k_efficient ⟨10, [], [], [], []⟩ [(1 : ℤ), 2, 3] 1 7).clauses
          = true)
      ∧ 1 ≤ (1 : ℤ) ∧ (1 : ℤ) < 3 :=
  ⟨(C2_at_most_k_correct 7 10 [(1 : ℤ), 2, 3] 1 (fun v => v == 1)
      (by norm_num) (by norm_num) (by decide) (by decide)).mpr (by decide),
    by norm_num, by norm_num⟩

end MetroMap







